import Mathlib

/-!
# go-atecc: checksum, packet codec, session engine, zone addressing, kit protocol

A shallow embedding of the driver's protocol core (`crc.go`, `packet.go`, `commands.go`,
`error.go`, `device.go`, `atecc.go`, `calib.go`, `hal_kit.go`), of the configuration
image (`ateccconf.go`) and of the hex dump of the command-line tool (`cmd/atecc/util.go`).

* Bytes, `uint8` and `uint16` values are natural numbers, reduced modulo `2^8` / `2^16`
  wherever the Go code converts or can overflow.  Go `int` values are integers.  The
  sum in the range check of `readBytesZone`, which adds the caller's `offset` to
  `len(data)` before anything is validated, wraps at 64 bits as it does in Go; the other
  `int` arithmetic is exact (a wrap-around there needs a value beyond `2^63`).
* Byte slices are lists.  A function that writes into a slice argument returns the new
  contents of that slice with its results.  Slices are taken to have capacity equal to
  their length, except `readBuf` in `readBytesZone`, which is a prefix of a 32-byte array,
  and the arguments of `kitParseRsp`, whose capacities are given.
* Texts are lists of character codes.  The functions of the Go library that the package
  calls (`encoding/hex`, `encoding/binary`, `bytes`, `strings`, `fmt.Sscanf`) are written
  out for the calls the package makes.
* A function returning `(value, error)` returns the pair with an `Option Err` (`none`
  is `nil`).  A run-time panic is an explicit outcome, and so is a loop still running
  when the iteration budget handed to the model is used up.
* The transport (`HAL`) and the context are an environment with its own state; the calls
  made on the transport are recorded.  Logging (`d.log`, the standard-error message on
  `errRecvBuffer`) has no effect on results and is left out.
-/

namespace Atecc

/-! ## Definitions -/

/-! ### crc.go -/

/-- One iteration of the inner loop of `crc16`: bit `j` of the input byte `b` is
compared with the top bit of the register, the register is shifted left by one
(as a `uint16`) and the polynomial is xor-ed in when the two bits differ. -/
def crc16Bit (b : Nat) (crc : Nat) (j : Nat) : Nat :=
  let data_bit : Nat := if b &&& (1 <<< j) != 0 then 1 else 0
  let crc_bit : Nat := (crc >>> 15) % 256
  let crc := (crc <<< 1) % 65536
  if data_bit != crc_bit then (crc ^^^ 0x8005) else crc

/-- The body of the outer loop of `crc16`: `for j := 0; j < 8; j++`. -/
def crc16Byte (crc : Nat) (b : Nat) : Nat :=
  (List.range 8).foldl (crc16Bit b) crc

/-- The function `crc16`: the register starts at zero and absorbs the bytes in order. -/
def crc16 (data : List Nat) : Nat :=
  data.foldl crc16Byte 0

/-! ### The checksum as the specification words it: a remainder over GF(2)

Polynomials over GF(2) are natural numbers whose bit `i` is the coefficient of
`x^i`; addition of polynomials is `^^^`. -/

/-- The input bits in the order the checksum consumes them: byte by byte, each
byte from its least-significant to its most-significant bit. -/
def msgBits : List Nat → List Bool
  | [] => []
  | b :: rest => (List.range 8).map (fun j => b.testBit j) ++ msgBits rest

/-- The polynomial whose coefficients are the given bits, the first bit being the
coefficient of the highest degree. -/
def gf2OfBits (bits : List Bool) : Nat :=
  bits.foldl (fun m bit => 2 * m + bit.toNat) 0

/-- Product of two polynomials over GF(2) (carry-less multiplication). -/
def gf2Mul (a b : Nat) : Nat :=
  if a = 0 then 0 else (if a % 2 = 1 then b else 0) ^^^ (2 * gf2Mul (a / 2) b)
termination_by a
decreasing_by omega

/-- The register `crc` is a remainder of the bits read so far: its degree is
below 16 and it differs from `bits * x^16` by a multiple of the polynomial. -/
def CrcInv (bits : List Bool) (crc : Nat) : Prop :=
  crc < 2 ^ 16 ∧ ∃ q, gf2OfBits bits * 2 ^ 16 = gf2Mul q 0x18005 ^^^ crc

/-! ### error.go -/

/-- The error values of the package.  The named sentinels of `error.go` keep their
names; every `errors.New` written inline in a function is one constructor, named
after its message.  `hal` and `ctx` stand for the errors produced by the transport
and by the context (`ctx.Err()`), which the driver passes through unchanged;
`hexInvalidByte`, `hexErrLength` and `unexpectedEOF` are the errors of `encoding/hex`
and `encoding/binary` (`io`) that the package passes through. -/
inductive Err where
  | errCheckMacVerifyFailed
  | errParseError
  | errProcessFailure
  | errSelfTestFailed
  | errHealthTest
  | errExecution
  | errWakeSuccessful
  | errCRC
  | errUnknown
  | errRecvBuffer
  | emptyResponse
  | dataSizeExceedsMaximum
  | noResponse
  | receiveFailed
  | receivedCrcMissmatch
  | invalidReadZoneSize
  | invalidWriteZoneSize
  | invalidZoneReceived
  | invalidSlotReceived
  | invalidSlot
  | invalidOffset
  | invalidLength
  | invalidOffsetAndZone
  | invalidParameterRecieved
  | unknownClockDivider
  | unknownExecutionTimeForDevice
  | unknownExecutionTimeForOp
  | unexpectedMacForWordWrite
  | writeDataExceedsBlockSize
  | configDataSizeMismatch
  | unknownLockZone
  | errNoDevice
  | failedToFindEndOfFrame
  | invalidKitDevice
  | unknownDeviceType
  | unknownKitType
  | failedToDiscoverDevice
  | hexInvalidByte (c : Nat)
  | hexErrLength
  | unsupportedConfig
  | configExceedsMaximumSize
  | unexpectedEOF
  | requiresInputForNonce
  | invalidNonceSizeRequested
  | unsupportedVerifyKeySize
  | invalidPublicKeyReceived
  | expectedMessageSignatureAndPublicKey
  | hal (code : Nat)
  | ctx (code : Nat)
  deriving DecidableEq, Repr

open Err

/-- The function `validateResponseStatusCode`. -/
def validateResponseStatusCode (response : List Nat) : Option Err :=
  match response with
  | [] => some emptyResponse
  | statusCode :: _ =>
    if statusCode = 0x00 then none
    else if statusCode = 0x01 then some errCheckMacVerifyFailed
    else if statusCode = 0x03 then some errParseError
    else if statusCode = 0x05 then some errProcessFailure
    else if statusCode = 0x07 then some errSelfTestFailed
    else if statusCode = 0x08 then some errHealthTest
    else if statusCode = 0x0f then some errExecution
    else if statusCode = 0x11 then some errWakeSuccessful
    else if statusCode = 0xff then some errCRC
    else some errUnknown

/-! ### Go slices -/

/-- The slice expression `s[lo:hi]` on a slice whose capacity is its length:
`none` is the run-time panic for bounds outside `0 <= lo <= hi <= len(s)`. -/
def goSlice (s : List Nat) (lo hi : Int) : Option (List Nat) :=
  if 0 ≤ lo ∧ lo ≤ hi ∧ hi ≤ (s.length : Int) then
    some ((s.drop lo.toNat).take (hi.toNat - lo.toNat))
  else none

/-- The builtin `copy(dst, src)`: the new contents of `dst`. The number of
bytes copied is `min (len dst) (len src)`. -/
def goCopy (dst src : List Nat) : List Nat :=
  src.take dst.length ++ dst.drop src.length

/-- The function `binary.LittleEndian.Uint16`: panics on fewer than two bytes. -/
def uint16LE (b : List Nat) : Option Nat :=
  match b with
  | lo :: hi :: _ => some (lo ||| (hi <<< 8))
  | _ => none

/-- The function `binary.LittleEndian.AppendUint16`. -/
def appendUint16 (b : List Nat) (v : Nat) : List Nat :=
  b ++ [v % 256, (v >>> 8) % 256]

/-! ### Go integers -/

/-- The value of an `int` expression on a 64-bit platform: the exact result wrapped
into `[-2^63, 2^63)`. -/
def wrapInt (x : Int) : Int := (x + 2 ^ 63) % 2 ^ 64 - 2 ^ 63

/-! ### packet.go -/

def atcaCmdSizeMin : Nat := 7
def atcaCmdSizeMax : Nat := 4 * 36 + 7
def atcaBlockSize : Nat := 32
def atcaWordSize : Nat := 4

/-- The struct `packet`: `opcode`, `param1` are `uint8`, `param2` is `uint16`. -/
structure packet where
  opcode : Nat
  param1 : Nat
  param2 : Nat
  data : List Nat
  deriving DecidableEq, Repr

/-- The function `newPacket`. -/
def newPacket (opcode param1 param2 : Nat) (data : List Nat) : Except Err packet :=
  if data.length > atcaCmdSizeMax then .error dataSizeExceedsMaximum
  else .ok { opcode := opcode, param1 := param1, param2 := param2, data := data }

/-- The method `packet.Size`: a `uint8` sum, `atcaCmdSizeMin + uint8(len(p.data))`. -/
def packet.Size (p : packet) : Nat :=
  (atcaCmdSizeMin + p.data.length % 256) % 256

/-- The method `packetEncoder.Encode`; its error result is always nil. -/
def Encode (p : packet) : List Nat × Option Err :=
  let size := p.Size
  let b : List Nat := []
  let b := b ++ [size]
  let b := b ++ [p.opcode]
  let b := b ++ [p.param1]
  let b := appendUint16 b p.param2
  let b := b ++ p.data
  (appendUint16 b (crc16 b), none)

/-- The frame layout as the specification words it:
`[7+n, opcode, param1, param2 & 0xFF, param2 >> 8] ++ data ++ [c & 0xFF, c >> 8]`, where
`n = len(data)` and `c` is `crc16` of the first `5 + n` bytes. -/
def frameLayout (opcode param1 param2 : Nat) (data : List Nat) : List Nat :=
  let head := [7 + data.length, opcode, param1, param2 &&& 0xFF, param2 >>> 8] ++ data
  head ++ [crc16 head &&& 0xFF, crc16 head >>> 8]

/-! ### commands.go -/

def atcaInfo : Nat := 0x30
def atcaLock : Nat := 0x17
def atcaRead : Nat := 0x02
def atcaUpdateExtra : Nat := 0x20
def atcaWrite : Nat := 0x12
def atcaZoneReadWrite32 : Nat := 0x80

def infoModeRevision : Nat := 0x0

/-- The function `newInfoCommand`. -/
def newInfoCommand (mode : Nat) : Except Err packet :=
  newPacket atcaInfo mode 0 []

/-- The function `newReadCommand`. -/
def newReadCommand (zone : Nat) (param2 : Nat) (block : Bool) : Except Err packet :=
  let param1 := zone
  let param1 := if block then param1 ||| atcaZoneReadWrite32 else param1
  newPacket atcaRead param1 param2 []

/-- The function `newWriteCommand`: the payload is the whole 64-byte scratch
array `data[:]`, of which the first `n` bytes are the value. -/
def newWriteCommand (zone : Nat) (addr : Nat) (value : List Nat) (mac : Option (List Nat)) :
    Except Err packet :=
  let data : List Nat := List.replicate (atcaBlockSize * 2) 0
  let param1 := zone
  let n := min data.length value.length
  let data := goCopy data value
  if n = atcaWordSize then
    if mac.isSome then .error unexpectedMacForWordWrite
    else newPacket atcaWrite param1 addr data
  else if n = atcaBlockSize then
    let param1 := param1 ||| atcaZoneReadWrite32
    let data := match mac with
      | some m => data.take n ++ goCopy (data.drop n) m
      | none => data
    newPacket atcaWrite param1 addr data
  else .error writeDataExceedsBlockSize

/-- The function `newUpdateExtraCommand`. -/
def newUpdateExtraCommand (mode : Nat) (newValue : Nat) : Except Err packet :=
  newPacket atcaUpdateExtra mode newValue []

/-! ### device.go -/

def DeviceATECC608 : Int := 0
def ClockDividerM0 : Nat := 0x00 >>> 3
def ClockDividerM1 : Nat := 0x28 >>> 3
def ClockDividerM2 : Nat := 0x68 >>> 3

/-- The table `deviceExecutionTimes`, in milliseconds: the entry of table `t`
(0, 1, 2 for ATECC608-M0, -M1, -M2) for an opcode, if there is one. -/
def deviceExecutionTimes (t : Nat) (opcode : Nat) : Option Nat :=
  if opcode = 0x51 then some 27
  else if opcode = 0x28 then some 40
  else if opcode = 0x24 then some 25
  else if opcode = 0x1c then some 50
  else if opcode = 0x43 then some (if t = 0 then 75 else if t = 1 then 172 else 531)
  else if opcode = 0x15 then some (if t = 0 then 25 else 35)
  else if opcode = 0x40 then some (if t = 0 then 115 else if t = 1 then 215 else 653)
  else if opcode = 0x30 then some 5
  else if opcode = 0x56 then some 165
  else if opcode = 0x17 then some 35
  else if opcode = 0x08 then some 55
  else if opcode = 0x16 then some 20
  else if opcode = 0x46 then some 50
  else if opcode = 0x1b then some 23
  else if opcode = 0x02 then some 5
  else if opcode = 0x80 then some (if t = 0 then 80 else if t = 1 then 160 else 480)
  else if opcode = 0x77 then some (if t = 0 then 250 else if t = 1 then 625 else 2324)
  else if opcode = 0x47 then some (if t = 0 then 36 else if t = 1 then 42 else 75)
  else if opcode = 0x41 then some (if t = 0 then 115 else if t = 1 then 220 else 665)
  else if opcode = 0x20 then some 10
  else if opcode = 0x45 then some (if t = 0 then 105 else if t = 1 then 295 else 1085)
  else if opcode = 0x12 then some 45
  else none

/-- The function `getDeviceExecutionTime`: the index of the table to use. -/
def getDeviceExecutionTime (dt : Int) (div : Nat) : Except Err Nat :=
  if dt = DeviceATECC608 then
    if div = ClockDividerM0 then .ok 0
    else if div = ClockDividerM1 then .ok 1
    else if div = ClockDividerM2 then .ok 2
    else .error unknownClockDivider
  else .error unknownExecutionTimeForDevice

/-- The function `getExecutionTime`. -/
def getExecutionTime (dt : Int) (div : Nat) (opcode : Nat) : Except Err Nat :=
  match getDeviceExecutionTime dt div with
  | .error e => .error e
  | .ok t =>
    match deviceExecutionTimes t opcode with
    | none => .error unknownExecutionTimeForOp
    | some ms => .ok ms

/-! ### atecc.go: zones -/

def ZoneConfig : Nat := 0x00
def ZoneOTP : Nat := 0x01
def ZoneData : Nat := 0x02
def zoneSizeConfig : Nat := 128
def zoneSizeOTP : Nat := 64

/-- The function `getZoneSize`. -/
def getZoneSize (zone : Nat) (slot : Nat) : Except Err Int :=
  if zone = ZoneConfig then .ok zoneSizeConfig
  else if zone = ZoneOTP then .ok zoneSizeOTP
  else if zone = ZoneData then
    if slot < 8 then .ok 36
    else if slot = 8 then .ok 416
    else if slot < 16 then .ok 72
    else .error invalidSlotReceived
  else .error invalidZoneReceived

/-! ### ateccconf.go: offsets the engine respects -/

def ChipModeOffset : Nat := 19
def PermanentOffset608 : Nat := 16
def LockOffsetBlock : Nat := 2
def LockOffsetWord : Nat := 5
def LockOffset : Nat := LockOffsetBlock * 32 + LockOffsetWord * 4

/-! ### calib.go: addresses -/

/-- The function `getAddr`; the shifts are `uint16` shifts. -/
def getAddr (zone : Nat) (slot : Nat) (block : Nat) (offset : Nat) : Except Err Nat :=
  let offset := offset &&& 0x07
  if zone = ZoneConfig ∨ zone = ZoneOTP then
    let addr := (block <<< 3) % 65536
    let addr := addr ||| offset
    .ok addr
  else if zone = ZoneData then
    let addr := (slot <<< 3) % 65536
    let addr := addr ||| offset
    let addr := addr ||| ((block <<< 8) % 65536)
    .ok addr
  else .error invalidZoneReceived

/-! ### hal.go, iface.go: the transport and the session -/

/-- The interface `HAL` over a transport with internal state `σ`.  `Read` is given
the length of the buffer `p` and answers with the bytes it stores at the start of
`p`, the count it reports and its error; `Write` is given the bytes of `p`. -/
structure HAL (σ : Type) where
  Read : Nat → σ → (List Nat × Int × Option Err) × σ
  Write : List Nat → σ → (Int × Option Err) × σ
  Idle : σ → Option Err × σ
  Wake : σ → Option Err × σ

/-- What a command runs against: the transport, and the outcome of each
`select` between `ctx.Done()` and `time.After(d)` (`some e` when the context
wins, `e` being `ctx.Err()`; `none` when the timer fires). -/
structure Env (σ : Type) where
  hal : HAL σ
  ctxDone : Nat → σ → Option Err × σ

/-- The type `deviceState`. -/
inductive deviceState where
  | deviceStateUnknown
  | deviceStateIdle
  | deviceStateActive
  deriving DecidableEq, Repr

open deviceState

/-- The fields of `IfaceConfig` the engine reads (`WakeDelay` in nanoseconds). -/
structure IfaceConfig where
  DeviceType : Int
  WakeDelay : Nat
  RxRetries : Int
  deriving DecidableEq, Repr

/-- A call made on the transport, recorded in order. -/
inductive HalCall where
  | Wake
  | Write (b : List Nat)
  | Read (len : Nat)
  | Idle
  deriving DecidableEq, Repr

/-- The struct `Dev`: the state of the transport and the context, the session
state, the configuration and the clock divider, together with the record of the
calls made on the transport so far. -/
structure Dev (σ : Type) where
  env : σ
  state : deviceState
  cfg : IfaceConfig
  clockDivider : Nat
  calls : List HalCall

/-- What a Go function leaves behind: its results, a run-time panic, or a loop
that was still running when the iteration budget of the model was used up. -/
inductive Outcome (α : Type) where
  | ret (v : α)
  | panicked
  | outOfFuel
  deriving DecidableEq, Repr

/-- How the transmission loop of `executeResponse` ends: it falls through with
the variable `err`, or returns from the function with the context error. -/
inductive SendResult where
  | fellThrough (err : Option Err)
  | returned (err : Err)
  deriving DecidableEq, Repr

/-- The loop `for i := -1; i < d.cfg.RxRetries; i++` of `executeResponse`, with
`n` iterations left and the current value of the variable `err`. -/
def sendLoop {σ : Type} (E : Env σ) (b : List Nat) :
    Nat → Option Err → Dev σ → SendResult × Dev σ
  | 0, err, d => (.fellThrough err, d)
  | n + 1, err, d =>
    let (_, d) : Option Err × Dev σ :=
      if d.state ≠ deviceStateActive then
        let (e, s) := E.hal.Wake d.env
        let d := { d with env := s, calls := d.calls ++ [HalCall.Wake] }
        if e = none then (e, { d with state := deviceStateActive }) else (e, d)
      else (err, d)
    let ((_, e), s) := E.hal.Write b d.env
    let d := { d with env := s, calls := d.calls ++ [HalCall.Write b] }
    match e with
    | none => (.fellThrough none, { d with state := deviceStateActive })
    | some e =>
      match E.ctxDone d.cfg.WakeDelay d.env with
      | (some ce, s) => (.returned ce, { d with env := s })
      | (none, s) => sendLoop E b n (some e) { d with env := s }

/-- The results of `executeResponse`: `(n, err)` and the contents of `recv`. -/
abbrev ExecOut := Outcome (Int × Option Err × List Nat)

/-- The part of `executeResponse` after `hal.Read` has returned without error:
the checks on the frame in `buf`, of which `size` bytes were reported, and the
copy into `recv`. -/
def checkResponse (buf : List Nat) (size : Int) (recv : List Nat) : ExecOut :=
  if buf.length = 0 then .ret (0, some noResponse, recv)
  else if buf.length < 4 then .ret (0, some receiveFailed, recv)
  else
    match goSlice buf 0 (size - 2), goSlice buf (size - 2) buf.length with
    | some sizedResponse, some crc =>
      match uint16LE crc with
      | none => .panicked
      | some c =>
        if crc16 sizedResponse ≠ c then .ret (0, some receivedCrcMissmatch, recv)
        else
          match goSlice sizedResponse 1 sizedResponse.length with
          | none => .panicked
          | some payload =>
            if size = 4 then
              match validateResponseStatusCode payload with
              | some e => .ret (0, some e, recv)
              | none => .ret ((min recv.length payload.length : Nat), none, goCopy recv payload)
            else .ret ((min recv.length payload.length : Nat), none, goCopy recv payload)
    | _, _ => .panicked

/-- The part of `executeResponse` between the `defer` statement and the return:
the execution-time wait, the read and the validation of the response. -/
def awaitResponse {σ : Type} (E : Env σ) (p : packet) (recv : List Nat) (d : Dev σ) :
    ExecOut × Dev σ :=
  match getExecutionTime d.cfg.DeviceType d.clockDivider p.opcode with
  | .error e => (.ret (0, some e, recv), d)
  | .ok t =>
    match E.ctxDone t d.env with
    | (some ce, s) => (.ret (0, some ce, recv), { d with env := s })
    | (none, s) =>
      let buf : List Nat := List.replicate (recv.length + 3) 0
      let ((bytes, size, err), s) := E.hal.Read buf.length s
      let buf := goCopy buf bytes
      let d := { d with env := s, calls := d.calls ++ [HalCall.Read (recv.length + 3)] }
      match err with
      | some e => (.ret (0, some e, recv), d)
      | none => (checkResponse buf size recv, d)

/-- The method `Dev.executeResponse`.  The deferred function (`hal.Idle`, then
`state = deviceStateIdle`) runs on every way out of the code after it, a panic
included. -/
def executeResponse {σ : Type} (E : Env σ) (p : packet) (recv : List Nat) (d : Dev σ) :
    ExecOut × Dev σ :=
  match Encode p with
  | (_, some e) => (.ret (0, some e, recv), d)
  | (b, none) =>
    match sendLoop E b (d.cfg.RxRetries + 1).toNat none d with
    | (.returned ce, d) => (.ret (0, some ce, recv), d)
    | (.fellThrough (some e), d) => (.ret (0, some e, recv), d)
    | (.fellThrough none, d) =>
      let (out, d) := awaitResponse E p recv d
      let (_, s) := E.hal.Idle d.env
      (out, { d with env := s, calls := d.calls ++ [HalCall.Idle], state := deviceStateIdle })

/-! ### calib.go: the zone addressing engine

The zone functions reach the device only through `d.executeResponse`.  They are
written over an arbitrary behaviour `X` of that method on a device state `σ`
(`executeResponse E` is one such behaviour), and every packet handed to it is
recorded, in order. -/

/-- A behaviour of `d.executeResponse(ctx, p, recv)`: from the packet, the
contents of `recv` and the device state, the results `(n, err)`, the bytes now
standing at the start of `recv`, and the new device state. -/
abbrev Executor (σ : Type) := packet → List Nat → σ → ExecOut × σ

/-- The device state together with the packets passed to `executeResponse` so far. -/
structure World (σ : Type) where
  dev : σ
  issued : List packet

/-- A call `d.executeResponse(ctx, p, recv)`. -/
def execResponse {σ : Type} (X : Executor σ) (p : packet) (recv : List Nat) (w : World σ) :
    ExecOut × World σ :=
  let (out, s) := X p recv w.dev
  let w : World σ := { dev := s, issued := w.issued ++ [p] }
  match out with
  | .ret (n, err, r) => (.ret (n, err, goCopy recv r), w)
  | .panicked => (.panicked, w)
  | .outOfFuel => (.outOfFuel, w)

/-- The method `Dev.execute`: `executeResponse` into a one-byte buffer, the count dropped. -/
def execute {σ : Type} (X : Executor σ) (p : packet) (w : World σ) :
    Outcome (Option Err) × World σ :=
  match execResponse X p [0] w with
  | (.ret (_, err, _), w) => (.ret err, w)
  | (.panicked, w) => (.panicked, w)
  | (.outOfFuel, w) => (.outOfFuel, w)

/-- The method `Dev.readZone`; the last component of the result is `data` afterwards. -/
def readZone {σ : Type} (X : Executor σ) (zone slot block offset : Nat) (data : List Nat)
    (w : World σ) : ExecOut × World σ :=
  if data.length ≠ atcaBlockSize ∧ data.length ≠ atcaWordSize then
    (.ret (0, some invalidReadZoneSize, data), w)
  else
    match getAddr zone slot block offset with
    | .error e => (.ret (0, some e, data), w)
    | .ok addr =>
      let blockMode : Bool := data.length = atcaBlockSize
      match newReadCommand zone addr blockMode with
      | .error e => (.ret (0, some e, data), w)
      | .ok cmd => execResponse X cmd data w

/-- The loop of `Dev.readBytesZone`.  `buf` is the 32-byte array, `readLen` the
length of `readBuf` (a prefix of `buf`, of capacity 32); the first argument bounds
the number of iterations still allowed. -/
def readBytesLoop {σ : Type} (X : Executor σ) (zone slot : Nat) (offset zoneSize : Int) :
    Nat → List Nat → Nat → Int → Int → Int → List Nat → World σ → ExecOut × World σ
  | 0, _, _, _, _, _, _, w => (.outOfFuel, w)
  | fuel + 1, buf, readLen, curBlock, curOffset, dataIdx, data, w =>
    if ¬ (dataIdx < (data.length : Int)) then (.ret (dataIdx, none, data), w)
    else
      let (readLen, curOffset) : Nat × Int :=
        if readLen = atcaBlockSize ∧ zoneSize - curBlock * 32 < 32 then
          (atcaWordSize, ((dataIdx + offset).tdiv 4).tmod (32 / 4))
        else (readLen, curOffset)
      match readZone X zone slot (curBlock % 256).toNat (curOffset % 256).toNat
          (buf.take readLen) w with
      | (.panicked, w) => (.panicked, w)
      | (.outOfFuel, w) => (.outOfFuel, w)
      | (.ret (_, some e, _), w) => (.ret (dataIdx, some e, data), w)
      | (.ret (n, none, rb), w) =>
        let buf := goCopy buf rb
        let readBufIdx : Int := 0
        let readOffset := curBlock * 32 + curOffset * 4
        let readBufIdx := if readOffset < offset then offset - readOffset else readBufIdx
        let copyLength := n - readBufIdx
        let copyLength :=
          if (data.length : Int) - dataIdx < copyLength then (data.length : Int) - dataIdx
          else copyLength
        match goSlice data dataIdx data.length,
            goSlice buf readBufIdx (readBufIdx + copyLength) with
        | some dst, some src =>
          let data := data.take dataIdx.toNat ++ goCopy dst src
          let dataIdx := dataIdx + copyLength
          if n = 32 then
            readBytesLoop X zone slot offset zoneSize fuel buf readLen (curBlock + 1) curOffset
              dataIdx data w
          else
            readBytesLoop X zone slot offset zoneSize fuel buf readLen curBlock (curOffset + 1)
              dataIdx data w
        | _, _ => (.panicked, w)

/-- The method `Dev.readBytesZone`, its loop bounded by `fuel` iterations.  The zone size
is taken for slot 0, as in the source: `getZoneSize(zone, 0)`, and the sum
`offset+len(data)` of the range check is an `int` sum, which wraps. -/
def readBytesZone {σ : Type} (X : Executor σ) (fuel : Nat) (zone slot : Nat) (offset : Int)
    (data : List Nat) (w : World σ) : ExecOut × World σ :=
  if data.length = 0 then (.ret (0, none, data), w)
  else
    match getZoneSize zone 0 with
    | .error e => (.ret (0, some e, data), w)
    | .ok zoneSize =>
      if wrapInt (offset + data.length) > zoneSize then
        (.ret (0, some invalidParameterRecieved, data), w)
      else
        let buf : List Nat := List.replicate atcaBlockSize 0
        let curBlock := offset.tdiv 32
        readBytesLoop X zone slot offset zoneSize fuel buf atcaBlockSize curBlock 0 0 data w

/-- The method `Dev.write`. -/
def write {σ : Type} (X : Executor σ) (zone addr : Nat) (data : List Nat)
    (mac : Option (List Nat)) (w : World σ) : Outcome (Option Err) × World σ :=
  match newWriteCommand zone addr data mac with
  | .error e => (.ret (some e), w)
  | .ok command => execute X command w

/-- The method `Dev.writeZone`. -/
def writeZone {σ : Type} (X : Executor σ) (zone slot block offset : Nat) (data : List Nat)
    (w : World σ) : Outcome (Option Err) × World σ :=
  if data.length ≠ atcaBlockSize ∧ data.length ≠ atcaWordSize then
    (.ret (some invalidWriteZoneSize), w)
  else
    match getAddr zone slot block offset with
    | .error e => (.ret (some e), w)
    | .ok addr => write X zone addr data none w

/-- The loop of `Dev.writeBytesZone`; `block` and `word` are `uint8` counters, the
first argument bounds the number of iterations still allowed. -/
def writeBytesLoop {σ : Type} (X : Executor σ) (zone slot : Nat) (data : List Nat) :
    Nat → Nat → Nat → Nat → World σ → Outcome (Int × Option Err) × World σ
  | 0, _, _, _, w => (.outOfFuel, w)
  | fuel + 1, block, word, index, w =>
    if ¬ (index < data.length) then (.ret (index, none), w)
    else
      let inLockBlock : Bool := zone = ZoneConfig ∧ block = LockOffsetBlock
      let inLockWord : Bool := inLockBlock ∧ word = LockOffsetWord
      let remaining := data.length - index
      let writeBlock : Bool := word = 0 ∧ remaining ≥ atcaBlockSize
      if writeBlock ∧ ¬ inLockBlock then
        match goSlice data index (index + atcaBlockSize) with
        | none => (.panicked, w)
        | some chunk =>
          match writeZone X zone slot block 0 chunk w with
          | (.panicked, w) => (.panicked, w)
          | (.outOfFuel, w) => (.outOfFuel, w)
          | (.ret (some e), w) => (.ret (index, some e), w)
          | (.ret none, w) =>
            writeBytesLoop X zone slot data fuel ((block + 1) % 256) word
              (index + atcaBlockSize) w
      else
        let next (w : World σ) : Outcome (Int × Option Err) × World σ :=
          let index := index + atcaWordSize
          let word := (word + 1) % 256
          if word = atcaBlockSize / atcaWordSize then
            writeBytesLoop X zone slot data fuel ((block + 1) % 256) 0 index w
          else
            writeBytesLoop X zone slot data fuel block word index w
        if ¬ inLockWord then
          match goSlice data index (index + atcaWordSize) with
          | none => (.panicked, w)
          | some chunk =>
            match writeZone X zone slot block word chunk w with
            | (.panicked, w) => (.panicked, w)
            | (.outOfFuel, w) => (.outOfFuel, w)
            | (.ret (some e), w) => (.ret (index, some e), w)
            | (.ret none, w) => next w
        else next w

/-- The method `Dev.writeBytesZone` (`offset` is a `uint8`), its loop bounded by
`fuel` iterations. -/
def writeBytesZone {σ : Type} (X : Executor σ) (fuel : Nat) (zone slot : Nat) (offset : Nat)
    (data : List Nat) (w : World σ) : Outcome (Int × Option Err) × World σ :=
  if zone = ZoneData ∧ slot > 15 then (.ret (0, some invalidSlot), w)
  else if data.length = 0 then (.ret (0, none), w)
  else if offset % atcaWordSize ≠ 0 then (.ret (0, some invalidOffset), w)
  else if data.length % atcaWordSize ≠ 0 then (.ret (0, some invalidLength), w)
  else
    match getZoneSize zone slot with
    | .error e => (.ret (0, some e), w)
    | .ok zoneSize =>
      if (offset : Int) + data.length > zoneSize then (.ret (0, some invalidOffsetAndZone), w)
      else
        let block := offset / atcaBlockSize
        let word := (offset % atcaBlockSize) / atcaWordSize
        writeBytesLoop X zone slot data fuel block word 0 w

/-! ### atecc.go: the exported write -/

/-- The method `Dev.WriteBytesZone`: `writeBytesZone` with the count dropped. -/
def WriteBytesZone {σ : Type} (X : Executor σ) (fuel : Nat) (zone slot : Nat) (offset : Nat)
    (data : List Nat) (w : World σ) : Outcome (Option Err) × World σ :=
  match writeBytesZone X fuel zone slot offset data w with
  | (.ret (_, err), w) => (.ret err, w)
  | (.panicked, w) => (.panicked, w)
  | (.outOfFuel, w) => (.outOfFuel, w)

/-! ### calib.go: the configuration zone as a whole -/

def updateModeUserExtra : Nat := 0x00
def updateModeUserExtraAdd : Nat := 0x01

/-- The method `Dev.updateExtra`. -/
def updateExtra {σ : Type} (X : Executor σ) (mode newValue : Nat) (w : World σ) :
    Outcome (Option Err) × World σ :=
  match newUpdateExtraCommand mode newValue with
  | .error e => (.ret (some e), w)
  | .ok command => execute X command w

/-- The method `Dev.writeConfigZone`, the loop of `writeBytesZone` bounded by `fuel`
iterations.  `data[84]` and `data[85]` are evaluated when their calls are reached. -/
def writeConfigZone {σ : Type} (X : Executor σ) (fuel : Nat) (data : List Nat)
    (w : World σ) : Outcome (Int × Option Err) × World σ :=
  if zoneSizeConfig ≠ data.length then (.ret (0, some configDataSizeMismatch), w)
  else
    match goSlice data PermanentOffset608 data.length with
    | none => (.panicked, w)
    | some rest =>
      match writeBytesZone X fuel ZoneConfig 0 PermanentOffset608 rest w with
      | (.panicked, w) => (.panicked, w)
      | (.outOfFuel, w) => (.outOfFuel, w)
      | (.ret (n, some e), w) => (.ret (n, some e), w)
      | (.ret (n, none), w) =>
        match data.get? 84 with
        | none => (.panicked, w)
        | some userExtra =>
          match updateExtra X updateModeUserExtra userExtra w with
          | (.panicked, w) => (.panicked, w)
          | (.outOfFuel, w) => (.outOfFuel, w)
          | (.ret (some e), w) => (.ret (n, some e), w)
          | (.ret none, w) =>
            match data.get? 85 with
            | none => (.panicked, w)
            | some userExtraAdd =>
              match updateExtra X updateModeUserExtraAdd userExtraAdd w with
              | (.panicked, w) => (.panicked, w)
              | (.outOfFuel, w) => (.outOfFuel, w)
              | (.ret err, w) => (.ret (n, err), w)

/-! ### ateccconf.go: the configuration image

The package `ateccconf`.  A struct that wraps a single `Bits uint8` (`AESEnable`,
`I2CEnable`, `CountMatch`, `ChipMode608`, `UseLock`, `VolatileKeyPermission`,
`X509Format`) is its byte; `LockState` is a `byte` and `SlotLocked` a `uint16`.  Arrays
are lists of their fixed length. -/

/-- The variable `Default608`: the example configuration without its first 16 bytes. -/
def Default608 : List Nat := [
  0x6a, 0x00, 0x00, 0x01, 0x85, 0x00, 0x82, 0x00, 0x85, 0x20, 0x85, 0x20, 0x85, 0x20, 0xc6, 0x46,
  0x8f, 0x0f, 0x9f, 0x8f, 0x0f, 0x0f, 0x8f, 0x0f, 0x0f, 0x0f, 0x0f, 0x0f, 0x0f, 0x0f, 0x0f, 0x0f,
  0x0d, 0x1f, 0x0f, 0x0f, 0xff, 0xff, 0xff, 0xff, 0x00, 0x00, 0x00, 0x00, 0xff, 0xff, 0xff, 0xff,
  0x00, 0x00, 0x00, 0x00, 0x00, 0x00, 0x03, 0xf7, 0x00, 0x69, 0x76, 0x00, 0x00, 0x00, 0x00, 0x00,
  0x00, 0x00, 0x00, 0x00, 0x00, 0x00, 0x55, 0x55, 0xff, 0xff, 0x0e, 0x60, 0x00, 0x00, 0x00, 0x00,
  0x53, 0x00, 0x53, 0x00, 0x73, 0x00, 0x73, 0x00, 0x73, 0x00, 0x38, 0x00, 0x7c, 0x00, 0x1c, 0x00,
  0x3c, 0x00, 0x1a, 0x00, 0x3c, 0x00, 0x30, 0x00, 0x3c, 0x00, 0x30, 0x00, 0x12, 0x00, 0x30, 0x00]

/-- The type `LockState`, a `byte`. -/
abbrev LockState := Nat

def LockStateLocked : LockState := 0x00
def LockStateUnlocked : LockState := 0x55

/-- The method `LockState.IsLocked`. -/
def LockState.IsLocked (m : LockState) : Bool := m ≠ LockStateUnlocked

/-- The struct `SlotConfig`. -/
structure SlotConfig where
  Bits1 : Nat
  Bits2 : Nat
  deriving DecidableEq, Repr

/-- The struct `Counter`: `Value` is a `[8]uint8`. -/
structure Counter where
  Value : List Nat
  deriving DecidableEq, Repr

/-- The struct `SecureBoot`. -/
structure SecureBoot where
  Bits1 : Nat
  Bits2 : Nat
  deriving DecidableEq, Repr

/-- The struct `ChipOptions`. -/
structure ChipOptions where
  Bits1 : Nat
  Bits2 : Nat
  deriving DecidableEq, Repr

/-- The struct `KeyConfig`. -/
structure KeyConfig where
  Bits1 : Nat
  Bits2 : Nat
  deriving DecidableEq, Repr

/-- The struct `Config608`, its fields in the order of the source (128 bytes in all). -/
structure Config608 where
  SN03 : List Nat
  RevNum : List Nat
  SN48 : List Nat
  AESEnable : Nat
  I2CEnable : Nat
  Reserved15 : Nat
  I2CAddress : Nat
  Reserved17 : Nat
  CountMatch : Nat
  ChipMode : Nat
  SlotConfig : List SlotConfig
  Counter : List Counter
  UseLock : Nat
  VolatileKeyPermission : Nat
  SecureBoot : SecureBoot
  KdfIvLoc : Nat
  KdfIvStr : List Nat
  Reserved68 : List Nat
  UserExtra : Nat
  UserExtraAdd : Nat
  LockValue : LockState
  LockConfig : LockState
  SlotLocked : Nat
  ChipOptions : ChipOptions
  X509Format : List Nat
  KeyConfig : List KeyConfig
  deriving DecidableEq, Repr

/-- The byte at index `i` of the input of `binary.Read`. -/
def byteAt (c : List Nat) (i : Nat) : Nat := c.getD i 0

/-- The `n` bytes from index `off` of the input of `binary.Read`. -/
def bytesAt (c : List Nat) (off n : Nat) : List Nat := (c.drop off).take n

/-- The function `Marshal` on a `*Config608`: `binary.Write` with `binary.BigEndian`
writes the fields in order, a `uint16` as its high byte then its low byte; on a struct of
fixed size it returns no error. -/
def Marshal (v : Config608) : List Nat × Option Err :=
  (v.SN03 ++ v.RevNum ++ v.SN48
    ++ [v.AESEnable, v.I2CEnable, v.Reserved15, v.I2CAddress, v.Reserved17, v.CountMatch,
        v.ChipMode]
    ++ v.SlotConfig.flatMap (fun s => [s.Bits1, s.Bits2])
    ++ v.Counter.flatMap (fun c => c.Value)
    ++ [v.UseLock, v.VolatileKeyPermission, v.SecureBoot.Bits1, v.SecureBoot.Bits2, v.KdfIvLoc]
    ++ v.KdfIvStr ++ v.Reserved68
    ++ [v.UserExtra, v.UserExtraAdd, v.LockValue, v.LockConfig,
        (v.SlotLocked >>> 8) % 256, v.SlotLocked % 256,
        v.ChipOptions.Bits1, v.ChipOptions.Bits2]
    ++ v.X509Format
    ++ v.KeyConfig.flatMap (fun k => [k.Bits1, k.Bits2]), none)

/-- The function `Unmarshal` into a `*Config608`: `binary.Read` with `binary.BigEndian`
takes the first 128 bytes of the input and fills the fields in order (a `uint16` from its
high byte then its low byte); with fewer than 128 bytes it fails with the end-of-input
error of `io.ReadFull` and leaves the struct alone. -/
def Unmarshal (config : List Nat) : Except Err Config608 :=
  if config.length < 128 then .error unexpectedEOF
  else .ok {
    SN03 := bytesAt config 0 4
    RevNum := bytesAt config 4 4
    SN48 := bytesAt config 8 5
    AESEnable := byteAt config 13
    I2CEnable := byteAt config 14
    Reserved15 := byteAt config 15
    I2CAddress := byteAt config 16
    Reserved17 := byteAt config 17
    CountMatch := byteAt config 18
    ChipMode := byteAt config 19
    SlotConfig := (List.range 16).map
      (fun i => ⟨byteAt config (20 + 2 * i), byteAt config (20 + 2 * i + 1)⟩)
    Counter := (List.range 2).map (fun i => ⟨bytesAt config (52 + 8 * i) 8⟩)
    UseLock := byteAt config 68
    VolatileKeyPermission := byteAt config 69
    SecureBoot := ⟨byteAt config 70, byteAt config 71⟩
    KdfIvLoc := byteAt config 72
    KdfIvStr := bytesAt config 73 2
    Reserved68 := bytesAt config 75 9
    UserExtra := byteAt config 84
    UserExtraAdd := byteAt config 85
    LockValue := byteAt config 86
    LockConfig := byteAt config 87
    SlotLocked := (byteAt config 88 <<< 8) ||| byteAt config 89
    ChipOptions := ⟨byteAt config 90, byteAt config 91⟩
    X509Format := bytesAt config 92 4
    KeyConfig := (List.range 16).map
      (fun i => ⟨byteAt config (96 + 2 * i), byteAt config (96 + 2 * i + 1)⟩) }

/-- The function `UnmarshalPartial` with a `*Config608` as `data` (every other type is
refused with `unsupportedConfig`): the new value of the struct, or the error.
`bytes.Repeat` panics on a negative count. -/
def UnmarshalPartial (config : List Nat) (offset : Int) : Outcome (Except Err Config608) :=
  let size := PermanentOffset608 + Default608.length
  if offset < 0 then .panicked
  else
    let c := List.replicate offset.toNat 0
    let c := c ++ config
    if c.length > size then .ret (.error configExceedsMaximumSize)
    else
      let c := c ++ List.replicate (size - c.length) 0
      .ret (Unmarshal c)

/-- The function `DefaultConfig608`: it panics if `UnmarshalPartial` fails. -/
def DefaultConfig608 : Outcome Config608 :=
  match UnmarshalPartial Default608 PermanentOffset608 with
  | .ret (.ok conf) => .ret conf
  | _ => .panicked

/-! ### atecc.go: the lock state -/

/-- The method `Dev.IsLocked`. -/
def IsLocked {σ : Type} (X : Executor σ) (zone : Nat) (w : World σ) :
    Outcome (Bool × Option Err) × World σ :=
  let buf : List Nat := List.replicate atcaWordSize 0
  match readZone X ZoneConfig 0 LockOffsetBlock LockOffsetWord buf w with
  | (.panicked, w) => (.panicked, w)
  | (.outOfFuel, w) => (.outOfFuel, w)
  | (.ret (_, some e, _), w) => (.ret (false, some e), w)
  | (.ret (_, none, buf), w) =>
    match UnmarshalPartial buf LockOffset with
    | .panicked => (.panicked, w)
    | .outOfFuel => (.outOfFuel, w)
    | .ret (.error e) => (.ret (false, some e), w)
    | .ret (.ok conf) =>
      if zone = ZoneConfig then (.ret (conf.LockConfig.IsLocked, none), w)
      else if zone = ZoneData then (.ret (conf.LockValue.IsLocked, none), w)
      else (.ret (false, some unknownLockZone), w)


/-! ### encoding/hex, bytes, strings, fmt: the library functions `hal_kit.go` calls

Texts are lists of character codes.  The hex functions follow `encoding/hex`; the
scanning functions follow `fmt.Sscanf` (a reader without the newline options) for the
pieces of the one format string the package uses. -/

/-- The character codes of an ASCII text. -/
def str (s : String) : List Nat := s.toList.map Char.toNat

/-- The functions `bytes.HasPrefix` and `strings.HasPrefix`. -/
def HasPrefix (s p : List Nat) : Bool := s.take p.length = p

/-- The function `bytes.IndexByte`: the index of the first `c` in `b`, or `-1`. -/
def bytesIndexByte (b : List Nat) (c : Nat) : Int :=
  if c ∈ b then (b.indexOf c : Int) else -1

/-- The table `hextable` of `encoding/hex`, `"0123456789abcdef"`, at index `n < 16`. -/
def hextable (n : Nat) : Nat := if n < 10 then 48 + n else 97 + (n - 10)

/-- The table `reverseHexTable` of `encoding/hex`: the value of a hex digit of either
case, `0xff` for every other byte. -/
def reverseHexTable (c : Nat) : Nat :=
  if 48 ≤ c ∧ c ≤ 57 then c - 48
  else if 97 ≤ c ∧ c ≤ 102 then c - 97 + 10
  else if 65 ≤ c ∧ c ≤ 70 then c - 65 + 10
  else 0xff

/-- The function `hex.EncodeToString`: two lower-case digits per byte, high nibble
first. -/
def hexEncodeToString (src : List Nat) : List Nat :=
  src.flatMap (fun v => [hextable (v >>> 4), hextable (v &&& 0x0f)])

/-- The function `strings.ToUpper` on an ASCII text. -/
def stringsToUpper (s : List Nat) : List Nat :=
  s.map (fun c => if 97 ≤ c ∧ c ≤ 122 then c - 32 else c)

/-- The function `hex.DecodedLen`. -/
def hexDecodedLen (x : Int) : Int := x / 2

/-- The loop of `hex.Decode(dst, src)` with `i` bytes written so far: each pair of
digits becomes the byte `dst[i]` (a panic when `i` is not below `len(dst)`); a byte that
is no digit stops it with `InvalidByteError`, a single last digit with `ErrLength`.  The
last component of the result is `dst` afterwards. -/
def hexDecodeLoop : List Nat → Nat → List Nat → Outcome (Int × Option Err × List Nat)
  | p :: q :: rest, i, dst =>
    let a := reverseHexTable p
    let b := reverseHexTable q
    if a > 0x0f then .ret ((i : Int), some (hexInvalidByte p), dst)
    else if b > 0x0f then .ret ((i : Int), some (hexInvalidByte q), dst)
    else if i < dst.length then hexDecodeLoop rest (i + 1) (dst.set i ((a <<< 4) ||| b))
    else .panicked
  | [p], i, dst =>
    if reverseHexTable p > 0x0f then .ret ((i : Int), some (hexInvalidByte p), dst)
    else .ret ((i : Int), some hexErrLength, dst)
  | [], i, dst => .ret ((i : Int), none, dst)

/-- The function `hex.Decode`. -/
def hexDecode (dst src : List Nat) : Outcome (Int × Option Err × List Nat) :=
  hexDecodeLoop src 0 dst

/-- The function `isSpace` of `fmt`. -/
def isSpace (r : Nat) : Bool :=
  if r ≥ 0x10000 then false
  else (0x0009 ≤ r ∧ r ≤ 0x000d) ∨ r = 0x0020 ∨ r = 0x0085 ∨ r = 0x00a0 ∨ r = 0x1680 ∨
    (0x2000 ≤ r ∧ r ≤ 0x200a) ∨ (0x2028 ≤ r ∧ r ≤ 0x2029) ∨ r = 0x202f ∨ r = 0x205f ∨
    r = 0x3000

/-- The method `ss.SkipSpace` of `fmt` on the rest of the input: `none` is the error
`unexpected newline`. -/
def SkipSpace : List Nat → Option (List Nat)
  | [] => some []
  | r :: rest =>
    if r = 13 ∧ rest.head? = some 10 then SkipSpace rest
    else if r = 10 then none
    else if ¬ isSpace r then some (r :: rest)
    else SkipSpace rest

/-- A space of the format string standing alone: it needs a space or the end of the
input, not a newline, and takes all the spaces up to a newline. -/
def scanFormatSpace : List Nat → Option (List Nat)
  | [] => some []
  | r :: rest =>
    if ¬ isSpace r then none
    else if r = 10 then none
    else some (rest.dropWhile (fun c => isSpace c ∧ c ≠ 10))

/-- A literal character `c` of the format string: the next character of the input has
to be `c`. -/
def scanLiteral (c : Nat) : List Nat → Option (List Nat)
  | [] => none
  | r :: rest => if r = c then some rest else none

/-- The verb `%s` into a `*string`: spaces are skipped, the input may not be at its end,
and the token runs up to the next space. -/
def scanString (input : List Nat) : Option (List Nat × List Nat) :=
  match SkipSpace input with
  | none => none
  | some input =>
    match SkipSpace input with
    | none => none
    | some input =>
      if input = [] then none
      else
        match SkipSpace input with
        | none => none
        | some input =>
          some (input.takeWhile (fun c => ¬ isSpace c), input.dropWhile (fun c => ¬ isSpace c))

/-- The function `strconv.ParseUint(tok, 16, 64)` on a token of at most two characters
out of the hex digits and the underscore: an underscore is a syntax error. -/
def parseHexToken (tok : List Nat) : Option Nat :=
  if tok = [] then none
  else if tok.any (fun c => reverseHexTable c > 0x0f) then none
  else some (tok.foldl (fun v c => 16 * v + reverseHexTable c) 0)

/-- The verb `%02X` into a `*uint8`: spaces are skipped, then at most two characters out
of `0123456789aAbBcCdDeEfF_` are taken (at least one is needed) and parsed in base 16. -/
def scanHex2 (input : List Nat) : Option (Nat × List Nat) :=
  match SkipSpace input with
  | none => none
  | some input =>
    match SkipSpace input with
    | none => none
    | some input =>
      let tok := (input.take 2).takeWhile (fun c => reverseHexTable c ≤ 0x0f ∨ c = 95)
      if tok = [] then none
      else
        match parseHexToken tok with
        | none => none
        | some v => if v ≥ 256 then none else some (v, input.drop tok.length)

/-- The call `fmt.Sscanf(s, "%s %s %02X(%02X)", &kitId, &kitIface, &index, &address)`:
the four values when the error is nil, `none` when it is not. -/
def sscanfKitDevice (s : List Nat) : Option (List Nat × List Nat × Nat × Nat) :=
  match scanString s with
  | none => none
  | some (kitId, s) =>
    match scanFormatSpace s with
    | none => none
    | some s =>
      match scanString s with
      | none => none
      | some (kitIface, s) =>
        match scanFormatSpace s with
        | none => none
        | some s =>
          match scanHex2 s with
          | none => none
          | some (index, s) =>
            match scanLiteral 40 s with
            | none => none
            | some s =>
              match scanHex2 s with
              | none => none
              | some (address, s) =>
                match scanLiteral 41 s with
                | none => none
                | some _ => some (kitId, kitIface, index, address)

/-! ### hal_kit.go: the kit protocol -/

def KitTypeAuto : Int := 0
def KitTypeI2C : Int := 1
def KitTypeSWI : Int := 2
def KitTypeSPI : Int := 3

def kitMaxScanCount : Nat := 8

/-- The function `deviceTypeFromKitId`. -/
def deviceTypeFromKitId (id : List Nat) : Except Err Int :=
  if HasPrefix id (str "ECC6") then .ok DeviceATECC608
  else .error unknownDeviceType

/-- The function `kitTypeFromKitIface`. -/
def kitTypeFromKitIface (iface : List Nat) : Except Err Int :=
  if iface = str "TWI" then .ok KitTypeI2C
  else if iface = str "SWI" then .ok KitTypeSWI
  else if iface = str "SPI" then .ok KitTypeSPI
  else .error unknownKitType

/-- The payload of the command `halKit.Write` sends for `data`:
`strings.ToUpper(hex.EncodeToString(data))`. -/
def kitWritePayload (data : List Nat) : List Nat :=
  stringsToUpper (hexEncodeToString data)

/-- The command text of `halKit.Write`: `fmt.Sprintf("%c:t(%s)\n", kitId[0], payload)`. -/
def kitWriteCommand (kitId0 : Nat) (data : List Nat) : List Nat :=
  [kitId0] ++ str ":t(" ++ kitWritePayload data ++ str ")\n"

/-- The struct `kitDevice`. -/
structure kitDevice where
  DeviceType : Int
  KitType : Int
  Address : Nat
  deriving DecidableEq, Repr

/-- The function `parseKitDevice`, on the characters of `string(buf)` (`bytes.HasPrefix`
with the ASCII text `no_device` holds of the bytes exactly when it holds of the
characters). -/
def parseKitDevice (buf : List Nat) : Except Err kitDevice :=
  if HasPrefix buf (str "no_device") then .error errNoDevice
  else
    match sscanfKitDevice buf with
    | none => .error invalidKitDevice
    | some (kitId, kitIface, _, address) =>
      match deviceTypeFromKitId kitId with
      | .error e => .error e
      | .ok dt =>
        match kitTypeFromKitIface kitIface with
        | .error e => .error e
        | .ok kt => .ok ⟨dt, kt, address⟩

/-- The function `kitParseRsp`.  `replyRest` is what the backing array of `reply` holds
after it (the slice `reply[0:2]` may reach into it), `capDst` is `cap(dst)`; the last
component of the result is `dst` afterwards. -/
def kitParseRsp (reply replyRest dst : List Nat) (capDst : Nat) :
    Outcome (Int × Option Err × List Nat) :=
  let status : List Nat := [0]
  if reply.length + replyRest.length < 2 then .panicked
  else
    match hexDecode status ((reply ++ replyRest).take 2) with
    | .panicked => .panicked
    | .outOfFuel => .outOfFuel
    | .ret (_, some e, _) => .ret (0, some e, dst)
    | .ret (n, none, status) =>
      match validateResponseStatusCode (status.take n.toNat) with
      | some e => .ret (0, some e, dst)
      | none =>
        if reply.length < 3 then .panicked
        else
          let index := bytesIndexByte (reply.drop 3) 41
          if index = -1 then .ret (0, some failedToFindEndOfFrame, dst)
          else
            let size := hexDecodedLen index
            if size > (capDst : Int) then .ret (0, some errRecvBuffer, dst)
            else
              let body := (reply.drop 3).take index.toNat
              hexDecode dst body

/-- The fields of `IfaceConfig` that `halKit.init` reads, for `IfaceType == IfaceHID`. -/
structure HIDConfig where
  DeviceType : Int
  DevIndex : Int
  KitType : Int
  DevIdentity : Nat
  deriving DecidableEq, Repr

/-- The exchanges of `halKit` with the board that the discovery scan is made of, on a
transport with state `σ`: the reply to `board:device(index)` (or the transport error),
and the outcome of the two select commands. -/
structure KitBoard (σ : Type) where
  deviceReply : Nat → σ → Except Err (List Nat) × σ
  selectInterface : Int → σ → Option Err × σ
  selectDevice : Nat → σ → Option Err × σ

/-- The method `halKit.getKitDeviceByIndex`. -/
def getKitDeviceByIndex {σ : Type} (B : KitBoard σ) (index : Nat) (s : σ) :
    Except Err kitDevice × σ :=
  match B.deviceReply index s with
  | (.error e, s) => (.error e, s)
  | (.ok buf, s) => (parseKitDevice buf, s)

/-- The loop of `halKit.init` from index `i` on, with `n` iterations left. -/
def kitInitLoop {σ : Type} (B : KitBoard σ) (cfg : HIDConfig) : Nat → Nat → σ → Option Err × σ
  | 0, _, s => (some failedToDiscoverDevice, s)
  | n + 1, i, s =>
    match getKitDeviceByIndex B i s with
    | (.error e, s) =>
      if e = errNoDevice then kitInitLoop B cfg n (i + 1) s
      else (some e, s)
    | (.ok dev, s) =>
      if cfg.DevIndex ≠ 0 ∧ cfg.DevIndex ≠ (i : Int) then kitInitLoop B cfg n (i + 1) s
      else if cfg.DevIdentity ≠ 0 ∧ cfg.DevIdentity ≠ dev.Address then
        kitInitLoop B cfg n (i + 1) s
      else if cfg.DeviceType ≠ dev.DeviceType then kitInitLoop B cfg n (i + 1) s
      else if cfg.KitType ≠ KitTypeAuto ∧ cfg.KitType ≠ dev.KitType then
        kitInitLoop B cfg n (i + 1) s
      else if cfg.KitType ≠ KitTypeAuto then
        match B.selectInterface cfg.KitType s with
        | (some e, s) => (some e, s)
        | (none, s) => B.selectDevice dev.Address s
      else B.selectDevice dev.Address s

/-- The method `halKit.init` with `IfaceType == IfaceHID`. -/
def kitInit {σ : Type} (B : KitBoard σ) (cfg : HIDConfig) (s : σ) : Option Err × σ :=
  kitInitLoop B cfg kitMaxScanCount 0 s

/-! ### ateccconf.go: the accessors of `SecureBoot`

In Go `&` and `>>` have the same precedence and associate to the left:
`sb.Bits1 & 0xe0 >> 4` is `(sb.Bits1 & 0xe0) >> 4`. -/

/-- The method `SecureBoot.Mode`. -/
def SecureBoot.Mode (sb : SecureBoot) : Nat := sb.Bits1 &&& 0x03

/-- The method `SecureBoot.Reserved0`. -/
def SecureBoot.Reserved0 (sb : SecureBoot) : Nat := (sb.Bits1 &&& 0x04) >>> 2

/-- The method `SecureBoot.PersistentEnabled`. -/
def SecureBoot.PersistentEnabled (sb : SecureBoot) : Bool := sb.Bits1 &&& 0x08 != 0

/-- The method `SecureBoot.RandNonce`. -/
def SecureBoot.RandNonce (sb : SecureBoot) : Bool := sb.Bits1 &&& 0x10 != 0

/-- The method `SecureBoot.Reserved1`: `sb.Bits1 & 0xe0 >> 4`. -/
def SecureBoot.Reserved1 (sb : SecureBoot) : Nat := (sb.Bits1 &&& 0xe0) >>> 4

/-- The method `SecureBoot.SigDig`. -/
def SecureBoot.SigDig (sb : SecureBoot) : Nat := sb.Bits2 &&& 0x0f

/-- The method `SecureBoot.PublicKey`: `sb.Bits2 & 0xf0 >> 4`. -/
def SecureBoot.PublicKey (sb : SecureBoot) : Nat := (sb.Bits2 &&& 0xf0) >>> 4

/-! ### commands.go: Nonce and Verify -/

def atcaNonce : Nat := 0x16
def atcaVerify : Nat := 0x45

def nonceTargetTempKey : Nat := 0x0
def nonceTargetMsgDigBuf : Nat := 0x40
def nonceModeSeedUpdate : Nat := 0x00
def nonceModePassthrough : Nat := 0x03
def nonceModeFlagInputLen32 : Nat := 0x00
def nonceModeFlagInputLen64 : Nat := 0x20

def verifyModeExternal : Nat := 0x02
def verifyKeyP256 : Nat := 0x0004
def verifySourceTempKey : Nat := 0x00
def verifySourceMsgDigBuf : Nat := 0x20

/-- The function `newNonceCommand`. -/
def newNonceCommand (mode target param2 : Nat) (keyIn : List Nat) : Except Err packet :=
  let param1 := mode
  let r : Except Err Nat :=
    if mode = nonceModePassthrough then
      if keyIn.length = 32 then .ok (param1 ||| nonceModeFlagInputLen32)
      else if keyIn.length = 64 then .ok (param1 ||| nonceModeFlagInputLen64)
      else .error invalidNonceSizeRequested
    else
      if keyIn.length ≠ 20 then .error invalidNonceSizeRequested
      else .ok param1
  match r with
  | .error e => .error e
  | .ok param1 =>
    let param1 := param1 ||| target
    newPacket atcaNonce param1 param2 keyIn

/-- The function `newVerifyCommand`; `otherData` may be nil. -/
def newVerifyCommand (mode source keyId : Nat) (sig pub : List Nat)
    (otherData : Option (List Nat)) : Except Err packet :=
  let data : List Nat := List.replicate atcaCmdSizeMax 0
  let n := min data.length sig.length
  let data := goCopy data sig
  let r : Except Err (Nat × List Nat) :=
    if mode = verifyModeExternal then
      if keyId = verifyKeyP256 then
        let pubSize := 64
        if pubSize ≠ pub.length then .error invalidPublicKeyReceived
        else
          .ok (n + min (data.drop n).length pub.length,
            data.take n ++ goCopy (data.drop n) pub)
      else .error unsupportedVerifyKeySize
    else
      match otherData with
      | some od =>
        .ok (n + min (data.drop n).length od.length, data.take n ++ goCopy (data.drop n) od)
      | none => .ok (n, data)
  match r with
  | .error e => .error e
  | .ok (n, data) => newPacket atcaVerify (mode ||| source) keyId (data.take n)

/-! ### calib.go: nonce load and external verification -/

/-- The method `Dev.nonceLoad`; `numIn` may be nil. -/
def nonceLoad {σ : Type} (X : Executor σ) (target : Nat) (numIn : Option (List Nat))
    (w : World σ) : Outcome (Option Err) × World σ :=
  match numIn with
  | none => (.ret (some requiresInputForNonce), w)
  | some numIn =>
    match newNonceCommand nonceModePassthrough target 0 numIn with
    | .error e => (.ret (some e), w)
    | .ok command => execute X command w

/-- The method `Dev.verifyExtern` on a device of type `deviceType`; each of `msg`, `sig`
and `pub` may be nil. -/
def verifyExtern {σ : Type} (X : Executor σ) (deviceType : Int)
    (msg sig pub : Option (List Nat)) (w : World σ) : Outcome (Bool × Option Err) × World σ :=
  match msg, sig, pub with
  | some msg, some sig, some pub =>
    let target := if deviceType = DeviceATECC608 then nonceTargetMsgDigBuf
      else nonceTargetTempKey
    let source := if deviceType = DeviceATECC608 then verifySourceMsgDigBuf
      else verifySourceTempKey
    match nonceLoad X target (some msg) w with
    | (.panicked, w) => (.panicked, w)
    | (.outOfFuel, w) => (.outOfFuel, w)
    | (.ret (some e), w) => (.ret (false, some e), w)
    | (.ret none, w) =>
      match newVerifyCommand verifyModeExternal source verifyKeyP256 sig pub none with
      | .error e => (.ret (false, some e), w)
      | .ok command =>
        match execute X command w with
        | (.panicked, w) => (.panicked, w)
        | (.outOfFuel, w) => (.outOfFuel, w)
        | (.ret err, w) => (.ret (decide (err ≠ some errCRC), err), w)
  | _, _, _ => (.ret (false, some expectedMessageSignatureAndPublicKey), w)

/-! ### cmd/atecc/util.go: hex dumps -/

/-- The upper-case digits of `fmt`, `"0123456789ABCDEF"`, at index `n < 16`. -/
def udigits (n : Nat) : Nat := if n < 10 then 48 + n else 65 + (n - 10)

/-- The call `fmt.Sprintf("%02X", b)` on a byte slice: two upper-case digits per byte. -/
def sprintf02X (b : List Nat) : List Nat :=
  b.flatMap (fun v => [udigits (v >>> 4), udigits (v &&& 0x0f)])

/-- The function `prettyHexIndent`: what the builder holds after the loop over `data`
(`pre` is the parameter `prefix`). -/
def prettyHexIndent (data pre space : List Nat) : List Nat :=
  let cols := 16
  (List.range data.length).foldl (fun buf i =>
    let buf :=
      if i > 0 then
        if i % cols = 0 then buf ++ [10]
        else if i % cols = cols / 2 then buf ++ [32] ++ space
        else buf ++ [32]
      else buf
    let buf := if i % cols = 0 then buf ++ pre else buf
    buf ++ sprintf02X ((data.drop i).take 1)) []

/-! ### Notions the statements are phrased with -/

/-- The command that `writeZone(zone, slot, block, offset, data)` hands to `execute`:
`newWriteCommand` at the address `getAddr` computes, without a MAC. -/
def writeCommandFor (zone slot block offset : Nat) (data : List Nat) : Except Err packet :=
  match getAddr zone slot block offset with
  | .error e => .error e
  | .ok addr => newWriteCommand zone addr data none

/-- A Write command aimed at the lock word of the Config zone (block 2, word 5): a
4-byte write to address `0x0015`, or a 32-byte write of block 2 (address `0x0010` with
the 32-byte flag). -/
def targetsLockWord (p : packet) : Prop :=
  p.opcode = atcaWrite ∧
    ((p.param1 = 0x00 ∧ p.param2 = 0x0015) ∨ (p.param1 = 0x80 ∧ p.param2 = 0x0010))

/-- A call `writeZone(zone, slot, block, word, chunk)` made by `writeBytesZone`. -/
structure WriteCall where
  block : Nat
  word : Nat
  chunk : List Nat
  deriving DecidableEq, Repr

/-- The first byte of the zone a call writes. -/
def WriteCall.start (c : WriteCall) : Nat := 32 * c.block + 4 * c.word

/-- The byte after the last byte of the zone a call writes. -/
def WriteCall.stop (c : WriteCall) : Nat := c.start + c.chunk.length

/-- A byte of the lock word: bytes 84..87 of the Config zone. -/
def lockByte (zone i : Nat) : Prop := zone = ZoneConfig ∧ 84 ≤ i ∧ i ≤ 87

/-- A device that accepts every command: `executeResponse` returns a nil error. -/
def Accepts {σ : Type} (X : Executor σ) : Prop :=
  ∀ p recv s, ∃ n r s', X p recv s = (.ret (n, none, r), s')

/-- The calls cover a request at `offset` with `data` from byte `lo` of the zone on:
each call is a 32-byte block or a 4-byte word at or after `lo` and carries its slice of
`data`, calls inside block 2 of the Config zone are words, the ranges ascend without
overlap, and together they are `[lo, offset + len(data))` without the lock bytes. -/
def WritesCover (zone offset : Nat) (data : List Nat) (lo : Nat) (calls : List WriteCall) :
    Prop :=
  (∀ c ∈ calls,
    ((c.chunk.length = 32 ∧ c.word = 0) ∨ (c.chunk.length = 4 ∧ c.word < 8)) ∧
    lo ≤ c.start ∧
    c.chunk = (data.drop (c.start - offset)).take c.chunk.length ∧
    (zone = ZoneConfig → c.block = 2 → c.chunk.length = 4)) ∧
  calls.Pairwise (fun a b => a.stop ≤ b.start) ∧
  (∀ i, (∃ c ∈ calls, c.start ≤ i ∧ i < c.stop) ↔
    (lo ≤ i ∧ i < offset + data.length ∧ ¬ lockByte zone i))

/-- The bytes `start .. start + len - 1` of a zone whose byte `i` is `mem i`. -/
def memSlice (mem : Nat → Nat) (start len : Nat) : List Nat :=
  (List.range len).map (fun i => mem (start + i))

/-- The result `r` of `writeBytesZone`, called in world `w`, is a rejection for
misalignment: zero bytes, one of the two alignment errors, and the world as it was. -/
def RejectedForMisalignment {σ : Type} (r : Outcome (Int × Option Err) × World σ)
    (w : World σ) : Prop :=
  r = (.ret (0, some invalidOffset), w) ∨ r = (.ret (0, some invalidLength), w)

/-- The calls of `k` transmission attempts that wake first and then write, followed by
`m` attempts that only write. -/
def sendAttempts (b : List Nat) : Nat → Nat → List HalCall
  | 0, m => List.replicate m (HalCall.Write b)
  | k + 1, m => HalCall.Wake :: HalCall.Write b :: sendAttempts b k m

/-- The bytes of one line of a hex dump as text: two upper-case hex digits each, one
space between consecutive bytes. -/
def hexBytesText (bs : List Nat) : List Nat :=
  List.intercalate [32] (bs.map (fun v => [udigits (v >>> 4), udigits (v &&& 0x0f)]))

/-- One line of a hex dump as the claim words it: the prefix, then the bytes of the
line, with `space` after the separator between the 8th and the 9th byte. -/
def hexLineText (pre space line : List Nat) : List Nat :=
  pre ++ hexBytesText (line.take 8) ++
    (if line.length > 8 then [32] ++ space ++ hexBytesText (line.drop 8) else [])

/-- The lines of a dump of `data`: `ceil(n/16)` runs of 16 bytes, the last one shorter
when 16 does not divide `n`. -/
def hexLines (data : List Nat) : List (List Nat) :=
  (List.range ((data.length + 15) / 16)).map (fun k => (data.drop (16 * k)).take 16)

/-- The hex dump as the claim words it: the lines joined by single newlines. -/
def hexDumpText (data pre space : List Nat) : List Nat :=
  List.intercalate [10] ((hexLines data).map (hexLineText pre space))

/-- What iteration `i` of the loop of `prettyHexIndent` appends to the builder: the
separator, the prefix at the start of a line, and the two digits of byte `i`. -/
def hexPiece (data pre space : List Nat) (i : Nat) : List Nat :=
  (if i > 0 then
      if i % 16 = 0 then [10] else if i % 16 = 16 / 2 then [32] ++ space else [32]
    else []) ++
  (if i % 16 = 0 then pre else []) ++ sprintf02X ((data.drop i).take 1)

/-- The `writeZone` calls that cover a 64-byte request `data` at byte 64 of the Config
zone without its lock word: words 0 to 4, 6 and 7 of block 2, then block 3. -/
def lockBlockCalls (data : List Nat) : List WriteCall :=
  [⟨2, 0, (data.drop 0).take 4⟩, ⟨2, 1, (data.drop 4).take 4⟩, ⟨2, 2, (data.drop 8).take 4⟩,
   ⟨2, 3, (data.drop 12).take 4⟩, ⟨2, 4, (data.drop 16).take 4⟩,
   ⟨2, 6, (data.drop 24).take 4⟩, ⟨2, 7, (data.drop 28).take 4⟩,
   ⟨3, 0, (data.drop 32).take 32⟩]

/-- The calls the transmission loop of `executeResponse` makes on the transport, in
order, each with the error it returned (`none` is nil): the loop has `n` iterations
left and starts from the handle `d`.  An iteration wakes the device unless the state is
Active, writes the frame, and goes on to the next one only when the write failed and
the context was not cancelled during the wait. -/
def sendTrace {σ : Type} (E : Env σ) (b : List Nat) :
    Nat → Dev σ → List (HalCall × Option Err)
  | 0, _ => []
  | n + 1, d =>
    let (wk, d) : List (HalCall × Option Err) × Dev σ :=
      if d.state ≠ deviceStateActive then
        let (e, s) := E.hal.Wake d.env
        let d := { d with env := s, calls := d.calls ++ [HalCall.Wake] }
        if e = none then ([(HalCall.Wake, e)], { d with state := deviceStateActive })
        else ([(HalCall.Wake, e)], d)
      else ([], d)
    let ((_, e), s) := E.hal.Write b d.env
    let d := { d with env := s, calls := d.calls ++ [HalCall.Write b] }
    match e with
    | none => wk ++ [(HalCall.Write b, none)]
    | some e =>
      match E.ctxDone d.cfg.WakeDelay d.env with
      | (some _, _) => wk ++ [(HalCall.Write b, some e)]
      | (none, s) => wk ++ [(HalCall.Write b, some e)] ++ sendTrace E b n { d with env := s }

/-! ### Transports and devices used as concrete instances -/

/-- A transport that accepts every wake, write and idle and answers every read
with the frame `f`, under a context that is never cancelled. -/
def replyEnv (f : List Nat) : Env Unit where
  hal := {
    Read := fun _ s => ((f, (f.length : Int), none), s)
    Write := fun b s => (((b.length : Int), none), s)
    Idle := fun s => (none, s)
    Wake := fun s => (none, s) }
  ctxDone := fun _ s => (none, s)

/-- A freshly constructed device handle with the default I2C configuration. -/
def freshDev : Dev Unit where
  env := ()
  state := deviceStateUnknown
  cfg := { DeviceType := DeviceATECC608, WakeDelay := 1500000, RxRetries := 20 }
  clockDivider := ClockDividerM0
  calls := []

/-- The Info/Revision command packet. -/
def infoPacket : packet := ⟨0x30, 0x00, 0x0000, []⟩

/-- The device handle `freshDev` after it has woken the device and transmitted `b`. -/
def sentDev (b : List Nat) : Dev Unit :=
  { freshDev with state := deviceStateActive, calls := [HalCall.Wake, HalCall.Write b] }

/-- An executor that accepts every command and answers with one zero status byte. -/
def acceptAll : Executor Unit := fun _ _ s => (.ret (1, none, [0]), s)

/-- A Config-zone device for `executeResponse`: it decodes the address of the command
into block and word and fills `recv` with the bytes of `mem` at that place (a whole block
for a 32-byte buffer). -/
def memExec (mem : Nat → Nat) : Executor Unit := fun p recv s =>
  let block := p.param2 >>> 3
  let word := p.param2 &&& 7
  let start := if recv.length = 32 then 32 * block else 32 * block + 4 * word
  (.ret ((recv.length : Int), none, memSlice mem start recv.length), s)

/-- A transport on which every wake succeeds and the `n`-th write (counted from 0 in the
state) fails with the error `hal n`, under a context that is never cancelled. -/
def failEnv : Env Nat where
  hal := {
    Read := fun _ s => (([], 0, none), s)
    Write := fun _ s => ((0, some (Err.hal s)), s + 1)
    Idle := fun s => (none, s)
    Wake := fun s => (none, s) }
  ctxDone := fun _ s => (none, s)

/-- A device handle on `failEnv` in the state Unknown, with `RxRetries = 2`. -/
def failDev : Dev Nat where
  env := 0
  state := deviceStateUnknown
  cfg := { DeviceType := DeviceATECC608, WakeDelay := 1500000, RxRetries := 2 }
  clockDivider := ClockDividerM0
  calls := []

/-- A transport on which every wake and every write fails, under a context that is
cancelled at the first wait. -/
def cancelEnv : Env Unit where
  hal := {
    Read := fun _ s => (([], 0, none), s)
    Write := fun _ s => ((0, some (Err.hal 1)), s)
    Idle := fun s => (none, s)
    Wake := fun s => (some (Err.hal 2), s) }
  ctxDone := fun _ s => (some (Err.ctx 1), s)

/-- An executor that refuses every command with the status error `errExecution`. -/
def rejectAll : Executor Unit := fun _ recv s => (.ret (0, some errExecution, recv), s)

/-- An executor that accepts every command but UpdateExtra, which it refuses with the
status error `errExecution`. -/
def rejectUpdateExtra : Executor Unit := fun p recv s =>
  if p.opcode = atcaUpdateExtra then (.ret (0, some errExecution, recv), s)
  else (.ret (1, none, [0]), s)

/-- An executor that accepts every command but Verify, which it answers with the
error `e` (nil when `e` is `none`). -/
def verifyAnswers (e : Option Err) : Executor Unit := fun p recv s =>
  if p.opcode = atcaVerify then (.ret (0, e, recv), s) else (.ret (1, none, [0]), s)

/-- An executor that answers every command with no byte and no error, as
`executeResponse` does on a 3-byte frame with a valid checksum. -/
def emptyAnswer : Executor Unit := fun _ _ s => (.ret (0, none, []), s)

/-- A transport that refuses the first write and accepts the later ones (the state
counts the writes), answers every read with the frame `f`, and fails every idle, under a
context that is never cancelled. -/
def retryEnv (f : List Nat) : Env Nat where
  hal := {
    Read := fun _ s => ((f, (f.length : Int), none), s)
    Write := fun b s =>
      if s = 0 then ((0, some (Err.hal 1)), s + 1) else (((b.length : Int), none), s + 1)
    Idle := fun s => (some (Err.hal 3), s)
    Wake := fun s => (none, s) }
  ctxDone := fun _ s => (none, s)

/-- A transport that refuses every write (the state counts them) and every wake made
before the first write, and accepts the wakes made after it, under a context that is
never cancelled. -/
def lateWakeEnv : Env Nat where
  hal := {
    Read := fun _ s => (([], 0, none), s)
    Write := fun _ s => ((0, some (Err.hal s)), s + 1)
    Idle := fun s => (none, s)
    Wake := fun s => if s = 0 then (some (Err.hal 9), s) else (none, s) }
  ctxDone := fun _ s => (none, s)

/-! ## Theorems -/

/-! ### Checksum -/

theorem xor_mul_two_pow (a b k : Nat) : (a ^^^ b) * 2 ^ k = a * 2 ^ k ^^^ b * 2 ^ k := by
  apply Nat.eq_of_testBit_eq
  intro i
  simp only [Nat.mul_comm _ (2 ^ k), Nat.testBit_mul_pow_two, Nat.testBit_xor]
  by_cases h : i ≥ k <;> simp [h]

theorem two_mul_add_bit (m : Nat) (t : Bool) : 2 * m + t.toNat = (2 * m) ^^^ t.toNat := by
  apply Nat.eq_of_testBit_eq
  intro i
  cases i with
  | zero => cases t <;> simp [Nat.add_mod]
  | succ i =>
    rw [Nat.testBit_succ, Nat.testBit_succ, Nat.xor_div_two]
    have h1 : (2 * m + t.toNat) / 2 = m := by cases t <;> (simp; try omega)
    have h2 : t.toNat / 2 = 0 := by cases t <;> simp
    simp [h1, h2]

theorem add_two_pow_eq_xor (x k : Nat) (h : x < 2 ^ k) : x + 2 ^ k = x ^^^ 2 ^ k := by
  apply Nat.eq_of_testBit_eq
  intro i
  rw [Nat.testBit_xor, Nat.testBit_two_pow, Nat.add_comm]
  rcases Nat.lt_trichotomy i k with hlt | heq | hgt
  · rw [Nat.testBit_two_pow_add_gt hlt]
    have : ¬ (k = i) := by omega
    simp [this]
  · subst heq
    rw [Nat.testBit_two_pow_add_eq, Nat.testBit_lt_two_pow h]
    simp
  · have hk : 2 ^ (k + 1) ≤ 2 ^ i := Nat.pow_le_pow_right (by decide) hgt
    have h1 : 2 ^ k + x < 2 ^ i := by
      have : 2 ^ (k + 1) = 2 * 2 ^ k := by rw [Nat.pow_succ]; omega
      omega
    have h2 : x < 2 ^ i := by omega
    rw [Nat.testBit_lt_two_pow h1, Nat.testBit_lt_two_pow h2]
    have : ¬ (k = i) := by omega
    simp [this]

theorem gf2Mul_bit (q : Nat) (t : Bool) (p : Nat) :
    gf2Mul (2 * q + t.toNat) p = (if t then p else 0) ^^^ (2 * gf2Mul q p) := by
  rw [gf2Mul]
  by_cases h0 : 2 * q + t.toNat = 0
  · have hq : q = 0 := by omega
    have ht : t = false := by cases t <;> simp_all
    subst hq; subst ht
    simp [gf2Mul]
  · have h1 : (2 * q + t.toNat) / 2 = q := by cases t <;> (simp; try omega)
    have h2 : ((2 * q + t.toNat) % 2 = 1) ↔ t = true := by cases t <;> (simp; try omega)
    simp [h0, h1, h2]


theorem crc16Bit_eq (b crc j : Nat) :
    crc16Bit b crc j =
      if (b.testBit j).toNat = crc / 2 ^ 15 % 256 then 2 * crc % 65536
      else (2 * crc % 65536) ^^^ 0x8005 := by
  have hpos : 0 < 2 ^ j := Nat.pow_pos (by decide)
  have hd : (if b &&& (1 <<< j) != 0 then 1 else 0) = (b.testBit j).toNat := by
    rw [Nat.one_shiftLeft, Nat.and_two_pow]
    cases b.testBit j
    · simp
    · have : 2 ^ j ≠ 0 := by omega
      simp [this]
  unfold crc16Bit
  dsimp only
  rw [hd]
  simp only [Nat.shiftRight_eq_div_pow, Nat.shiftLeft_eq, Nat.pow_one, Nat.mul_comm crc 2]
  by_cases h : (b.testBit j).toNat = crc / 2 ^ 15 % 256 <;> simp [h]

theorem crc16Bit_step (b crc j : Nat) (h : crc < 2 ^ 16) :
    crc16Bit b crc j < 2 ^ 16 ∧
    ∃ t : Bool, (2 * crc) ^^^ ((b.testBit j).toNat * 2 ^ 16)
      = (if t then 0x18005 else 0) ^^^ crc16Bit b crc j := by
  rw [crc16Bit_eq]
  by_cases hc : crc < 2 ^ 15
  · have e1 : crc / 2 ^ 15 % 256 = 0 := by
      rw [Nat.div_eq_of_lt hc]
    have e2 : 2 * crc % 65536 = 2 * crc := by omega
    rw [e1, e2]
    cases b.testBit j
    · refine ⟨?_, false, ?_⟩
      · simp only [Bool.toNat_false, if_true]; omega
      · simp
    · have h8 : (2 * crc) ^^^ 32773 < 2 ^ 16 := Nat.xor_lt_two_pow (by omega) (by decide)
      refine ⟨?_, true, ?_⟩
      · simpa using h8
      · simp only [Bool.toNat_true, if_true, Nat.one_ne_zero, if_false, Nat.one_mul]
        rw [Nat.xor_comm (2 * crc) 32773, ← Nat.xor_assoc, Nat.xor_comm]
        rfl
  · have e1 : crc / 2 ^ 15 % 256 = 1 := by
      have : crc / 2 ^ 15 = 1 := by omega
      rw [this]
    obtain ⟨y, hy, hy2⟩ : ∃ y, y < 2 ^ 16 ∧ 2 * crc = y + 2 ^ 16 :=
      ⟨2 * crc - 2 ^ 16, by omega, by omega⟩
    have e2 : 2 * crc % 65536 = y := by omega
    have e3 : 2 * crc = y ^^^ 2 ^ 16 := by rw [hy2, add_two_pow_eq_xor y 16 hy]
    rw [e1, e2, e3]
    cases b.testBit j
    · have h8 : y ^^^ 32773 < 2 ^ 16 := Nat.xor_lt_two_pow hy (by decide)
      refine ⟨?_, true, ?_⟩
      · simpa using h8
      · simp only [Bool.toNat_false, Nat.zero_mul, Nat.xor_zero, if_true]
        simp only [show ¬ ((0:Nat) = 1) by decide, if_false]
        rw [Nat.xor_comm y 32773, ← Nat.xor_assoc, Nat.xor_comm]
        rfl
    · refine ⟨?_, false, ?_⟩
      · simpa using hy
      · simp [Nat.xor_assoc]

theorem gf2OfBits_snoc (bits : List Bool) (t : Bool) :
    gf2OfBits (bits ++ [t]) = 2 * gf2OfBits bits + t.toNat := by
  simp [gf2OfBits, List.foldl_append]

theorem crcInv_bit (bits : List Bool) (b crc j : Nat) (h : CrcInv bits crc) :
    CrcInv (bits ++ [b.testBit j]) (crc16Bit b crc j) := by
  obtain ⟨hlt, q, hq⟩ := h
  obtain ⟨hlt2, t, ht⟩ := crc16Bit_step b crc j hlt
  refine ⟨hlt2, 2 * q + t.toNat, ?_⟩
  rw [gf2OfBits_snoc, two_mul_add_bit, xor_mul_two_pow, Nat.mul_assoc, hq, gf2Mul_bit]
  have e : 2 * (gf2Mul q 98309 ^^^ crc) = 2 * gf2Mul q 98309 ^^^ 2 * crc := by
    have := xor_mul_two_pow (gf2Mul q 98309) crc 1
    simpa [Nat.mul_comm] using this
  rw [e, Nat.xor_assoc, ht, ← Nat.xor_assoc, Nat.xor_comm (2 * gf2Mul q 98309)]

theorem crcInv_bits (b : Nat) (js : List Nat) :
    ∀ (bits : List Bool) (crc : Nat), CrcInv bits crc →
      CrcInv (bits ++ js.map (fun j => b.testBit j)) (js.foldl (crc16Bit b) crc) := by
  induction js with
  | nil => intro bits crc h; simpa using h
  | cons j js ih =>
    intro bits crc h
    have := ih _ _ (crcInv_bit bits b crc j h)
    simpa [List.append_assoc] using this

theorem crcInv_bytes (data : List Nat) :
    ∀ (bits : List Bool) (crc : Nat), CrcInv bits crc →
      CrcInv (bits ++ msgBits data) (data.foldl crc16Byte crc) := by
  induction data with
  | nil => intro bits crc h; simpa [msgBits] using h
  | cons b rest ih =>
    intro bits crc h
    have := ih _ _ (crcInv_bits b (List.range 8) bits crc h)
    simpa [msgBits, List.append_assoc, crc16Byte] using this

theorem gf2Mul_unfold (a p : Nat) :
    gf2Mul a p = (if a % 2 = 1 then p else 0) ^^^ (2 * gf2Mul (a / 2) p) := by
  by_cases h : a = 0
  · subst h; simp [gf2Mul]
  · rw [gf2Mul]; simp [h]

theorem two_mul_xor (x y : Nat) : 2 * (x ^^^ y) = 2 * x ^^^ 2 * y := by
  have := xor_mul_two_pow x y 1
  simpa [Nat.mul_comm] using this

theorem gf2Mul_xor (p : Nat) : ∀ (n a b : Nat), a + b ≤ n →
    gf2Mul (a ^^^ b) p = gf2Mul a p ^^^ gf2Mul b p := by
  intro n
  induction n with
  | zero =>
    intro a b h
    have ha : a = 0 := by omega
    have hb : b = 0 := by omega
    subst ha; subst hb; simp [gf2Mul]
  | succ n ih =>
    intro a b h
    by_cases h0 : a + b = 0
    · have ha : a = 0 := by omega
      have hb : b = 0 := by omega
      subst ha; subst hb; simp [gf2Mul]
    · have hlt : a / 2 + b / 2 ≤ n := by omega
      rw [gf2Mul_unfold (a ^^^ b), gf2Mul_unfold a, gf2Mul_unfold b, Nat.xor_div_two,
        ih _ _ hlt, two_mul_xor]
      have hpar : ((a ^^^ b) % 2 = 1) ↔ ¬ ((a % 2 = 1) ↔ (b % 2 = 1)) := Nat.xor_mod_two_eq_one
      generalize 2 * gf2Mul (a / 2) p = x at *
      generalize 2 * gf2Mul (b / 2) p = y at *
      by_cases ha : a % 2 = 1 <;> by_cases hb : b % 2 = 1
      · have : ¬ ((a ^^^ b) % 2 = 1) := by rw [hpar]; simp [ha, hb]
        simp only [ha, hb, this, if_true, if_false]
        apply Nat.eq_of_testBit_eq; intro i
        simp only [Nat.testBit_xor, Nat.zero_testBit]
        cases p.testBit i <;> cases x.testBit i <;> cases y.testBit i <;> rfl
      · have : (a ^^^ b) % 2 = 1 := by rw [hpar]; simp [ha, hb]
        simp only [ha, hb, this, if_true, if_false]
        apply Nat.eq_of_testBit_eq; intro i
        simp only [Nat.testBit_xor, Nat.zero_testBit]
        cases p.testBit i <;> cases x.testBit i <;> cases y.testBit i <;> rfl
      · have : (a ^^^ b) % 2 = 1 := by rw [hpar]; simp [ha, hb]
        simp only [ha, hb, this, if_true, if_false]
        apply Nat.eq_of_testBit_eq; intro i
        simp only [Nat.testBit_xor, Nat.zero_testBit]
        cases p.testBit i <;> cases x.testBit i <;> cases y.testBit i <;> rfl
      · have : ¬ ((a ^^^ b) % 2 = 1) := by rw [hpar]; simp [ha, hb]
        simp only [ha, hb, this, if_true, if_false]
        apply Nat.eq_of_testBit_eq; intro i
        simp only [Nat.testBit_xor, Nat.zero_testBit]
        cases x.testBit i <;> cases y.testBit i <;> rfl

theorem xor_ge_of_lt (x y k : Nat) (hx : 2 ^ k ≤ x) (hy : y < 2 ^ k) : 2 ^ k ≤ x ^^^ y := by
  obtain ⟨i, hi, hbit⟩ := Nat.ge_two_pow_implies_high_bit_true hx
  have hy2 : y < 2 ^ i := Nat.lt_of_lt_of_le hy (Nat.pow_le_pow_right (by decide) hi)
  have : (x ^^^ y).testBit i = true := by
    rw [Nat.testBit_xor, hbit, Nat.testBit_lt_two_pow hy2]; rfl
  exact Nat.le_trans (Nat.pow_le_pow_right (by decide) hi) (Nat.testBit_implies_ge this)

theorem gf2Mul_poly_ge : ∀ (n q : Nat), q ≤ n → q ≠ 0 → 2 ^ 16 ≤ gf2Mul q 0x18005 := by
  intro n
  induction n with
  | zero => intro q h h0; omega
  | succ n ih =>
    intro q h h0
    rw [gf2Mul_unfold]
    by_cases h1 : q / 2 = 0
    · have hq : q = 1 := by omega
      subst hq
      simp [gf2Mul]
    · have hrec := ih (q / 2) (by omega) h1
      rw [Nat.xor_comm]
      have h17 : 2 ^ 17 ≤ 2 * gf2Mul (q / 2) 98309 := by omega
      have hp : (if q % 2 = 1 then 98309 else 0) < 2 ^ 17 := by split <;> decide
      have := xor_ge_of_lt _ _ 17 h17 hp
      omega

theorem gf2_remainder_unique (a q q' r r' : Nat) (hr : r < 2 ^ 16) (hr' : r' < 2 ^ 16)
    (h : a = gf2Mul q 0x18005 ^^^ r) (h' : a = gf2Mul q' 0x18005 ^^^ r') : r = r' := by
  have hx : gf2Mul (q ^^^ q') 0x18005 = r ^^^ r' := by
    rw [gf2Mul_xor _ _ q q' (Nat.le_refl _)]
    have e := h.symm.trans h'
    apply Nat.eq_of_testBit_eq; intro i
    have ei := congrArg (fun v => v.testBit i) e
    simp only [Nat.testBit_xor] at ei ⊢
    revert ei
    cases (gf2Mul q 98309).testBit i <;> cases (gf2Mul q' 98309).testBit i <;>
      cases r.testBit i <;> cases r'.testBit i <;> simp
  have hlt : r ^^^ r' < 2 ^ 16 := Nat.xor_lt_two_pow hr hr'
  by_cases hz : q ^^^ q' = 0
  · rw [hz] at hx
    have : r ^^^ r' = 0 := by rw [← hx]; simp [gf2Mul]
    exact Nat.xor_eq_zero.mp this
  · have := gf2Mul_poly_ge _ _ (Nat.le_refl _) hz
    omega

theorem crc16_inv (d : List Nat) : CrcInv (msgBits d) (crc16 d) := by
  have h0 : CrcInv [] 0 := ⟨by decide, 0, by simp [gf2OfBits, gf2Mul]⟩
  simpa using crcInv_bytes d [] 0 h0

theorem crc16_lt (d : List Nat) : crc16 d < 2 ^ 16 := (crc16_inv d).1

/-- C1: `crc16 d` is the remainder over GF(2) of `M(x) * x^16` modulo
`x^16 + x^15 + x^2 + 1` (`0x18005`), where `M` has the input bits, byte by byte from
least- to most-significant bit, as coefficients with the first bit at the highest
degree: it has degree below 16, it differs from `M * x^16` by a multiple of the
polynomial, and it is the only such value; `crc16("a") = 0x8317` and
`crc16("abc") = 0x1ce9`. -/
theorem crc16_is_gf2_remainder (d : List Nat) :
    (crc16 d < 2 ^ 16 ∧
      ∃ q, gf2OfBits (msgBits d) * 2 ^ 16 = gf2Mul q 0x18005 ^^^ crc16 d) ∧
    (∀ q r, r < 2 ^ 16 → gf2OfBits (msgBits d) * 2 ^ 16 = gf2Mul q 0x18005 ^^^ r →
      r = crc16 d) ∧
    crc16 [0x61] = 0x8317 ∧ crc16 [0x61, 0x62, 0x63] = 0x1ce9 := by
  obtain ⟨hlt, q0, hq0⟩ := crc16_inv d
  refine ⟨⟨hlt, q0, hq0⟩, ?_, by decide, ?_⟩
  · intro q r hr hq
    exact gf2_remainder_unique _ q q0 r _ hr hlt hq hq0
  · set_option maxRecDepth 100000 in decide


/-! ### Packet codec -/

theorem newPacket_ok_iff (opcode param1 param2 : Nat) (data : List Nat) (p : packet) :
    newPacket opcode param1 param2 data = .ok p ↔
      data.length ≤ 151 ∧ p = ⟨opcode, param1, param2, data⟩ := by
  unfold newPacket atcaCmdSizeMax
  by_cases h : data.length > 4 * 36 + 7
  · simp only [h, if_true]
    constructor
    · intro h'; cases h'
    · intro h'; omega
  · simp only [h, if_false]
    constructor
    · intro h'
      injection h' with h'
      exact ⟨by omega, h'.symm⟩
    · intro h'
      rw [h'.2]

theorem encode_eq (p : packet) (hlen : p.data.length ≤ 151) (hp2 : p.param2 < 65536) :
    Encode p = (frameLayout p.opcode p.param1 p.param2 p.data, none) := by
  have hsz : (7 + p.data.length % 256) % 256 = 7 + p.data.length := by omega
  have h1 : p.param2 % 256 = p.param2 &&& 0xFF :=
    (Nat.and_pow_two_sub_one_eq_mod p.param2 8).symm
  have h2 : (p.param2 >>> 8) % 256 = p.param2 >>> 8 := by
    rw [Nat.shiftRight_eq_div_pow]; omega
  have h3 : ∀ c, c % 256 = c &&& 0xFF := fun c => (Nat.and_pow_two_sub_one_eq_mod c 8).symm
  have h4 : ∀ d, (crc16 d >>> 8) % 256 = crc16 d >>> 8 := by
    intro d
    have := crc16_lt d
    rw [Nat.shiftRight_eq_div_pow]; omega
  simp only [Encode, frameLayout, packet.Size, atcaCmdSizeMin, appendUint16, hsz, h1, h2, h4,
    List.nil_append, List.cons_append, List.append_assoc, h3 (crc16 _)]

theorem frameLayout_length (opcode param1 param2 : Nat) (data : List Nat) :
    (frameLayout opcode param1 param2 data).length = 7 + data.length := by
  simp [frameLayout]; omega

/-- C2: for every packet `p` returned by `newPacket` (so with `n = len(data) <= 151`),
`Encode p` succeeds with the `7 + n` bytes
`[7+n, opcode, param1, param2 & 0xFF, param2 >> 8] ++ data ++ [c & 0xFF, c >> 8]`, `c`
being `crc16` of the first `5 + n` bytes; the Info/Revision command encodes to
`07 30 00 00 00 03 5D`. -/
theorem encode_newPacket_frame (opcode param1 param2 : Nat) (data : List Nat)
    (hp2 : param2 < 65536) :
    (∀ p, newPacket opcode param1 param2 data = .ok p →
      data.length ≤ 151 ∧
      Encode p = (frameLayout opcode param1 param2 data, none) ∧
      (frameLayout opcode param1 param2 data).length = 7 + data.length) ∧
    (∃ q, newInfoCommand infoModeRevision = .ok q ∧
      Encode q = ([0x07, 0x30, 0x00, 0x00, 0x00, 0x03, 0x5D], none)) := by
  constructor
  · intro p hp
    rw [newPacket_ok_iff] at hp
    obtain ⟨hlen, rfl⟩ := hp
    exact ⟨hlen, encode_eq _ hlen hp2, frameLayout_length _ _ _ _⟩
  · refine ⟨⟨0x30, 0, 0, []⟩, rfl, ?_⟩
    set_option maxRecDepth 100000 in decide

theorem encode_newPacket_frame_witness :
    (0 : Nat) < 65536 ∧
    ((∀ p, newPacket 0x30 0 0 [] = .ok p →
      ([] : List Nat).length ≤ 151 ∧
      Encode p = (frameLayout 0x30 0 0 [], none) ∧
      (frameLayout 0x30 0 0 []).length = 7 + ([] : List Nat).length) ∧
    (∃ q, newInfoCommand infoModeRevision = .ok q ∧
      Encode q = ([0x07, 0x30, 0x00, 0x00, 0x00, 0x03, 0x5D], none))) :=
  ⟨by decide, encode_newPacket_frame 0x30 0 0 [] (by decide)⟩

theorem split_param2 (x : Nat) : (x &&& 0xFF) + 256 * (x >>> 8) = x := by
  have h1 : x &&& 0xFF = x % 256 := Nat.and_pow_two_sub_one_eq_mod x 8
  rw [h1, Nat.shiftRight_eq_div_pow]
  omega

theorem frameLayout_fields (opcode param1 param2 : Nat) (data : List Nat) :
    (frameLayout opcode param1 param2 data).getD 0 0 = 7 + data.length ∧
    (frameLayout opcode param1 param2 data).getD 1 0 = opcode ∧
    (frameLayout opcode param1 param2 data).getD 2 0 = param1 ∧
    (frameLayout opcode param1 param2 data).getD 3 0
      + 256 * (frameLayout opcode param1 param2 data).getD 4 0 = param2 ∧
    ((frameLayout opcode param1 param2 data).drop 5).take data.length = data := by
  refine ⟨?_, ?_, ?_, ?_, ?_⟩
  · simp [frameLayout]
  · simp [frameLayout]
  · simp [frameLayout]
  · simp only [frameLayout, List.cons_append, List.getD_cons_succ, List.getD_cons_zero]
    exact split_param2 param2
  · simp [frameLayout]

/-- C3: `Encode` is injective on packets built by `newPacket`, and the fields are
recovered from the frame `f = Encode p`: `opcode = f[1]`, `param1 = f[2]`,
`param2 = f[3] + 256 * f[4]`, and the payload is the `f[0] - 7` bytes from index 5 on,
that is `f[5] .. f[f[0]-3]`. -/
theorem encode_injective_fields_recoverable (p q : packet)
    (hp : newPacket p.opcode p.param1 p.param2 p.data = .ok p)
    (hq : newPacket q.opcode q.param1 q.param2 q.data = .ok q)
    (hp2 : p.param2 < 65536) (hq2 : q.param2 < 65536) :
    ((Encode p).1 = (Encode q).1 → p = q) ∧
    ((Encode p).1.getD 1 0 = p.opcode ∧
     (Encode p).1.getD 2 0 = p.param1 ∧
     (Encode p).1.getD 3 0 + 256 * (Encode p).1.getD 4 0 = p.param2 ∧
     ((Encode p).1.drop 5).take ((Encode p).1.getD 0 0 - 7) = p.data) := by
  rw [newPacket_ok_iff] at hp hq
  have ep := encode_eq p hp.1 hp2
  have eq := encode_eq q hq.1 hq2
  obtain ⟨a0, a1, a2, a3, a4⟩ := frameLayout_fields p.opcode p.param1 p.param2 p.data
  obtain ⟨b0, b1, b2, b3, b4⟩ := frameLayout_fields q.opcode q.param1 q.param2 q.data
  rw [ep, eq]
  dsimp only
  constructor
  · intro h
    rw [h] at a0 a1 a2 a3 a4
    have hlen : p.data.length = q.data.length := by omega
    rw [hlen] at a4
    cases p; cases q
    simp only [packet.mk.injEq]
    simp only at a1 a2 a3 a4 b1 b2 b3 b4
    exact ⟨a1.symm.trans b1, a2.symm.trans b2, a3.symm.trans b3, a4.symm.trans b4⟩
  · refine ⟨a1, a2, a3, ?_⟩
    rw [a0]
    simpa using a4

theorem encode_injective_fields_recoverable_witness :
    newPacket 0x30 0 0 [] = .ok ⟨0x30, 0, 0, []⟩ ∧
    newPacket 0x02 0x80 0x10 [] = .ok ⟨0x02, 0x80, 0x10, []⟩ ∧
    (0 : Nat) < 65536 ∧ (0x10 : Nat) < 65536 ∧
    (((Encode ⟨0x30, 0, 0, []⟩).1 = (Encode ⟨0x02, 0x80, 0x10, []⟩).1 →
        (⟨0x30, 0, 0, []⟩ : packet) = ⟨0x02, 0x80, 0x10, []⟩) ∧
    ((Encode ⟨0x30, 0, 0, []⟩).1.getD 1 0 = 0x30 ∧
     (Encode ⟨0x30, 0, 0, []⟩).1.getD 2 0 = 0 ∧
     (Encode ⟨0x30, 0, 0, []⟩).1.getD 3 0 + 256 * (Encode ⟨0x30, 0, 0, []⟩).1.getD 4 0 = 0 ∧
     ((Encode ⟨0x30, 0, 0, []⟩).1.drop 5).take ((Encode ⟨0x30, 0, 0, []⟩).1.getD 0 0 - 7)
        = [])) :=
  ⟨rfl, rfl, by decide, by decide,
    encode_injective_fields_recoverable ⟨0x30, 0, 0, []⟩ ⟨0x02, 0x80, 0x10, []⟩ rfl rfl
      (by decide) (by decide)⟩


/-! ### Session engine: the response path of `executeResponse` -/

theorem encode_pair (p : packet) : Encode p = ((Encode p).1, none) := rfl

/-- Once the command is transmitted, the execution time is known, the context is not
cancelled and the read succeeds, the result is that of `checkResponse`. -/
theorem executeResponse_of_read {σ : Type} (E : Env σ) (p : packet) (recv : List Nat)
    (d d1 : Dev σ) (t : Nat) (s2 s3 : σ) (bytes : List Nat) (size : Int)
    (hsend : sendLoop E (Encode p).1 (d.cfg.RxRetries + 1).toNat none d = (.fellThrough none, d1))
    (htime : getExecutionTime d1.cfg.DeviceType d1.clockDivider p.opcode = .ok t)
    (hctx : E.ctxDone t d1.env = (none, s2))
    (hread : E.hal.Read (recv.length + 3) s2 = ((bytes, size, none), s3)) :
    (executeResponse E p recv d).1 =
      checkResponse (goCopy (List.replicate (recv.length + 3) 0) bytes) size recv := by
  unfold executeResponse
  rw [encode_pair p]
  simp only [hsend, awaitResponse, htime, hctx, List.length_replicate, hread]

theorem uint16LE_append (lo hi : Nat) (rest : List Nat) :
    uint16LE ([lo, hi] ++ rest) = some (lo ||| (hi <<< 8)) := rfl

theorem or_shift_eq (lo hi : Nat) (h : lo < 256) : lo ||| (hi <<< 8) = 256 * hi + lo := by
  rw [Nat.shiftLeft_eq, Nat.mul_comm hi, Nat.or_comm]
  exact (Nat.mul_add_lt_is_or (i := 8) h hi).symm

theorem goSlice_prefix (a b : List Nat) : goSlice (a ++ b) 0 a.length = some a := by
  unfold goSlice
  simp

theorem goSlice_suffix (a b : List Nat) :
    goSlice (a ++ b) a.length (a ++ b).length = some b := by
  unfold goSlice
  have h : ((a.length : Int) + (b.length : Int)).toNat = a.length + b.length := by omega
  simp [h]

theorem goSlice_tail (x : Nat) (a : List Nat) : goSlice (x :: a) 1 (x :: a).length = some a := by
  unfold goSlice
  simp

theorem goCopy_zeros (k : Nat) (f : List Nat) (h : f.length ≤ k) :
    goCopy (List.replicate k 0) f = f ++ List.replicate (k - f.length) 0 := by
  unfold goCopy
  simp [List.take_of_length_le h]

/-- With an empty `recv` the buffer has three bytes and every response is refused. -/
theorem checkResponse_recv_nil (buf : List Nat) (size : Int) (h : buf.length = 3) :
    checkResponse buf size [] = .ret (0, some receiveFailed, []) := by
  unfold checkResponse
  simp [h]

theorem checkResponse_split (body : List Nat) (lo hi : Nat) (recv : List Nat)
    (hfit : body.length ≤ recv.length + 1) (hrecv : 1 ≤ recv.length) :
    checkResponse (goCopy (List.replicate (recv.length + 3) 0) (body ++ [lo, hi]))
        ((body ++ [lo, hi]).length : Int) recv =
      if crc16 body ≠ lo ||| (hi <<< 8) then .ret (0, some receivedCrcMissmatch, recv)
      else
        match goSlice body 1 body.length with
        | none => .panicked
        | some payload =>
          if ((body ++ [lo, hi]).length : Int) = 4 then
            match validateResponseStatusCode payload with
            | some e => .ret (0, some e, recv)
            | none => .ret ((min recv.length payload.length : Nat), none, goCopy recv payload)
          else .ret ((min recv.length payload.length : Nat), none, goCopy recv payload) := by
  have hl : (body ++ [lo, hi]).length ≤ recv.length + 3 := by simp; omega
  rw [goCopy_zeros _ _ hl]
  generalize hz : List.replicate (recv.length + 3 - (body ++ [lo, hi]).length) 0 = zs
  have hlen : (body ++ [lo, hi] ++ zs).length = recv.length + 3 := by
    rw [← hz]; simp; omega
  unfold checkResponse
  have h0 : ¬ (body ++ [lo, hi] ++ zs).length = 0 := by omega
  have h4 : ¬ (body ++ [lo, hi] ++ zs).length < 4 := by omega
  simp only [h0, h4, if_false]
  have e1 : ((body ++ [lo, hi]).length : Int) - 2 = (body.length : Int) := by simp
  rw [e1]
  have e2 : body ++ [lo, hi] ++ zs = body ++ ([lo, hi] ++ zs) := by simp
  rw [e2, goSlice_prefix, goSlice_suffix]
  simp only [uint16LE_append]

/-- A frame whose trailing two bytes are not the checksum of the bytes before them. -/
theorem checkResponse_bad_crc (body : List Nat) (lo hi : Nat) (recv : List Nat)
    (hfit : body.length ≤ recv.length + 1) (hrecv : 1 ≤ recv.length)
    (hc : crc16 body ≠ lo ||| (hi <<< 8)) :
    checkResponse (goCopy (List.replicate (recv.length + 3) 0) (body ++ [lo, hi]))
        ((body ++ [lo, hi]).length : Int) recv = .ret (0, some receivedCrcMissmatch, recv) := by
  rw [checkResponse_split body lo hi recv hfit hrecv, if_pos hc]

/-- A frame `x :: payload ++ [lo, hi]` with a matching checksum. -/
theorem checkResponse_good_crc (x : Nat) (payload : List Nat) (lo hi : Nat) (recv : List Nat)
    (hfit : payload.length ≤ recv.length) (hrecv : 1 ≤ recv.length)
    (hc : crc16 (x :: payload) = lo ||| (hi <<< 8)) :
    checkResponse (goCopy (List.replicate (recv.length + 3) 0) (x :: payload ++ [lo, hi]))
        ((x :: payload ++ [lo, hi]).length : Int) recv =
      if payload.length = 1 then
        match validateResponseStatusCode payload with
        | some e => .ret (0, some e, recv)
        | none => .ret ((payload.length : Nat), none, goCopy recv payload)
      else .ret ((payload.length : Nat), none, goCopy recv payload) := by
  have hfit2 : (x :: payload).length ≤ recv.length + 1 := by simp; omega
  have := checkResponse_split (x :: payload) lo hi recv hfit2 hrecv
  rw [this, if_neg (by simpa using hc), goSlice_tail]
  have hmin : min recv.length payload.length = payload.length := by omega
  simp only [hmin]
  by_cases h1 : payload.length = 1
  · have h4 : ((x :: payload ++ [lo, hi]).length : Int) = 4 := by simp [h1]
    rw [if_pos h4, if_pos h1]
  · have h4 : ¬ ((x :: payload ++ [lo, hi]).length : Int) = 4 := by
      simp only [List.length_cons, List.length_append, List.length_nil]; omega
    rw [if_neg h4, if_neg h1]


theorem split_last_two (f : List Nat) (h : 2 ≤ f.length) :
    ∃ lo hi, f.drop (f.length - 2) = [lo, hi] ∧ f = f.take (f.length - 2) ++ [lo, hi] := by
  have hlen : (f.drop (f.length - 2)).length = 2 := by simp; omega
  match hd : f.drop (f.length - 2), hlen with
  | [lo, hi], _ =>
    refine ⟨lo, hi, rfl, ?_⟩
    rw [← hd, List.take_append_drop]

theorem le_bytes_eq (lo hi c : Nat) (hlo : lo < 256) (_hhi : hi < 256) :
    c = lo ||| (hi <<< 8) → [lo, hi] = [c % 256, c / 256] := by
  intro h
  rw [or_shift_eq lo hi hlo] at h
  have h1 : c % 256 = lo := by omega
  have h2 : c / 256 = hi := by omega
  rw [h1, h2]

theorem le_bytes_crc (c : Nat) : (c % 256) ||| ((c / 256) <<< 8) = c := by
  rw [or_shift_eq _ _ (Nat.mod_lt _ (by decide))]
  omega

/-- C7: if the command is transmitted, its opcode has an execution time, the context is
not cancelled and `hal.Read` delivers a frame `f` of `n` bytes, `5 <= n <= len(recv)+3`,
whose last two bytes are the little-endian `crc16` of `f[0..n-2)`, then `executeResponse`
returns `(n-3, nil)` and `recv[0..n-3)` equals `f[1..n-2)`, the rest of `recv` unchanged. -/
theorem executeResponse_returns_payload {σ : Type} (E : Env σ) (p : packet)
    (recv : List Nat) (d d1 : Dev σ) (t : Nat) (s2 s3 : σ) (f : List Nat)
    (hsend : sendLoop E (Encode p).1 (d.cfg.RxRetries + 1).toNat none d = (.fellThrough none, d1))
    (htime : getExecutionTime d1.cfg.DeviceType d1.clockDivider p.opcode = .ok t)
    (hctx : E.ctxDone t d1.env = (none, s2))
    (hread : E.hal.Read (recv.length + 3) s2 = ((f, (f.length : Int), none), s3))
    (hn : 5 ≤ f.length ∧ f.length ≤ recv.length + 3)
    (hcrc : f.drop (f.length - 2) =
      [crc16 (f.take (f.length - 2)) % 256, crc16 (f.take (f.length - 2)) / 256]) :
    ∃ r, (executeResponse E p recv d).1 = .ret ((f.length : Int) - 3, none, r) ∧
      r.length = recv.length ∧
      r.take (f.length - 3) = (f.drop 1).take (f.length - 3) ∧
      r.drop (f.length - 3) = recv.drop (f.length - 3) := by
  rw [executeResponse_of_read E p recv d d1 t s2 s3 f _ hsend htime hctx hread]
  obtain ⟨lo, hi, hd, hf⟩ := split_last_two f (by omega)
  rw [hd] at hcrc
  generalize hb : f.take (f.length - 2) = body at hf hcrc
  have hbl : body.length = f.length - 2 := by rw [← hb]; simp
  match body, hbl with
  | [], h => simp at h; omega
  | x :: payload, hbl =>
    simp only [List.length_cons] at hbl
    have hpl : payload.length = f.length - 3 := by omega
    have hc : crc16 (x :: payload) = lo ||| (hi <<< 8) := by
      injection hcrc with h1 h2
      injection h2 with h2 _
      rw [h1, h2, le_bytes_crc]
    have key := checkResponse_good_crc x payload lo hi recv (by omega) (by omega) hc
    rw [← hf] at key
    rw [key, if_neg (by omega)]
    refine ⟨goCopy recv payload, ?_, ?_, ?_, ?_⟩
    · congr 2
      omega
    · simp [goCopy]; omega
    · have e : (f.drop 1).take (f.length - 3) = payload := by
        rw [hf]; simp [← hpl]
      rw [e, ← hpl]
      simp [goCopy, List.take_of_length_le (show payload.length ≤ recv.length by omega)]
    · rw [← hpl]
      simp [goCopy, List.take_of_length_le (show payload.length ≤ recv.length by omega)]

/-- C8: when the frame delivered by `hal.Read` (at least two bytes, fitting the buffer)
has trailing two bytes different from the little-endian `crc16` of the bytes before them,
`executeResponse` returns 0 bytes and an error and leaves `recv` unmodified; whenever
`recv` is non-empty (so for every 4-byte frame, whatever its status byte) the error is
the checksum error, raised before the status byte is looked at. -/
theorem executeResponse_rejects_bad_crc {σ : Type} (E : Env σ) (p : packet)
    (recv : List Nat) (d d1 : Dev σ) (t : Nat) (s2 s3 : σ) (f : List Nat)
    (hsend : sendLoop E (Encode p).1 (d.cfg.RxRetries + 1).toNat none d = (.fellThrough none, d1))
    (htime : getExecutionTime d1.cfg.DeviceType d1.clockDivider p.opcode = .ok t)
    (hctx : E.ctxDone t d1.env = (none, s2))
    (hread : E.hal.Read (recv.length + 3) s2 = ((f, (f.length : Int), none), s3))
    (hbytes : ∀ b ∈ f, b < 256)
    (hn : 2 ≤ f.length ∧ f.length ≤ recv.length + 3)
    (hcrc : f.drop (f.length - 2) ≠
      [crc16 (f.take (f.length - 2)) % 256, crc16 (f.take (f.length - 2)) / 256]) :
    ∃ e, (executeResponse E p recv d).1 = .ret (0, some e, recv) ∧
      (1 ≤ recv.length → e = receivedCrcMissmatch) := by
  rw [executeResponse_of_read E p recv d d1 t s2 s3 f _ hsend htime hctx hread]
  by_cases hr : recv.length = 0
  · have hnil : recv = [] := List.length_eq_zero.mp hr
    subst hnil
    refine ⟨receiveFailed, ?_, by simp⟩
    apply checkResponse_recv_nil
    simp only [goCopy, List.length_replicate, List.length_append, List.length_take,
      List.length_drop, List.length_nil]
    omega
  · obtain ⟨lo, hi, hd, hf⟩ := split_last_two f hn.1
    rw [hd] at hcrc
    generalize hb : f.take (f.length - 2) = body at hf hcrc
    have hbl : body.length = f.length - 2 := by rw [← hb]; simp
    have hlo : lo < 256 := hbytes lo (by rw [hf]; simp)
    have hhi : hi < 256 := hbytes hi (by rw [hf]; simp)
    have hc : crc16 body ≠ lo ||| (hi <<< 8) := fun h => hcrc (le_bytes_eq lo hi _ hlo hhi h)
    have key := checkResponse_bad_crc body lo hi recv (by omega) (by omega) hc
    rw [← hf] at key
    exact ⟨receivedCrcMissmatch, key, fun _ => rfl⟩

theorem validate_nonzero (s : Nat) (hs : s ≠ 0) :
    ∃ e, validateResponseStatusCode [s] = some e := by
  unfold validateResponseStatusCode
  simp only [hs, if_false]
  repeat' split
  all_goals exact ⟨_, rfl⟩

/-- C9: for a received 4-byte frame `[len, s, crcLo, crcHi]` with a correct checksum
(which needs a non-empty `recv` to fit the buffer): if `s = 0x00` the call succeeds with
one byte, `recv[0] = 0x00`; every `s != 0x00` yields `(0, validateResponseStatusCode [s])`
with `recv` untouched, which is `errCRC` for `s = 0xFF` and `errUnknown` for every status
that is not a recognised code. -/
theorem executeResponse_status_frame {σ : Type} (E : Env σ) (p : packet)
    (recv : List Nat) (d d1 : Dev σ) (t : Nat) (s2 s3 : σ) (l s : Nat)
    (hsend : sendLoop E (Encode p).1 (d.cfg.RxRetries + 1).toNat none d = (.fellThrough none, d1))
    (htime : getExecutionTime d1.cfg.DeviceType d1.clockDivider p.opcode = .ok t)
    (hctx : E.ctxDone t d1.env = (none, s2))
    (hread : E.hal.Read (recv.length + 3) s2 =
      (([l, s, crc16 [l, s] % 256, crc16 [l, s] / 256], (4 : Int), none), s3))
    (hrecv : 1 ≤ recv.length) :
    (s = 0x00 → (executeResponse E p recv d).1 = .ret (1, none, 0x00 :: recv.drop 1)) ∧
    (s ≠ 0x00 → (executeResponse E p recv d).1 =
        .ret (0, validateResponseStatusCode [s], recv) ∧
        (validateResponseStatusCode [s]).isSome) ∧
    (s = 0xFF → (executeResponse E p recv d).1 = .ret (0, some errCRC, recv)) ∧
    (s ∉ [0x00, 0x01, 0x03, 0x05, 0x07, 0x08, 0x0f, 0x11, 0xff] →
      (executeResponse E p recv d).1 = .ret (0, some errUnknown, recv)) := by
  rw [executeResponse_of_read E p recv d d1 t s2 s3 _ _ hsend htime hctx hread]
  have key := checkResponse_good_crc l [s] (crc16 [l, s] % 256) (crc16 [l, s] / 256) recv
    (by simpa using hrecv) hrecv (le_bytes_crc _).symm
  simp only [List.cons_append, List.nil_append, List.length_cons, List.length_nil,
    if_true] at key
  have key2 : checkResponse (goCopy (List.replicate (recv.length + 3) 0)
      [l, s, crc16 [l, s] % 256, crc16 [l, s] / 256]) 4 recv =
      match validateResponseStatusCode [s] with
      | some e => Outcome.ret (0, some e, recv)
      | none => Outcome.ret (1, none, goCopy recv [s]) := by
    exact key
  rw [key2]
  have hcopy : goCopy recv [s] = s :: recv.drop 1 := by
    cases recv with
    | nil => simp at hrecv
    | cons a r => simp [goCopy]
  have nz : ∀ v, s ≠ 0 → validateResponseStatusCode [s] = some v →
      (match validateResponseStatusCode [s] with
        | some e => (Outcome.ret (0, some e, recv) : ExecOut)
        | none => Outcome.ret (1, none, goCopy recv [s])) = .ret (0, some v, recv) := by
    intro v _ hv; rw [hv]
  refine ⟨?_, ?_, ?_, ?_⟩
  · intro hs
    subst hs
    rw [hcopy]; rfl
  · intro hs
    obtain ⟨e, he⟩ := validate_nonzero s hs
    rw [nz e hs he, he]
    exact ⟨rfl, rfl⟩
  · intro hs
    subst hs
    exact nz _ (by decide) rfl
  · intro hs
    simp only [List.mem_cons, List.mem_singleton, List.not_mem_nil, or_false, not_or] at hs
    obtain ⟨h0, h1, h3, h5, h7, h8, hf, h11, hff⟩ := hs
    apply nz _ h0
    simp [validateResponseStatusCode, h0, h1, h3, h5, h7, h8, hf, h11, hff]


theorem sendLoop_replyEnv (f : List Nat) (p : packet) :
    sendLoop (replyEnv f) (Encode p).1 (freshDev.cfg.RxRetries + 1).toNat none freshDev =
      (.fellThrough none, sentDev (Encode p).1) := rfl

set_option maxRecDepth 100000 in
theorem executeResponse_returns_payload_witness :
    ∃ r, (executeResponse (replyEnv [5, 0xAA, 0xBB, 75, 116]) infoPacket [0, 0] freshDev).1 =
        .ret ((([5, 0xAA, 0xBB, 75, 116] : List Nat).length : Int) - 3, none, r) ∧
      r.length = ([0, 0] : List Nat).length ∧
      r.take (([5, 0xAA, 0xBB, 75, 116] : List Nat).length - 3) =
        (([5, 0xAA, 0xBB, 75, 116] : List Nat).drop 1).take
          (([5, 0xAA, 0xBB, 75, 116] : List Nat).length - 3) ∧
      r.drop (([5, 0xAA, 0xBB, 75, 116] : List Nat).length - 3) =
        ([0, 0] : List Nat).drop (([5, 0xAA, 0xBB, 75, 116] : List Nat).length - 3) :=
  executeResponse_returns_payload (replyEnv [5, 0xAA, 0xBB, 75, 116]) infoPacket [0, 0]
    freshDev (sentDev (Encode infoPacket).1) 5 () () [5, 0xAA, 0xBB, 75, 116]
    (sendLoop_replyEnv _ _) rfl rfl rfl (by decide) (by decide)

set_option maxRecDepth 100000 in
theorem executeResponse_rejects_bad_crc_witness :
    ∃ e, (executeResponse (replyEnv [4, 0x00, 0x12, 0x34]) infoPacket [0] freshDev).1 =
        .ret (0, some e, [0]) ∧
      (1 ≤ ([0] : List Nat).length → e = receivedCrcMissmatch) :=
  executeResponse_rejects_bad_crc (replyEnv [4, 0x00, 0x12, 0x34]) infoPacket [0]
    freshDev (sentDev (Encode infoPacket).1) 5 () () [4, 0x00, 0x12, 0x34]
    (sendLoop_replyEnv _ _) rfl rfl rfl (by decide) (by decide) (by decide)

set_option maxRecDepth 100000 in
theorem executeResponse_status_frame_witness :
    ((0xFF : Nat) = 0x00 →
      (executeResponse (replyEnv [4, 0xFF, crc16 [4, 0xFF] % 256, crc16 [4, 0xFF] / 256])
        infoPacket [0] freshDev).1 = .ret (1, none, 0x00 :: ([0] : List Nat).drop 1)) ∧
    ((0xFF : Nat) ≠ 0x00 →
      (executeResponse (replyEnv [4, 0xFF, crc16 [4, 0xFF] % 256, crc16 [4, 0xFF] / 256])
        infoPacket [0] freshDev).1 = .ret (0, validateResponseStatusCode [0xFF], [0]) ∧
      (validateResponseStatusCode [0xFF]).isSome) ∧
    ((0xFF : Nat) = 0xFF →
      (executeResponse (replyEnv [4, 0xFF, crc16 [4, 0xFF] % 256, crc16 [4, 0xFF] / 256])
        infoPacket [0] freshDev).1 = .ret (0, some errCRC, [0])) ∧
    ((0xFF : Nat) ∉ [0x00, 0x01, 0x03, 0x05, 0x07, 0x08, 0x0f, 0x11, 0xff] →
      (executeResponse (replyEnv [4, 0xFF, crc16 [4, 0xFF] % 256, crc16 [4, 0xFF] / 256])
        infoPacket [0] freshDev).1 = .ret (0, some errUnknown, [0])) :=
  executeResponse_status_frame (replyEnv [4, 0xFF, crc16 [4, 0xFF] % 256, crc16 [4, 0xFF] / 256])
    infoPacket [0] freshDev (sentDev (Encode infoPacket).1) 5 () () 4 0xFF
    (sendLoop_replyEnv _ _) rfl rfl rfl (by decide)

/-- C10 (the code at the failing inputs): with a one-byte `recv`, a reported size of 3
whose single leading byte carries a correct checksum is accepted, `(0, nil)`; reported
sizes 0 and 1, and size 2 with two zero bytes, end in a slice-bounds panic; none of them
is refused with an error. -/
theorem executeResponse_short_frames_not_rejected :
    (executeResponse (replyEnv [3, 0x80, 0x02]) infoPacket [0] freshDev).1 =
      .ret (0, none, [0]) ∧
    (executeResponse (replyEnv []) infoPacket [0] freshDev).1 = .panicked ∧
    (executeResponse (replyEnv [1]) infoPacket [0] freshDev).1 = .panicked ∧
    (executeResponse (replyEnv [0, 0]) infoPacket [0] freshDev).1 = .panicked := by
  refine ⟨?_, ?_, ?_, ?_⟩ <;>
    (rw [executeResponse_of_read _ infoPacket [0] freshDev (sentDev (Encode infoPacket).1) 5
      () () _ _ (sendLoop_replyEnv _ _) rfl rfl rfl]
     set_option maxRecDepth 100000 in decide)


/-! ### Zone addressing engine: writes -/

theorem goSlice_eq_some (s : List Nat) (lo hi : Nat) (h : lo ≤ hi) (hh : hi ≤ s.length) :
    goSlice s (lo : Int) (hi : Int) = some ((s.drop lo).take (hi - lo)) := by
  unfold goSlice
  have hc : (0 : Int) ≤ (lo : Int) ∧ (lo : Int) ≤ (hi : Int) ∧ (hi : Int) ≤ (s.length : Int) := by
    omega
  rw [if_pos hc]
  simp

theorem goSlice_eq_none (s : List Nat) (lo hi : Nat) (hh : s.length < hi) :
    goSlice s (lo : Int) (hi : Int) = none := by
  unfold goSlice
  have hc : ¬ ((0 : Int) ≤ (lo : Int) ∧ (lo : Int) ≤ (hi : Int) ∧ (hi : Int) ≤ (s.length : Int)) := by
    omega
  rw [if_neg hc]

/-- What `writeZone` adds to the record of issued packets: nothing, or the one
command `writeCommandFor` builds for a 32- or 4-byte chunk. -/
theorem writeZone_issued {σ : Type} (X : Executor σ) (zone slot block word : Nat)
    (chunk : List Nat) (w : World σ) :
    (writeZone X zone slot block word chunk w).2.issued = w.issued ∨
    ∃ cmd, writeCommandFor zone slot block word chunk = .ok cmd ∧
      (chunk.length = 32 ∨ chunk.length = 4) ∧
      (writeZone X zone slot block word chunk w).2.issued = w.issued ++ [cmd] := by
  unfold writeZone writeCommandFor
  by_cases hl : chunk.length ≠ atcaBlockSize ∧ chunk.length ≠ atcaWordSize
  · left; rw [if_pos hl]
  · rw [if_neg hl]
    have hl2 : chunk.length = 32 ∨ chunk.length = 4 := by
      simp only [atcaBlockSize, atcaWordSize] at hl; omega
    cases ha : getAddr zone slot block word with
    | error e => left; rfl
    | ok addr =>
      simp only [write]
      cases hc : newWriteCommand zone addr chunk none with
      | error e => left; rfl
      | ok cmd =>
        right
        refine ⟨cmd, rfl, hl2, ?_⟩
        simp only [execute, execResponse]
        rcases hx : X cmd [0] w.dev with ⟨out, s⟩
        cases out with
        | ret v => obtain ⟨n, err, r⟩ := v; rfl
        | panicked => rfl
        | outOfFuel => rfl


theorem getAddr_config (slot block word : Nat) (hb : block < 256) (hw : word < 8) :
    getAddr ZoneConfig slot block word = .ok (8 * block + word) := by
  unfold getAddr
  simp only [true_or, if_true]
  have h1 : word &&& 0x07 = word := by
    rw [Nat.and_pow_two_sub_one_eq_mod word 3]; omega
  have h2 : (block <<< 3) % 65536 = 2 ^ 3 * block := by
    rw [Nat.shiftLeft_eq]; omega
  rw [h1, h2, ← Nat.mul_add_lt_is_or (by omega) block]

theorem goCopy_length (dst src : List Nat) : (goCopy dst src).length = dst.length := by
  unfold goCopy
  simp
  omega

theorem writeCommandFor_config (slot block word : Nat) (chunk : List Nat) (cmd : packet)
    (hb : block < 256) (hw : word < 8) (hl : chunk.length = 32 ∨ chunk.length = 4)
    (h : writeCommandFor ZoneConfig slot block word chunk = .ok cmd) :
    cmd.opcode = atcaWrite ∧ cmd.param2 = 8 * block + word ∧
      cmd.param1 = (if chunk.length = 32 then 0x80 else 0x00) := by
  unfold writeCommandFor at h
  rw [getAddr_config slot block word hb hw] at h
  unfold newWriteCommand at h
  simp only [atcaBlockSize, atcaWordSize, List.length_replicate, Option.isSome_none] at h
  rcases hl with hl | hl
  · have hm : min (32 * 2) chunk.length = 32 := by omega
    simp only [hm, newPacket, atcaCmdSizeMax, goCopy_length, List.length_replicate] at h
    simp at h
    subst h
    simp [hl, ZoneConfig, atcaZoneReadWrite32]
  · have hm : min (32 * 2) chunk.length = 4 := by omega
    simp only [hm, newPacket, atcaCmdSizeMax, goCopy_length, List.length_replicate] at h
    simp at h
    subst h
    simp [hl, ZoneConfig]

theorem goSlice_nat_add (s : List Nat) (lo k : Nat) (h : lo + k ≤ s.length) :
    goSlice s (lo : Int) ((lo : Int) + (k : Int)) = some ((s.drop lo).take k) := by
  have := goSlice_eq_some s lo (lo + k) (by omega) h
  rw [Nat.add_sub_cancel_left] at this
  rw [← this]
  congr 1

theorem goSlice_nat_add_none (s : List Nat) (lo k : Nat) (h : s.length < lo + k) :
    goSlice s (lo : Int) ((lo : Int) + (k : Int)) = none := by
  have := goSlice_eq_none s lo (lo + k) h
  rw [← this]
  congr 1

theorem writeBytesLoop_done {σ : Type} (X : Executor σ) (zone slot : Nat)
    (data : List Nat) (fuel block word index : Nat) (w : World σ)
    (h1 : ¬ index < data.length) :
    writeBytesLoop X zone slot data (fuel + 1) block word index w =
      (.ret (index, none), w) := by
  rw [writeBytesLoop, if_pos h1]

theorem writeBytesLoop_block_step {σ : Type} (X : Executor σ) (zone slot : Nat)
    (data : List Nat) (fuel block word index : Nat) (w : World σ)
    (hw : word = 0) (hr : index + 32 ≤ data.length)
    (hl : ¬ (zone = ZoneConfig ∧ block = LockOffsetBlock)) :
    writeBytesLoop X zone slot data (fuel + 1) block word index w =
      match writeZone X zone slot block 0 ((data.drop index).take 32) w with
      | (.panicked, w) => (.panicked, w)
      | (.outOfFuel, w) => (.outOfFuel, w)
      | (.ret (some e), w) => (.ret (index, some e), w)
      | (.ret none, w) =>
        writeBytesLoop X zone slot data fuel ((block + 1) % 256) word (index + 32) w := by
  have h1 : index < data.length := by omega
  have hrem : data.length - index ≥ atcaBlockSize := by simp only [atcaBlockSize]; omega
  rw [writeBytesLoop, if_neg (not_not.mpr h1)]
  simp only [hw, hrem, hl, decide_True, decide_False, and_self, true_and, not_false_eq_true,
    Bool.false_eq_true, if_true]
  rw [goSlice_nat_add data index atcaBlockSize (by simp only [atcaBlockSize]; omega)]
  rfl

/-- A word-wise iteration that writes: the cursor is not on the lock word. -/
theorem writeBytesLoop_word_step {σ : Type} (X : Executor σ) (zone slot : Nat)
    (data : List Nat) (fuel block word index : Nat) (w : World σ)
    (hr : index + 4 ≤ data.length)
    (hnb : ¬ (word = 0 ∧ index + 32 ≤ data.length) ∨ (zone = ZoneConfig ∧ block = LockOffsetBlock))
    (hl : ¬ (zone = ZoneConfig ∧ block = LockOffsetBlock ∧ word = LockOffsetWord)) :
    writeBytesLoop X zone slot data (fuel + 1) block word index w =
      match writeZone X zone slot block word ((data.drop index).take 4) w with
      | (.panicked, w) => (.panicked, w)
      | (.outOfFuel, w) => (.outOfFuel, w)
      | (.ret (some e), w) => (.ret (index, some e), w)
      | (.ret none, w) =>
        if (word + 1) % 256 = 8 then
          writeBytesLoop X zone slot data fuel ((block + 1) % 256) 0 (index + 4) w
        else writeBytesLoop X zone slot data fuel block ((word + 1) % 256) (index + 4) w := by
  have h1 : index < data.length := by omega
  rw [writeBytesLoop, if_neg (not_not.mpr h1)]
  have hcond : ¬ (decide (word = 0 ∧ data.length - index ≥ atcaBlockSize) = true ∧
      ¬ decide (zone = ZoneConfig ∧ block = LockOffsetBlock) = true) := by
    simp only [atcaBlockSize, decide_eq_true_eq]
    rcases hnb with h | h
    · intro hh; apply h; exact ⟨hh.1.1, by omega⟩
    · intro hh; exact hh.2 h
  have hlw : ¬ (decide (decide (zone = ZoneConfig ∧ block = LockOffsetBlock) = true ∧
      word = LockOffsetWord) = true) := by
    simp only [decide_eq_true_eq]
    intro hh; exact hl ⟨hh.1.1, hh.1.2, hh.2⟩
  simp only []
  rw [if_neg hcond, if_pos hlw]
  rw [goSlice_nat_add data index atcaWordSize (by simp only [atcaWordSize]; omega)]
  rfl

/-- A word-wise iteration on the lock word: nothing is written, the cursor advances. -/
theorem writeBytesLoop_skip_step {σ : Type} (X : Executor σ) (zone slot : Nat)
    (data : List Nat) (fuel block word index : Nat) (w : World σ)
    (h1 : index < data.length)
    (hl : zone = ZoneConfig ∧ block = LockOffsetBlock ∧ word = LockOffsetWord) :
    writeBytesLoop X zone slot data (fuel + 1) block word index w =
      writeBytesLoop X zone slot data fuel block 6 (index + 4) w := by
  rw [writeBytesLoop, if_neg (not_not.mpr h1)]
  obtain ⟨hz, hb, hw⟩ := hl
  subst hz; subst hb; subst hw
  simp [LockOffsetWord, atcaBlockSize, atcaWordSize]


/-- A word-wise iteration with fewer than four bytes left panics on the slice. -/
theorem writeBytesLoop_word_short {σ : Type} (X : Executor σ) (zone slot : Nat)
    (data : List Nat) (fuel block word index : Nat) (w : World σ)
    (h1 : index < data.length) (hr : data.length < index + 4)
    (hl : ¬ (zone = ZoneConfig ∧ block = LockOffsetBlock ∧ word = LockOffsetWord)) :
    writeBytesLoop X zone slot data (fuel + 1) block word index w = (.panicked, w) := by
  rw [writeBytesLoop, if_neg (not_not.mpr h1)]
  have hcond : ¬ (decide (word = 0 ∧ data.length - index ≥ atcaBlockSize) = true ∧
      ¬ decide (zone = ZoneConfig ∧ block = LockOffsetBlock) = true) := by
    simp only [atcaBlockSize, decide_eq_true_eq]
    intro hh; omega
  have hlw : ¬ (decide (decide (zone = ZoneConfig ∧ block = LockOffsetBlock) = true ∧
      word = LockOffsetWord) = true) := by
    simp only [decide_eq_true_eq]
    intro hh; exact hl ⟨hh.1.1, hh.1.2, hh.2⟩
  simp only []
  rw [if_neg hcond, if_pos hlw]
  rw [goSlice_nat_add_none data index atcaWordSize (by simp only [atcaWordSize]; omega)]

theorem writeZone_config_safe {σ : Type} (X : Executor σ) (slot block word : Nat)
    (chunk : List Nat) (w : World σ) (hb : block < 256) (hw : word < 8)
    (hsafe : (chunk.length = 32 → ¬ (block = 2 ∧ word = 0)) ∧
      (chunk.length = 4 → ¬ (block = 2 ∧ word = 5))) :
    ∃ new, (writeZone X ZoneConfig slot block word chunk w).2.issued = w.issued ++ new ∧
      ∀ p ∈ new, ¬ targetsLockWord p := by
  rcases writeZone_issued X ZoneConfig slot block word chunk w with h | ⟨cmd, hcmd, hl, h⟩
  · exact ⟨[], by simpa using h, by simp⟩
  · refine ⟨[cmd], h, ?_⟩
    intro p hp
    simp only [List.mem_singleton] at hp
    subst hp
    obtain ⟨_, h2, h1⟩ := writeCommandFor_config slot block word chunk p hb hw hl hcmd
    unfold targetsLockWord
    rw [h1, h2]
    rcases hl with hl | hl
    · have := hsafe.1 hl
      simp only [hl, if_true]
      omega
    · have := hsafe.2 hl
      simp only [hl]
      simp only [show ¬ ((4 : Nat) = 32) by decide, if_false]
      omega

theorem writeBytesLoop_issued_safe {σ : Type} (X : Executor σ) (slot : Nat) (data : List Nat) :
    ∀ (fuel block word index : Nat) (w : World σ), block < 256 → word < 8 →
      ∃ new, (writeBytesLoop X ZoneConfig slot data fuel block word index w).2.issued
          = w.issued ++ new ∧ ∀ p ∈ new, ¬ targetsLockWord p := by
  intro fuel
  induction fuel with
  | zero =>
    intro block word index w _ _
    exact ⟨[], by simp [writeBytesLoop], by simp⟩
  | succ fuel ih =>
    intro block word index w hb hw
    by_cases hdone : ¬ index < data.length
    · rw [writeBytesLoop_done X _ slot data fuel block word index w hdone]
      exact ⟨[], by simp, by simp⟩
    · have h1 : index < data.length := not_not.mp hdone
      by_cases hblk : (word = 0 ∧ index + 32 ≤ data.length) ∧
          ¬ (ZoneConfig = ZoneConfig ∧ block = LockOffsetBlock)
      · rw [writeBytesLoop_block_step X _ slot data fuel block word index w hblk.1.1 hblk.1.2
          hblk.2]
        have hb2 : block ≠ 2 := fun h => hblk.2 ⟨rfl, h⟩
        obtain ⟨new1, hn1, hs1⟩ := writeZone_config_safe X slot block 0
          ((data.drop index).take 32) w hb (by decide)
          ⟨fun _ h => hb2 h.1, fun _ h => hb2 h.1⟩
        rcases hz : writeZone X ZoneConfig slot block 0 ((data.drop index).take 32) w
          with ⟨out, w1⟩
        rw [hz] at hn1
        cases out with
        | panicked => exact ⟨new1, hn1, hs1⟩
        | outOfFuel => exact ⟨new1, hn1, hs1⟩
        | ret v =>
          cases v with
          | some e => exact ⟨new1, hn1, hs1⟩
          | none =>
            obtain ⟨new2, hn2, hs2⟩ := ih ((block + 1) % 256) word (index + 32) w1
              (Nat.mod_lt _ (by decide)) hw
            refine ⟨new1 ++ new2, ?_, ?_⟩
            · simp only []
              rw [hn2, hn1, List.append_assoc]
            · intro p hp
              rcases List.mem_append.mp hp with h | h
              · exact hs1 p h
              · exact hs2 p h
      · by_cases hlock : ZoneConfig = ZoneConfig ∧ block = LockOffsetBlock ∧ word = LockOffsetWord
        · rw [writeBytesLoop_skip_step X _ slot data fuel block word index w h1 hlock]
          exact ih block 6 (index + 4) w hb (by decide)
        · by_cases hshort : data.length < index + 4
          · rw [writeBytesLoop_word_short X _ slot data fuel block word index w h1 hshort hlock]
            exact ⟨[], by simp, by simp⟩
          · have hnb : ¬ (word = 0 ∧ index + 32 ≤ data.length) ∨
                (ZoneConfig = ZoneConfig ∧ block = LockOffsetBlock) := by
              by_cases hq : word = 0 ∧ index + 32 ≤ data.length
              · right
                exact not_not.mp (fun hn => hblk ⟨hq, hn⟩)
              · left; exact hq
            rw [writeBytesLoop_word_step X _ slot data fuel block word index w (by omega) hnb
              hlock]
            have hlen4 : ((data.drop index).take 4).length = 4 := by
              simp only [List.length_take, List.length_drop]; omega
            obtain ⟨new1, hn1, hs1⟩ := writeZone_config_safe X slot block word
              ((data.drop index).take 4) w hb hw
              ⟨fun h => by omega, fun _ h => hlock ⟨rfl, h.1, h.2⟩⟩
            rcases hz : writeZone X ZoneConfig slot block word ((data.drop index).take 4) w
              with ⟨out, w1⟩
            rw [hz] at hn1
            cases out with
            | panicked => exact ⟨new1, hn1, hs1⟩
            | outOfFuel => exact ⟨new1, hn1, hs1⟩
            | ret v =>
              cases v with
              | some e => exact ⟨new1, hn1, hs1⟩
              | none =>
                simp only []
                have hcomb : ∀ (b' w' : Nat), b' < 256 → w' < 8 →
                    ∃ new, (writeBytesLoop X ZoneConfig slot data fuel b' w' (index + 4)
                      w1).2.issued = w.issued ++ new ∧ ∀ p ∈ new, ¬ targetsLockWord p := by
                  intro b' w' hb' hw'
                  obtain ⟨new2, hn2, hs2⟩ := ih b' w' (index + 4) w1 hb' hw'
                  refine ⟨new1 ++ new2, ?_, ?_⟩
                  · rw [hn2, hn1, List.append_assoc]
                  · intro p hp
                    rcases List.mem_append.mp hp with h | h
                    · exact hs1 p h
                    · exact hs2 p h
                by_cases h8 : (word + 1) % 256 = 8
                · rw [if_pos h8]
                  exact hcomb _ _ (Nat.mod_lt _ (by decide)) (by decide)
                · rw [if_neg h8]
                  exact hcomb _ _ hb (by omega)


/-- C6: for every call of `writeBytesZone` on the Config zone (any offset, any data, any
device behaviour, any number of loop iterations), no Write command is issued that targets
block 2, word 5: neither a 4-byte write to address `0x0015` nor a 32-byte write of block 2
(address `0x0010` with the 32-byte flag); a write aimed at exactly that word is skipped,
nothing is sent and `(4, nil)` is returned. -/
theorem writeBytesZone_config_never_targets_lock_word {σ : Type} (X : Executor σ)
    (fuel slot offset : Nat) (data : List Nat) (w : World σ) :
    (∃ new, (writeBytesZone X fuel ZoneConfig slot offset data w).2.issued = w.issued ++ new ∧
      ∀ p ∈ new, ¬ targetsLockWord p) ∧
    (∀ b0 b1 b2 b3 : Nat,
      writeBytesZone X (fuel + 2) ZoneConfig slot 84 [b0, b1, b2, b3] w = (.ret (4, none), w)) := by
  constructor
  · unfold writeBytesZone
    have triv : ∃ new : List packet, w.issued = w.issued ++ new ∧
        ∀ p ∈ new, ¬ targetsLockWord p := ⟨[], by simp, by simp⟩
    split
    · exact triv
    · split
      · exact triv
      · split
        · exact triv
        · split
          · exact triv
          · have hz : getZoneSize ZoneConfig slot = .ok 128 := rfl
            rw [hz]
            simp only []
            split
            · exact triv
            · rename_i hfit
              have hb : offset / atcaBlockSize < 256 := by
                simp only [atcaBlockSize]; omega
              have hw : offset % atcaBlockSize / atcaWordSize < 8 := by
                simp only [atcaBlockSize, atcaWordSize]; omega
              exact writeBytesLoop_issued_safe X slot data fuel _ _ 0 w hb hw
  · intro b0 b1 b2 b3
    unfold writeBytesZone
    simp only [ZoneConfig, ZoneData, atcaWordSize, atcaBlockSize, getZoneSize]
    simp only [List.length_cons, List.length_nil]
    norm_num
    rw [if_neg (by simp only [zoneSizeConfig]; omega)]
    rw [writeBytesLoop_skip_step X 0 slot _ (fuel + 1) 2 5 0 w (by simp) ⟨rfl, rfl, rfl⟩]
    rw [writeBytesLoop_done X _ slot _ fuel _ _ _ w (by simp)]
    rfl


theorem writeCommandFor_ok (zone slot block word : Nat) (chunk : List Nat)
    (hz : zone = ZoneConfig ∨ zone = ZoneOTP ∨ zone = ZoneData)
    (hl : chunk.length = 32 ∨ chunk.length = 4) :
    ∃ cmd, writeCommandFor zone slot block word chunk = .ok cmd := by
  unfold writeCommandFor
  have ha : ∃ addr, getAddr zone slot block word = .ok addr := by
    unfold getAddr
    rcases hz with h | h | h
    · simp only [h, true_or, if_true]
      exact ⟨_, rfl⟩
    · simp only [h, or_true, if_true]
      exact ⟨_, rfl⟩
    · subst h
      simp only [ZoneData, ZoneConfig, ZoneOTP]
      exact ⟨_, rfl⟩
  obtain ⟨addr, ha⟩ := ha
  rw [ha]
  unfold newWriteCommand
  simp only [atcaBlockSize, atcaWordSize, List.length_replicate, Option.isSome_none]
  rcases hl with hl | hl
  · have hm : min (32 * 2) chunk.length = 32 := by omega
    simp only [hm, newPacket, atcaCmdSizeMax, goCopy_length, List.length_replicate]
    simp
  · have hm : min (32 * 2) chunk.length = 4 := by omega
    simp only [hm, newPacket, atcaCmdSizeMax, goCopy_length, List.length_replicate]
    simp

theorem writeZone_accept {σ : Type} (X : Executor σ) (hX : Accepts X)
    (zone slot block word : Nat) (chunk : List Nat) (w : World σ)
    (hz : zone = ZoneConfig ∨ zone = ZoneOTP ∨ zone = ZoneData)
    (hl : chunk.length = 32 ∨ chunk.length = 4) :
    ∃ cmd w', writeCommandFor zone slot block word chunk = .ok cmd ∧
      writeZone X zone slot block word chunk w = (.ret none, w') ∧
      w'.issued = w.issued ++ [cmd] := by
  obtain ⟨cmd, hcmd⟩ := writeCommandFor_ok zone slot block word chunk hz hl
  have hl' : ¬ (chunk.length ≠ atcaBlockSize ∧ chunk.length ≠ atcaWordSize) := by
    simp only [atcaBlockSize, atcaWordSize]; omega
  have hcmd0 := hcmd
  unfold writeCommandFor at hcmd
  unfold writeZone
  rw [if_neg hl']
  cases ha : getAddr zone slot block word with
  | error e => rw [ha] at hcmd; cases hcmd
  | ok addr =>
    rw [ha] at hcmd
    simp only [] at hcmd
    obtain ⟨n, r, s', hx⟩ := hX cmd [0] w.dev
    simp only [write, hcmd, execute, execResponse, hx]
    exact ⟨cmd, _, hcmd0, rfl, rfl⟩


theorem writesCover_nil (zone offset : Nat) (data : List Nat) :
    WritesCover zone offset data (offset + data.length) [] := by
  refine ⟨by simp, List.Pairwise.nil, ?_⟩
  intro i
  constructor
  · rintro ⟨c, hc, _⟩
    simp at hc
  · rintro ⟨h1, h2, _⟩
    omega

theorem writesCover_cons (zone offset : Nat) (data : List Nat) (lo : Nat) (c : WriteCall)
    (rest : List WriteCall) (h : WritesCover zone offset data c.stop rest)
    (hshape : (c.chunk.length = 32 ∧ c.word = 0) ∨ (c.chunk.length = 4 ∧ c.word < 8))
    (hstart : c.start = lo)
    (hslice : c.chunk = (data.drop (c.start - offset)).take c.chunk.length)
    (hblock : zone = ZoneConfig → c.block = 2 → c.chunk.length = 4)
    (hnolock : ∀ i, c.start ≤ i → i < c.stop → ¬ lockByte zone i)
    (hstop : c.stop ≤ offset + data.length) :
    WritesCover zone offset data lo (c :: rest) := by
  obtain ⟨h1, h2, h3⟩ := h
  have hpos : c.start < c.stop := by
    unfold WriteCall.stop; omega
  refine ⟨?_, ?_, ?_⟩
  · intro x hx
    rcases List.mem_cons.mp hx with rfl | hx
    · exact ⟨hshape, by omega, hslice, hblock⟩
    · obtain ⟨a, b, c', d⟩ := h1 x hx
      exact ⟨a, by omega, c', d⟩
  · rw [List.pairwise_cons]
    exact ⟨fun b hb => (h1 b hb).2.1, h2⟩
  · intro i
    constructor
    · rintro ⟨x, hx, hx1, hx2⟩
      rcases List.mem_cons.mp hx with rfl | hx
      · exact ⟨by omega, by omega, hnolock i hx1 hx2⟩
      · obtain ⟨a, b, c'⟩ := (h3 i).mp ⟨x, hx, hx1, hx2⟩
        exact ⟨by omega, b, c'⟩
    · rintro ⟨a, b, c'⟩
      by_cases hi : i < c.stop
      · exact ⟨c, List.mem_cons_self _ _, by omega, hi⟩
      · obtain ⟨x, hx, hx1, hx2⟩ := (h3 i).mpr ⟨by omega, b, c'⟩
        exact ⟨x, List.mem_cons_of_mem _ hx, hx1, hx2⟩

theorem writesCover_skip (offset : Nat) (data : List Nat) (rest : List WriteCall)
    (h : WritesCover ZoneConfig offset data 88 rest) :
    WritesCover ZoneConfig offset data 84 rest := by
  obtain ⟨h1, h2, h3⟩ := h
  refine ⟨?_, h2, ?_⟩
  · intro x hx
    obtain ⟨a, b, c', d⟩ := h1 x hx
    exact ⟨a, by omega, c', d⟩
  · intro i
    rw [h3 i]
    constructor
    · rintro ⟨a, b, c'⟩
      exact ⟨by omega, b, c'⟩
    · rintro ⟨a, b, c'⟩
      refine ⟨?_, b, c'⟩
      by_contra hlt
      exact c' ⟨rfl, a, by omega⟩


/-- The loop of `writeBytesZone` against a device that accepts every command. -/
theorem writeBytesLoop_accept_cover {σ : Type} (X : Executor σ) (hX : Accepts X)
    (zone slot offset : Nat) (data : List Nat)
    (hz : zone = ZoneConfig ∨ zone = ZoneOTP ∨ zone = ZoneData)
    (hlen4 : data.length % 4 = 0) (hbound : offset + data.length ≤ 8000) :
    ∀ (fuel block word index : Nat) (w : World σ),
      32 * block + 4 * word = offset + index → word < 8 → index % 4 = 0 →
      index ≤ data.length → data.length < index + 4 * fuel →
      ∃ calls cmds w',
        writeBytesLoop X zone slot data fuel block word index w
          = (.ret ((data.length : Int), none), w') ∧
        w'.issued = w.issued ++ cmds ∧
        List.Forall₂ (fun c cmd => writeCommandFor zone slot c.block c.word c.chunk = .ok cmd)
          calls cmds ∧
        WritesCover zone offset data (offset + index) calls := by
  intro fuel
  induction fuel with
  | zero => intro block word index w _ _ _ h1 h2; omega
  | succ fuel ih =>
    intro block word index w hinv hw hi4 hile hfuel
    by_cases hdone : ¬ index < data.length
    · have hidx : index = data.length := by omega
      rw [writeBytesLoop_done X zone slot data fuel block word index w hdone, hidx]
      exact ⟨[], [], w, rfl, by simp, List.Forall₂.nil, writesCover_nil zone offset data⟩
    · have h1 : index < data.length := not_not.mp hdone
      have h4 : index + 4 ≤ data.length := by omega
      by_cases hblk : (word = 0 ∧ index + 32 ≤ data.length) ∧
          ¬ (zone = ZoneConfig ∧ block = LockOffsetBlock)
      · -- a full block
        obtain ⟨⟨hw0, h32⟩, hnl⟩ := hblk
        rw [writeBytesLoop_block_step X zone slot data fuel block word index w hw0 h32 hnl]
        have hcl : ((data.drop index).take 32).length = 32 := by
          simp only [List.length_take, List.length_drop]; omega
        obtain ⟨cmd, w1, hcmd, hwz, hiss⟩ := writeZone_accept X hX zone slot block 0
          ((data.drop index).take 32) w hz (Or.inl hcl)
        rw [hwz]
        simp only []
        have hb1 : (block + 1) % 256 = block + 1 := by omega
        rw [hb1]
        obtain ⟨calls, cmds, w', hrun, hiss', hfa, hcov⟩ := ih (block + 1) word (index + 32) w1
          (by omega) hw (by omega) h32 (by omega)
        let c : WriteCall := ⟨block, 0, (data.drop index).take 32⟩
        have hstart : c.start = offset + index := by
          show 32 * block + 4 * 0 = offset + index
          omega
        have hstop : c.stop = offset + (index + 32) := by
          show c.start + ((data.drop index).take 32).length = _
          rw [hstart, hcl]; omega
        refine ⟨c :: calls, cmd :: cmds, w', hrun, ?_, List.Forall₂.cons hcmd hfa, ?_⟩
        · rw [hiss', hiss]; simp
        · apply writesCover_cons zone offset data (offset + index) c calls
          · rw [hstop]; exact hcov
          · left; exact ⟨hcl, rfl⟩
          · exact hstart
          · show (data.drop index).take 32 = _
            rw [hstart, hcl, Nat.add_sub_cancel_left]
          · intro hzc hb2
            exact absurd ⟨hzc, hb2⟩ hnl
          · intro i hi1 hi2 hlk
            rw [hstart] at hi1
            rw [hstop] at hi2
            obtain ⟨hzc, h84, h87⟩ := hlk
            apply hnl
            refine ⟨hzc, ?_⟩
            show block = 2
            omega
          · rw [hstop]; omega
      · by_cases hlock : zone = ZoneConfig ∧ block = LockOffsetBlock ∧ word = LockOffsetWord
        · -- the lock word is skipped
          rw [writeBytesLoop_skip_step X zone slot data fuel block word index w h1 hlock]
          obtain ⟨hzc, hb2, hw5⟩ := hlock
          have hb2' : block = 2 := hb2
          have hw5' : word = 5 := hw5
          obtain ⟨calls, cmds, w', hrun, hiss', hfa, hcov⟩ := ih block 6 (index + 4) w
            (by omega) (by decide) (by omega) h4 (by omega)
          refine ⟨calls, cmds, w', hrun, hiss', hfa, ?_⟩
          have e84 : offset + index = 84 := by omega
          have e88 : offset + (index + 4) = 88 := by omega
          rw [e88] at hcov
          rw [e84]
          subst hzc
          exact writesCover_skip offset data calls hcov
        · -- one word
          have hnb : ¬ (word = 0 ∧ index + 32 ≤ data.length) ∨
              (zone = ZoneConfig ∧ block = LockOffsetBlock) := by
            by_cases hq : word = 0 ∧ index + 32 ≤ data.length
            · right
              exact not_not.mp (fun hn => hblk ⟨hq, hn⟩)
            · left; exact hq
          rw [writeBytesLoop_word_step X zone slot data fuel block word index w h4 hnb hlock]
          have hcl : ((data.drop index).take 4).length = 4 := by
            simp only [List.length_take, List.length_drop]; omega
          obtain ⟨cmd, w1, hcmd, hwz, hiss⟩ := writeZone_accept X hX zone slot block word
            ((data.drop index).take 4) w hz (Or.inr hcl)
          rw [hwz]
          simp only []
          let c : WriteCall := ⟨block, word, (data.drop index).take 4⟩
          have hstart : c.start = offset + index := hinv
          have hstop : c.stop = offset + (index + 4) := by
            show c.start + ((data.drop index).take 4).length = _
            rw [hstart, hcl]; omega
          have hcons : ∀ calls, WritesCover zone offset data (offset + (index + 4)) calls →
              WritesCover zone offset data (offset + index) (c :: calls) := by
            intro calls hcov
            apply writesCover_cons zone offset data (offset + index) c calls
            · rw [hstop]; exact hcov
            · right; exact ⟨hcl, hw⟩
            · exact hstart
            · show (data.drop index).take 4 = _
              rw [hstart, hcl, Nat.add_sub_cancel_left]
            · intro _ _; exact hcl
            · intro i hi1 hi2 hlk
              rw [hstart] at hi1
              rw [hstop] at hi2
              obtain ⟨hzc, h84, h87⟩ := hlk
              apply hlock
              refine ⟨hzc, ?_, ?_⟩
              · show block = 2
                omega
              · show word = 5
                omega
            · rw [hstop]; omega
          by_cases h8 : (word + 1) % 256 = 8
          · rw [if_pos h8]
            have hb1 : (block + 1) % 256 = block + 1 := by omega
            rw [hb1]
            obtain ⟨calls, cmds, w', hrun, hiss', hfa, hcov⟩ := ih (block + 1) 0 (index + 4) w1
              (by omega) (by decide) (by omega) h4 (by omega)
            refine ⟨c :: calls, cmd :: cmds, w', hrun, ?_, List.Forall₂.cons hcmd hfa,
              hcons calls hcov⟩
            rw [hiss', hiss]; simp
          · rw [if_neg h8]
            have hw1 : (word + 1) % 256 = word + 1 := by omega
            rw [hw1]
            obtain ⟨calls, cmds, w', hrun, hiss', hfa, hcov⟩ := ih block (word + 1) (index + 4)
              w1 (by omega) (by omega) (by omega) h4 (by omega)
            refine ⟨c :: calls, cmd :: cmds, w', hrun, ?_, List.Forall₂.cons hcmd hfa,
              hcons calls hcov⟩
            rw [hiss', hiss]; simp


theorem getZoneSize_ok (zone slot : Nat) (zoneSize : Int)
    (h : getZoneSize zone slot = .ok zoneSize) :
    (zone = ZoneConfig ∨ zone = ZoneOTP ∨ zone = ZoneData) ∧ zoneSize ≤ 416 ∧
      (zone = ZoneData → slot ≤ 15) := by
  unfold getZoneSize at h
  split at h
  · injection h with h; subst h
    rename_i hz
    exact ⟨Or.inl hz, by simp [zoneSizeConfig], by intro h; rw [h] at hz; cases hz⟩
  · split at h
    · injection h with h; subst h
      rename_i hz
      exact ⟨Or.inr (Or.inl hz), by simp [zoneSizeOTP], by intro h; rw [h] at hz; cases hz⟩
    · split at h
      · rename_i hz
        refine ⟨Or.inr (Or.inr hz), ?_, ?_⟩
        · split at h
          · injection h with h; omega
          · split at h
            · injection h with h; omega
            · split at h
              · injection h with h; omega
              · cases h
        · intro _
          split at h
          · omega
          · split at h
            · omega
            · split at h
              · omega
              · cases h
      · cases h

theorem acceptAll_accepts : Accepts acceptAll :=
  fun _ _ s => ⟨1, [0], s, rfl⟩

/-- C5: for every zone and valid slot, every offset and non-empty data whose sizes are
both multiples of 4 with `offset + len(data) <= zone size`, and a device that accepts
every command: `writeBytesZone` returns `(len(data), nil)`, and the commands it issues
are, in order, those of a list of `writeZone` calls, each a 32-byte block or a 4-byte
word carrying the slice of `data` of its byte range, with ascending pairwise-disjoint
ranges whose union is `[offset, offset+len(data))` minus, in the Config zone, bytes
84..87; inside block 2 of the Config zone every call is a word. -/
theorem writeBytesZone_calls_cover_range {σ : Type} (X : Executor σ) (hX : Accepts X)
    (fuel zone slot offset : Nat) (data : List Nat) (w : World σ) (zoneSize : Int)
    (hzs : getZoneSize zone slot = .ok zoneSize) (hne : data ≠ [])
    (ho : offset % 4 = 0) (hl : data.length % 4 = 0)
    (hfit : (offset : Int) + data.length ≤ zoneSize) (hfuel : data.length < 4 * fuel) :
    ∃ (calls : List WriteCall) (cmds : List packet) (w' : World σ),
      writeBytesZone X fuel zone slot offset data w = (.ret ((data.length : Int), none), w') ∧
      w'.issued = w.issued ++ cmds ∧
      List.Forall₂ (fun c cmd => writeCommandFor zone slot c.block c.word c.chunk = .ok cmd)
        calls cmds ∧
      (∀ c ∈ calls,
        ((c.chunk.length = 32 ∧ c.word = 0) ∨ (c.chunk.length = 4 ∧ c.word < 8)) ∧
        offset ≤ c.start ∧
        c.chunk = (data.drop (c.start - offset)).take c.chunk.length ∧
        (zone = ZoneConfig → c.block = 2 → c.chunk.length = 4)) ∧
      calls.Pairwise (fun a b => a.stop ≤ b.start) ∧
      (∀ i, (∃ c ∈ calls, c.start ≤ i ∧ i < c.stop) ↔
        (offset ≤ i ∧ i < offset + data.length ∧ ¬ lockByte zone i)) := by
  obtain ⟨hz, hsz, hslot⟩ := getZoneSize_ok zone slot zoneSize hzs
  have hlen0 : data.length ≠ 0 := fun h => hne (List.length_eq_zero.mp h)
  unfold writeBytesZone
  rw [if_neg (by intro h; have := hslot h.1; omega), if_neg hlen0,
    if_neg (by simp only [atcaWordSize]; omega), if_neg (by simp only [atcaWordSize]; omega), hzs]
  simp only []
  rw [if_neg (by omega)]
  have := writeBytesLoop_accept_cover X hX zone slot offset data hz hl (by omega) fuel
    (offset / atcaBlockSize) (offset % atcaBlockSize / atcaWordSize) 0 w
    (by simp only [atcaBlockSize, atcaWordSize]; omega)
    (by simp only [atcaBlockSize, atcaWordSize]; omega) (by decide) (by omega) (by omega)
  exact this


theorem writeBytesZone_calls_cover_range_witness :
    ∃ (calls : List WriteCall) (cmds : List packet) (w' : World Unit),
      writeBytesZone acceptAll 3 ZoneConfig 0 80 [1, 2, 3, 4, 5, 6, 7, 8] ⟨(), []⟩
        = (.ret ((([1, 2, 3, 4, 5, 6, 7, 8] : List Nat).length : Int), none), w') ∧
      w'.issued = (⟨(), []⟩ : World Unit).issued ++ cmds ∧
      List.Forall₂ (fun c cmd => writeCommandFor ZoneConfig 0 c.block c.word c.chunk = .ok cmd)
        calls cmds ∧
      (∀ c ∈ calls,
        ((c.chunk.length = 32 ∧ c.word = 0) ∨ (c.chunk.length = 4 ∧ c.word < 8)) ∧
        80 ≤ c.start ∧
        c.chunk = (([1, 2, 3, 4, 5, 6, 7, 8] : List Nat).drop (c.start - 80)).take
          c.chunk.length ∧
        (ZoneConfig = ZoneConfig → c.block = 2 → c.chunk.length = 4)) ∧
      calls.Pairwise (fun a b => a.stop ≤ b.start) ∧
      (∀ i, (∃ c ∈ calls, c.start ≤ i ∧ i < c.stop) ↔
        (80 ≤ i ∧ i < 80 + ([1, 2, 3, 4, 5, 6, 7, 8] : List Nat).length ∧
          ¬ lockByte ZoneConfig i)) :=
  writeBytesZone_calls_cover_range acceptAll acceptAll_accepts 3 ZoneConfig 0 80
    [1, 2, 3, 4, 5, 6, 7, 8] ⟨(), []⟩ 128 rfl (by simp) (by decide) (by decide) (by decide)
    (by decide)

/-! ### Zone addressing engine: reads -/

theorem wrapInt_eq (x : Int) (h1 : -2 ^ 63 ≤ x) (h2 : x < 2 ^ 63) : wrapInt x = x := by
  unfold wrapInt
  omega

theorem goSlice_from (s : List Nat) (lo : Nat) (h : lo ≤ s.length) :
    goSlice s (lo : Int) (s.length : Int) = some (s.drop lo) := by
  rw [goSlice_eq_some s lo s.length h (Nat.le_refl _)]
  congr 1
  apply List.take_of_length_le
  simp

theorem readBytesLoop_done {σ : Type} (X : Executor σ) (zone slot : Nat) (offset zoneSize : Int)
    (fuel : Nat) (buf : List Nat) (readLen : Nat) (curBlock curOffset dataIdx : Int)
    (data : List Nat) (w : World σ) (h : ¬ dataIdx < (data.length : Int)) :
    readBytesLoop X zone slot offset zoneSize (fuel + 1) buf readLen curBlock curOffset dataIdx
      data w = (.ret (dataIdx, none, data), w) := by
  rw [readBytesLoop, if_pos h]

/-- One iteration of the loop of `readBytesZone` whose read succeeds with `n` bytes:
`readLen'` and `co'` are the read length and word offset after the switch test, `r` is
`readBufIdx` and `k` is `copyLength`. -/
theorem readBytesLoop_iter {σ : Type} (X : Executor σ) (zone slot : Nat) (off : Nat)
    (zs : Int) (fuel : Nat) (buf : List Nat) (readLen readLen' : Nat) (cb co co' di : Nat)
    (data : List Nat) (w w1 : World σ) (rb : List Nat) (n r k : Nat)
    (hdi : di < data.length)
    (hsw : (if readLen = atcaBlockSize ∧ zs - (cb : Int) * 32 < 32 then
        (atcaWordSize, (((di : Int) + (off : Int)).tdiv 4).tmod (32 / 4))
      else (readLen, (co : Int))) = (readLen', (co' : Int)))
    (hcb : cb < 256) (hco : co' < 256)
    (hrz : readZone X zone slot cb co' (buf.take readLen') w = (.ret ((n : Int), none, rb), w1))
    (hr : (if (cb : Int) * 32 + (co' : Int) * 4 < (off : Int) then
        (off : Int) - ((cb : Int) * 32 + (co' : Int) * 4) else 0) = (r : Int))
    (hk : (if (data.length : Int) - (di : Int) < (n : Int) - (r : Int) then
        (data.length : Int) - (di : Int) else (n : Int) - (r : Int)) = (k : Int))
    (hfit : r + k ≤ (goCopy buf rb).length) :
    readBytesLoop X zone slot off zs (fuel + 1) buf readLen cb co di data w =
      if n = 32 then
        readBytesLoop X zone slot off zs fuel (goCopy buf rb) readLen' ((cb + 1 : Nat) : Int) co'
          ((di + k : Nat) : Int)
          (data.take di ++ goCopy (data.drop di) (((goCopy buf rb).drop r).take k)) w1
      else
        readBytesLoop X zone slot off zs fuel (goCopy buf rb) readLen' cb ((co' + 1 : Nat) : Int)
          ((di + k : Nat) : Int)
          (data.take di ++ goCopy (data.drop di) (((goCopy buf rb).drop r).take k)) w1 := by
  rw [readBytesLoop, if_neg (by omega)]
  rw [hsw]
  have e1 : ((cb : Int) % 256).toNat = cb := by omega
  have e2 : ((co' : Int) % 256).toNat = co' := by omega
  simp only [e1, e2, hrz, hr, hk]
  rw [goSlice_from data di (by omega), goSlice_nat_add _ r k hfit]
  simp only [Int.toNat_ofNat]
  have e3 : ((n : Int) = 32) ↔ n = 32 := by omega
  have e4 : (di : Int) + (k : Int) = ((di + k : Nat) : Int) := by push_cast; rfl
  have e5 : (cb : Int) + 1 = ((cb + 1 : Nat) : Int) := by push_cast; rfl
  have e6 : (co' : Int) + 1 = ((co' + 1 : Nat) : Int) := by push_cast; rfl
  rw [e4, e5, e6]
  by_cases hn : n = 32
  · rw [if_pos hn, if_pos (e3.mpr hn)]
  · rw [if_neg hn, if_neg (fun h => hn (e3.mp h))]


theorem memSlice_length (mem : Nat → Nat) (a len : Nat) : (memSlice mem a len).length = len := by
  simp [memSlice]

theorem memSlice_append (mem : Nat → Nat) (a m n : Nat) :
    memSlice mem a m ++ memSlice mem (a + m) n = memSlice mem a (m + n) := by
  apply List.ext_getElem
  · simp [memSlice]
  · intro i h1 h2
    simp only [memSlice, List.length_append, List.length_map, List.length_range] at h1 h2
    by_cases hi : i < m
    · rw [List.getElem_append_left (by simpa [memSlice] using hi)]
      simp [memSlice]
    · rw [List.getElem_append_right (by simpa [memSlice] using hi)]
      simp only [memSlice, List.getElem_map, List.getElem_range, List.length_map,
        List.length_range]
      congr 1
      omega

theorem memSlice_drop_take (mem : Nat → Nat) (a len r k : Nat) (h : r + k ≤ len) :
    ((memSlice mem a len).drop r).take k = memSlice mem (a + r) k := by
  apply List.ext_getElem
  · simp [memSlice]; omega
  · intro i h1 h2
    simp only [memSlice, List.getElem_take, List.getElem_drop, List.getElem_map,
      List.getElem_range]
    congr 1
    omega

theorem goCopy_head_slice (buf rb : List Nat) (r k : Nat) (h1 : rb.length ≤ buf.length)
    (h2 : r + k ≤ rb.length) :
    ((goCopy buf rb).drop r).take k = (rb.drop r).take k := by
  unfold goCopy
  rw [List.take_of_length_le h1, List.drop_append_of_le_length (by omega),
    List.take_append_of_le_length (by simp; omega)]

theorem goCopy_short (dst src : List Nat) (h : src.length ≤ dst.length) :
    goCopy dst src = src ++ dst.drop src.length := by
  unfold goCopy
  rw [List.take_of_length_le h]

/-- Copying the next `k` bytes of the zone behind a correct prefix of `di` bytes. -/
theorem data_update (mem : Nat → Nat) (data : List Nat) (off di k L : Nat)
    (hL : data.length = L) (hk : di + k ≤ L) (hpre : data.take di = memSlice mem off di) :
    (data.take di ++ goCopy (data.drop di) (memSlice mem (off + di) k)).length = L ∧
    (data.take di ++ goCopy (data.drop di) (memSlice mem (off + di) k)).take (di + k)
      = memSlice mem off (di + k) := by
  have hs : (memSlice mem (off + di) k).length = k := memSlice_length _ _ _
  rw [goCopy_short _ _ (by rw [hs, List.length_drop]; omega), hs]
  constructor
  · simp only [List.length_append, List.length_take, List.length_drop, hs]
    omega
  · rw [← List.append_assoc, hpre, memSlice_append]
    rw [List.take_append_of_le_length (by rw [memSlice_length])]
    apply List.take_of_length_le
    rw [memSlice_length]


/-- The loop of `readBytesZone`, entered in block mode with `di` bytes already correct,
against reads that return the zone memory. -/
theorem readBytesLoop_reads {σ : Type} (X : Executor σ) (zone slot : Nat) (mem : Nat → Nat)
    (off : Nat) (zs : Int) (L : Nat)
    (hzs : zs = 128 ∨ zs = 64 ∨ zs = 36) (hfitz : (off : Int) + (L : Int) ≤ zs)
    (h32 : ∀ (b : Nat) (buf : List Nat) (w : World σ), b < 256 → buf.length = 32 →
      ∃ w1, readZone X zone slot b 0 buf w = (.ret (32, none, memSlice mem (32 * b) 32), w1))
    (h4 : ∀ (b wd : Nat) (buf : List Nat) (w : World σ), b < 256 → wd < 8 → buf.length = 4 →
      ∃ w1, readZone X zone slot b wd buf w
        = (.ret (4, none, memSlice mem (32 * b + 4 * wd) 4), w1)) :
    ∀ (fuel : Nat) (buf : List Nat) (cb di : Nat) (data : List Nat) (w : World σ),
      buf.length = 32 → data.length = L → di < L → cb * 32 ≤ off + di →
      off + di < cb * 32 + 32 → (0 < di → cb * 32 = off + di) →
      data.take di = memSlice mem off di → L - di < fuel →
      ∃ w', readBytesLoop X zone slot off zs fuel buf 32 cb 0 di data w
        = (.ret ((L : Int), none, memSlice mem off L), w') := by
  intro fuel
  induction fuel with
  | zero => intro buf cb di data w _ _ _ _ _ _ _ h; omega
  | succ fuel ih =>
    intro buf cb di data w hbuf hL hdi hlo hhi hal hpre hfuel
    have hcb : cb < 256 := by omega
    by_cases hsw : zs - (cb : Int) * 32 < 32
    · -- the tail of a Data slot, read as one word
      have hz36 : zs = 36 := by omega
      have hcb1 : cb = 1 := by omega
      subst hcb1
      obtain ⟨w1, hrz⟩ := h4 1 0 (buf.take 4) w (by decide) (by decide)
        (by simp only [List.length_take]; omega)
      have hrb : (memSlice mem (32 * 1 + 4 * 0) 4).length = 4 := memSlice_length _ _ _
      have hgl : (goCopy buf (memSlice mem (32 * 1 + 4 * 0) 4)).length = 32 := by
        rw [goCopy_length]; exact hbuf
      have hstep := readBytesLoop_iter X zone slot off zs fuel buf 32 4 1 0 0 di data w w1
        (memSlice mem (32 * 1 + 4 * 0) 4) 4 (off + di - 32) (L - di) (by omega)
        (by
          rw [if_pos ⟨rfl, hsw⟩]
          have e : (((di : Int) + (off : Int)).tdiv 4).tmod (32 / 4) = 0 := by
            rw [Int.tdiv_eq_ediv (by omega) (by decide)]
            rw [Int.tmod_eq_emod (by omega) (by decide)]
            omega
          rw [e]; rfl)
        (by decide) (by decide) hrz
        (by split <;> omega) (by rw [hL]; split <;> omega) (by rw [hgl]; omega)
      simp only [Nat.cast_zero] at hstep
      rw [hstep, if_neg (by decide)]
      have hsrc : ((goCopy buf (memSlice mem (32 * 1 + 4 * 0) 4)).drop (off + di - 32)).take
          (L - di) = memSlice mem (off + di) (L - di) := by
        rw [goCopy_head_slice _ _ _ _ (by rw [hrb, hbuf]; omega) (by rw [hrb]; omega),
          memSlice_drop_take _ _ _ _ _ (by omega)]
        congr 1
        omega
      rw [hsrc]
      obtain ⟨hlen', htake'⟩ := data_update mem data off di (L - di) L hL (by omega) hpre
      have hdk : di + (L - di) = L := by omega
      rw [hdk] at htake'
      have hfull : data.take di ++ goCopy (data.drop di) (memSlice mem (off + di) (L - di))
          = memSlice mem off L := by
        rw [← htake']
        exact (List.take_of_length_le (by rw [hlen'])).symm
      rw [hfull, hdk]
      cases fuel with
      | zero => omega
      | succ fuel =>
        rw [readBytesLoop_done _ _ _ _ _ _ _ _ _ _ _ _ _
          (by rw [memSlice_length]; omega)]
        exact ⟨w1, rfl⟩
    · -- a full block
      obtain ⟨w1, hrz⟩ := h32 cb (buf.take 32) w hcb
        (by simp only [List.length_take]; omega)
      have hrb : (memSlice mem (32 * cb) 32).length = 32 := memSlice_length _ _ _
      have hgl : (goCopy buf (memSlice mem (32 * cb) 32)).length = 32 := by
        rw [goCopy_length]; exact hbuf
      have hstep := readBytesLoop_iter X zone slot off zs fuel buf 32 32 cb 0 0 di data w w1
        (memSlice mem (32 * cb) 32) 32 (off + di - cb * 32)
        (min (32 - (off + di - cb * 32)) (L - di)) (by omega)
        (by rw [if_neg (fun h => hsw h.2)])
        hcb (by decide) hrz
        (by split <;> omega) (by rw [hL]; split <;> omega) (by rw [hgl]; omega)
      simp only [Nat.cast_zero] at hstep
      rw [hstep]
      generalize hk : min (32 - (off + di - cb * 32)) (L - di) = k
      have hk1 : 1 ≤ k := by omega
      have hsrc : ((goCopy buf (memSlice mem (32 * cb) 32)).drop (off + di - cb * 32)).take k
          = memSlice mem (off + di) k := by
        rw [goCopy_head_slice _ _ _ _ (by rw [hrb, hbuf]) (by rw [hrb]; omega),
          memSlice_drop_take _ _ _ _ _ (by omega)]
        congr 1
        omega
      rw [hsrc]
      obtain ⟨hlen', htake'⟩ := data_update mem data off di k L hL (by omega) hpre
      by_cases hend : di + k = L
      · rw [hend] at htake'
        have hfull : data.take di ++ goCopy (data.drop di) (memSlice mem (off + di) k)
            = memSlice mem off L := by
          rw [← htake']
          exact (List.take_of_length_le (by rw [hlen'])).symm
        rw [hfull, hend]
        cases fuel with
        | zero => omega
        | succ fuel =>
          rw [readBytesLoop_done _ _ _ _ _ _ _ _ _ _ _ _ _
            (by rw [memSlice_length]; omega)]
          exact ⟨w1, rfl⟩
      · exact ih _ (cb + 1) (di + k) _ w1 hgl hlen' (by omega) (by omega) (by omega)
          (by intro _; omega) htake' (by omega)


theorem getZoneSize_slot0 (zone : Nat)
    (hz : zone = ZoneConfig ∨ zone = ZoneOTP ∨ zone = ZoneData) :
    getZoneSize zone 0
      = .ok (if zone = ZoneConfig then 128 else if zone = ZoneOTP then 64 else 36) := by
  rcases hz with h | h | h <;> subst h <;> rfl

/-- C4: assume every `readZone` call succeeds and fills its buffer with the zone memory
at the addressed place (a 32-byte read of block `b` yields bytes `32b..32b+31`, a 4-byte
read of block `b`, word `w` yields bytes `32b+4w..32b+4w+3`).  Then for every zone, every
offset `>= 0` and every non-empty destination of length `L` within the range check of
`readBytesZone` (`offset+L <= 128` for Config, `<= 64` for OTP, `<= 36` for Data),
`readBytesZone` returns `(L, nil)` and the destination holds memory bytes
`offset .. offset+L-1`, whatever the alignment of `offset`. -/
theorem readBytesZone_returns_memory {σ : Type} (X : Executor σ) (zone slot : Nat)
    (mem : Nat → Nat) (fuel : Nat) (offset : Int) (data : List Nat) (w : World σ)
    (hz : zone = ZoneConfig ∨ zone = ZoneOTP ∨ zone = ZoneData)
    (h32 : ∀ (b : Nat) (buf : List Nat) (w : World σ), b < 256 → buf.length = 32 →
      ∃ w1, readZone X zone slot b 0 buf w = (.ret (32, none, memSlice mem (32 * b) 32), w1))
    (h4 : ∀ (b wd : Nat) (buf : List Nat) (w : World σ), b < 256 → wd < 8 → buf.length = 4 →
      ∃ w1, readZone X zone slot b wd buf w
        = (.ret (4, none, memSlice mem (32 * b + 4 * wd) 4), w1))
    (hoff : 0 ≤ offset) (hne : data ≠ [])
    (hfit : offset + data.length ≤
      (if zone = ZoneConfig then 128 else if zone = ZoneOTP then 64 else 36))
    (hfuel : data.length < fuel) :
    ∃ w', readBytesZone X fuel zone slot offset data w
      = (.ret ((data.length : Int), none, memSlice mem offset.toNat data.length), w') := by
  have hlen0 : data.length ≠ 0 := fun h => hne (List.length_eq_zero.mp h)
  obtain ⟨off, rfl⟩ : ∃ off : Nat, offset = (off : Int) := ⟨offset.toNat, by omega⟩
  have hzb : (if zone = ZoneConfig then (128 : Int) else if zone = ZoneOTP then 64 else 36)
      ≤ 128 := by
    split
    · omega
    · split <;> omega
  unfold readBytesZone
  rw [if_neg hlen0, getZoneSize_slot0 zone hz]
  simp only []
  rw [wrapInt_eq _ (by omega) (by omega), if_neg (by omega)]
  generalize hzs : (if zone = ZoneConfig then (128 : Int) else if zone = ZoneOTP then 64 else 36)
    = zs at hfit
  have hzs3 : zs = 128 ∨ zs = 64 ∨ zs = 36 := by
    rw [← hzs]
    split
    · left; rfl
    · split
      · right; left; rfl
      · right; right; rfl
  have key := readBytesLoop_reads X zone slot mem off zs data.length hzs3 hfit h32 h4 fuel
    (List.replicate atcaBlockSize 0) (off / 32) 0 data w (by simp [atcaBlockSize]) rfl
    (by omega) (by omega) (by omega) (by intro h; omega) (by simp [memSlice]) (by omega)
  rw [Int.ofNat_tdiv] at key
  simpa [atcaBlockSize] using key

theorem goCopy_same (dst src : List Nat) (h : src.length = dst.length) : goCopy dst src = src := by
  rw [goCopy_short _ _ (by omega), h]
  simp

theorem memExec_read32 (mem : Nat → Nat) (slot b : Nat) (buf : List Nat) (w : World Unit)
    (hb : b < 256) (hl : buf.length = 32) :
    ∃ w1, readZone (memExec mem) ZoneConfig slot b 0 buf w
      = (.ret (32, none, memSlice mem (32 * b) 32), w1) := by
  unfold readZone
  rw [if_neg (by simp [hl, atcaBlockSize]), getAddr_config slot b 0 hb (by decide)]
  simp only [newReadCommand, newPacket, atcaCmdSizeMax, List.length_nil, execResponse, memExec,
    hl]
  have e : (8 * b + 0) >>> 3 = b := by rw [Nat.shiftRight_eq_div_pow]; omega
  simp only [show ¬ (0 > 4 * 36 + 7) by decide, if_false, e, if_true]
  rw [goCopy_same _ _ (by rw [memSlice_length, hl])]
  exact ⟨_, rfl⟩

theorem memExec_read4 (mem : Nat → Nat) (slot b wd : Nat) (buf : List Nat) (w : World Unit)
    (hb : b < 256) (hw : wd < 8) (hl : buf.length = 4) :
    ∃ w1, readZone (memExec mem) ZoneConfig slot b wd buf w
      = (.ret (4, none, memSlice mem (32 * b + 4 * wd) 4), w1) := by
  unfold readZone
  rw [if_neg (by simp [hl, atcaWordSize]), getAddr_config slot b wd hb hw]
  simp only [newReadCommand, newPacket, atcaCmdSizeMax, List.length_nil, execResponse, memExec,
    hl]
  have e : (8 * b + wd) >>> 3 = b := by rw [Nat.shiftRight_eq_div_pow]; omega
  have e2 : (8 * b + wd) &&& 7 = wd := by
    rw [Nat.and_pow_two_sub_one_eq_mod _ 3]; omega
  simp only [show ¬ (0 > 4 * 36 + 7) by decide, if_false, e, e2,
    show ¬ ((4 : Nat) = 32) by decide]
  rw [goCopy_same _ _ (by rw [memSlice_length, hl])]
  exact ⟨_, rfl⟩

theorem readBytesZone_returns_memory_witness :
    ∃ w', readBytesZone (memExec (fun i => i)) 5 ZoneConfig 0 30 [0, 0, 0, 0] ⟨(), []⟩
      = (.ret ((([0, 0, 0, 0] : List Nat).length : Int), none,
          memSlice (fun i => i) (30 : Int).toNat ([0, 0, 0, 0] : List Nat).length), w') :=
  readBytesZone_returns_memory (memExec (fun i => i)) ZoneConfig 0 (fun i => i) 5 30
    [0, 0, 0, 0] ⟨(), []⟩ (Or.inl rfl) (memExec_read32 _ 0) (memExec_read4 _ 0) (by decide) (by simp)
    (by decide) (by decide)

/-! ### Status codes -/

/-- C20: on a non-empty response `validateResponseStatusCode` depends only on the first
byte `s`: it returns nil if and only if `s = 0x00`; it returns `errCheckMacVerifyFailed`,
`errParseError`, `errProcessFailure`, `errSelfTestFailed`, `errHealthTest`,
`errExecution`, `errWakeSuccessful` and `errCRC` for `s = 0x01, 0x03, 0x05, 0x07, 0x08,
0x0F, 0x11, 0xFF`, errors that are pairwise distinct (and distinct from `errUnknown`); it
returns `errUnknown` for every other byte; an empty response is an error. -/
theorem validateResponseStatusCode_table (s : Nat) (rest : List Nat) :
    validateResponseStatusCode (s :: rest) = validateResponseStatusCode [s] ∧
    (validateResponseStatusCode (s :: rest) = none ↔ s = 0x00) ∧
    validateResponseStatusCode (0x01 :: rest) = some errCheckMacVerifyFailed ∧
    validateResponseStatusCode (0x03 :: rest) = some errParseError ∧
    validateResponseStatusCode (0x05 :: rest) = some errProcessFailure ∧
    validateResponseStatusCode (0x07 :: rest) = some errSelfTestFailed ∧
    validateResponseStatusCode (0x08 :: rest) = some errHealthTest ∧
    validateResponseStatusCode (0x0F :: rest) = some errExecution ∧
    validateResponseStatusCode (0x11 :: rest) = some errWakeSuccessful ∧
    validateResponseStatusCode (0xFF :: rest) = some errCRC ∧
    [errCheckMacVerifyFailed, errParseError, errProcessFailure, errSelfTestFailed,
      errHealthTest, errExecution, errWakeSuccessful, errCRC, errUnknown].Nodup ∧
    (s ∉ [0x00, 0x01, 0x03, 0x05, 0x07, 0x08, 0x0F, 0x11, 0xFF] →
      validateResponseStatusCode (s :: rest) = some errUnknown) ∧
    (∃ e, validateResponseStatusCode [] = some e) := by
  refine ⟨rfl, ?_, rfl, rfl, rfl, rfl, rfl, rfl, rfl, rfl, by decide, ?_, ⟨_, rfl⟩⟩
  · constructor
    · intro h
      by_contra hs
      obtain ⟨e, he⟩ := validate_nonzero s hs
      have : validateResponseStatusCode (s :: rest) = some e := he
      rw [this] at h
      cases h
    · intro h
      subst h
      rfl
  · intro hs
    simp only [List.mem_cons, List.mem_singleton, List.not_mem_nil, or_false, not_or] at hs
    obtain ⟨h0, h1, h3, h5, h7, h8, hf, h11, hff⟩ := hs
    simp [validateResponseStatusCode, h0, h1, h3, h5, h7, h8, hf, h11, hff]

theorem validateResponseStatusCode_table_witness :
    (0x42 : Nat) ∉ [0x00, 0x01, 0x03, 0x05, 0x07, 0x08, 0x0F, 0x11, 0xFF] ∧
    validateResponseStatusCode [0x42, 0x00] = some errUnknown :=
  ⟨by decide, (validateResponseStatusCode_table 0x42 [0x00]).2.2.2.2.2.2.2.2.2.2.2.1 (by decide)⟩

/-! ### Zone sizes -/

/-- C14: `getZoneSize` returns 128 for the Config zone and 64 for the OTP zone whatever
the slot, and for the Data zone 36 for slots 0-7, 416 for slot 8, 72 for slots 9-15 and
an error for every slot `>= 16`; every other zone value is an error. -/
theorem getZoneSize_table (zone slot : Nat) :
    getZoneSize ZoneConfig slot = .ok 128 ∧
    getZoneSize ZoneOTP slot = .ok 64 ∧
    (slot ≤ 7 → getZoneSize ZoneData slot = .ok 36) ∧
    getZoneSize ZoneData 8 = .ok 416 ∧
    (9 ≤ slot → slot ≤ 15 → getZoneSize ZoneData slot = .ok 72) ∧
    (16 ≤ slot → ∃ e, getZoneSize ZoneData slot = .error e) ∧
    (zone ≠ ZoneConfig → zone ≠ ZoneOTP → zone ≠ ZoneData →
      ∃ e, getZoneSize zone slot = .error e) := by
  refine ⟨rfl, rfl, ?_, rfl, ?_, ?_, ?_⟩
  · intro h
    have : slot < 8 := by omega
    simp [getZoneSize, ZoneData, ZoneConfig, ZoneOTP, this]
  · intro h1 h2
    have a : ¬ slot < 8 := by omega
    have b : ¬ slot = 8 := by omega
    have c : slot < 16 := by omega
    simp [getZoneSize, ZoneData, ZoneConfig, ZoneOTP, a, b, c]
  · intro h
    have a : ¬ slot < 8 := by omega
    have b : ¬ slot = 8 := by omega
    have c : ¬ slot < 16 := by omega
    exact ⟨invalidSlotReceived, by simp [getZoneSize, ZoneData, ZoneConfig, ZoneOTP, a, b, c]⟩
  · intro h1 h2 h3
    exact ⟨invalidZoneReceived, by simp [getZoneSize, h1, h2, h3]⟩

theorem getZoneSize_table_witness :
    getZoneSize ZoneData 3 = .ok 36 ∧ getZoneSize ZoneData 12 = .ok 72 ∧
    (∃ e, getZoneSize ZoneData 16 = .error e) ∧ (∃ e, getZoneSize 3 0 = .error e) :=
  ⟨(getZoneSize_table 0 3).2.2.1 (by decide),
   (getZoneSize_table 0 12).2.2.2.2.1 (by decide) (by decide),
   (getZoneSize_table 0 16).2.2.2.2.2.1 (by decide),
   (getZoneSize_table 3 0).2.2.2.2.2.2 (by decide) (by decide) (by decide)⟩

/-! ### Addresses -/

theorem or_mod_two_pow (a b k : Nat) : (a ||| b) % 2 ^ k = a % 2 ^ k ||| b % 2 ^ k := by
  apply Nat.eq_of_testBit_eq
  intro i
  simp only [Nat.testBit_mod_two_pow, Nat.testBit_or]
  by_cases h : i < k <;> simp [h]

theorem and_seven_lt (offset : Nat) : offset &&& 7 < 8 := by
  rw [Nat.and_pow_two_sub_one_eq_mod offset 3]
  exact Nat.mod_lt _ (by decide)

theorem getAddr_small_or (zone slot block offset : Nat)
    (hz : zone = ZoneConfig ∨ zone = ZoneOTP) (hb : block < 256) :
    getAddr zone slot block offset = .ok ((block <<< 3) ||| (offset &&& 7)) := by
  have h3 : (block <<< 3) % 65536 = block <<< 3 := by
    rw [Nat.shiftLeft_eq]; omega
  simp [getAddr, hz, h3]

theorem getAddr_data_or (slot block offset : Nat) :
    getAddr ZoneData slot block offset
      = .ok (((slot <<< 3) ||| (offset &&& 7) ||| (block <<< 8)) % 65536) := by
  have ho : (offset &&& 7) % 65536 = offset &&& 7 := by
    have := and_seven_lt offset
    omega
  have e16 : (65536 : Nat) = 2 ^ 16 := by norm_num
  have e : ((slot <<< 3) ||| (offset &&& 7) ||| (block <<< 8)) % 65536
      = (slot <<< 3) % 65536 ||| (offset &&& 7) ||| (block <<< 8) % 65536 := by
    rw [e16, or_mod_two_pow _ _ 16, or_mod_two_pow _ _ 16, ← e16, ho]
  rw [e]
  simp [getAddr, ZoneData, ZoneConfig, ZoneOTP]

/-- C12: for every slot, block (a `uint8`) and offset, `getAddr` on the Config and the OTP
zone returns `(block << 3) | (offset & 7)` whatever the slot; on the Data zone it returns
`(slot << 3) | (offset & 7) | (block << 8)` truncated to 16 bits; for every other zone
value it returns an error. -/
theorem getAddr_formula (zone slot block offset : Nat) (hb : block < 256) :
    getAddr ZoneConfig slot block offset = .ok ((block <<< 3) ||| (offset &&& 7)) ∧
    getAddr ZoneOTP slot block offset = .ok ((block <<< 3) ||| (offset &&& 7)) ∧
    getAddr ZoneData slot block offset
      = .ok (((slot <<< 3) ||| (offset &&& 7) ||| (block <<< 8)) % 65536) ∧
    (zone ≠ ZoneConfig → zone ≠ ZoneOTP → zone ≠ ZoneData →
      ∃ e, getAddr zone slot block offset = .error e) := by
  refine ⟨getAddr_small_or _ slot block offset (Or.inl rfl) hb,
    getAddr_small_or _ slot block offset (Or.inr rfl) hb,
    getAddr_data_or slot block offset, ?_⟩
  intro h1 h2 h3
  exact ⟨invalidZoneReceived, by simp [getAddr, h1, h2, h3]⟩

theorem getAddr_formula_witness :
    getAddr ZoneConfig 9 2 5 = .ok ((2 <<< 3) ||| (5 &&& 7)) ∧
    getAddr ZoneOTP 9 2 5 = .ok ((2 <<< 3) ||| (5 &&& 7)) ∧
    getAddr ZoneData 9 2 5 = .ok (((9 <<< 3) ||| (5 &&& 7) ||| (2 <<< 8)) % 65536) ∧
    ((7 : Nat) ≠ ZoneConfig → (7 : Nat) ≠ ZoneOTP → (7 : Nat) ≠ ZoneData →
      ∃ e, getAddr 7 9 2 5 = .error e) :=
  getAddr_formula 7 9 2 5 (by decide)

theorem getAddr_data_sum (slot block offset : Nat) (hs : slot < 32) (hb : block < 256) :
    getAddr ZoneData slot block offset = .ok (256 * block + (8 * slot + offset % 8)) := by
  have ho : offset &&& 0x07 = offset % 8 := Nat.and_pow_two_sub_one_eq_mod offset 3
  have h1 : (slot <<< 3) % 65536 = 2 ^ 3 * slot := by rw [Nat.shiftLeft_eq]; omega
  have h2 : (block <<< 8) % 65536 = 2 ^ 8 * block := by rw [Nat.shiftLeft_eq]; omega
  have hlt : offset % 8 < 2 ^ 3 := Nat.mod_lt _ (by decide)
  have e1 : 2 ^ 3 * slot ||| offset % 8 = 2 ^ 3 * slot + offset % 8 :=
    (Nat.mul_add_lt_is_or hlt slot).symm
  have hlt2 : 2 ^ 3 * slot + offset % 8 < 2 ^ 8 := by omega
  have e2 : (2 ^ 3 * slot + offset % 8) ||| 2 ^ 8 * block
      = 2 ^ 8 * block + (2 ^ 3 * slot + offset % 8) := by
    rw [Nat.or_comm]
    exact (Nat.mul_add_lt_is_or hlt2 block).symm
  simp only [getAddr, ZoneData, ZoneConfig, ZoneOTP, ho, h1, h2, e1, e2]
  simp

theorem getAddr_small_sum (zone slot block offset : Nat)
    (hz : zone = ZoneConfig ∨ zone = ZoneOTP) (hb : block < 256) :
    getAddr zone slot block offset = .ok (8 * block + offset % 8) := by
  have ho : offset &&& 0x07 = offset % 8 := Nat.and_pow_two_sub_one_eq_mod offset 3
  have h1 : (block <<< 3) % 65536 = 2 ^ 3 * block := by rw [Nat.shiftLeft_eq]; omega
  have hlt : offset % 8 < 2 ^ 3 := Nat.mod_lt _ (by decide)
  have e1 : 2 ^ 3 * block ||| offset % 8 = 2 ^ 3 * block + offset % 8 :=
    (Nat.mul_add_lt_is_or hlt block).symm
  simp only [getAddr, hz, if_true, ho, h1, e1]
  simp

/-- C13: for every block in 0-255 and every offset, the low three bits of the address are
`offset & 7` in every supported zone; for Config and OTP the address shifted right by 3 is
the block; for the Data zone with a slot in 0-15, bits 3-7 are the slot and bits 8-15 are
the block, so that equal addresses come from equal `(slot, block, offset & 7)`. -/
theorem getAddr_bit_fields (zone slot block offset : Nat) (hb : block < 256) :
    (zone = ZoneConfig ∨ zone = ZoneOTP →
      ∃ a, getAddr zone slot block offset = .ok a ∧ a &&& 7 = offset &&& 7 ∧ a >>> 3 = block) ∧
    (∃ a, getAddr ZoneData slot block offset = .ok a ∧ a &&& 7 = offset &&& 7) ∧
    (slot ≤ 15 →
      ∃ a, getAddr ZoneData slot block offset = .ok a ∧ a &&& 7 = offset &&& 7 ∧
        (a >>> 3) &&& 0x1F = slot ∧ a >>> 8 = block ∧ a < 65536) ∧
    (slot ≤ 15 → ∀ slot' block' offset', slot' ≤ 15 → block' < 256 →
      getAddr ZoneData slot block offset = getAddr ZoneData slot' block' offset' →
      slot = slot' ∧ block = block' ∧ offset &&& 7 = offset' &&& 7) := by
  have m7 : ∀ x : Nat, x &&& 7 = x % 8 := fun x => Nat.and_pow_two_sub_one_eq_mod x 3
  have m31 : ∀ x : Nat, x &&& 0x1F = x % 32 := fun x => Nat.and_pow_two_sub_one_eq_mod x 5
  refine ⟨?_, ?_, ?_, ?_⟩
  · intro hz
    refine ⟨_, getAddr_small_sum zone slot block offset hz hb, ?_, ?_⟩
    · rw [m7, m7]; omega
    · rw [Nat.shiftRight_eq_div_pow]; omega
  · have hdata := getAddr_data_or slot block offset
    refine ⟨_, hdata, ?_⟩
    have e16 : (65536 : Nat) = 2 ^ 16 := by norm_num
    rw [e16]
    apply Nat.eq_of_testBit_eq
    intro i
    simp only [Nat.testBit_and, Nat.testBit_mod_two_pow, Nat.testBit_or,
      Nat.testBit_shiftLeft]
    have h7 : (7 : Nat).testBit i = decide (i < 3) := by
      have := Nat.testBit_two_pow_sub_one 3 i
      simpa using this
    rw [h7]
    by_cases hi : i < 3
    · have a : ¬ i ≥ 3 := by omega
      have b : ¬ i ≥ 8 := by omega
      have c : i < 16 := by omega
      simp [hi, a, b, c]
    · simp [hi]
  · intro hs
    refine ⟨_, getAddr_data_sum slot block offset (by omega) hb, ?_, ?_, ?_, ?_⟩
    · rw [m7, m7]; omega
    · rw [m31, Nat.shiftRight_eq_div_pow]; omega
    · rw [Nat.shiftRight_eq_div_pow]; omega
    · omega
  · intro hs slot' block' offset' hs' hb' h
    rw [getAddr_data_sum slot block offset (by omega) hb,
      getAddr_data_sum slot' block' offset' (by omega) hb'] at h
    injection h with h
    rw [m7, m7]
    omega

theorem getAddr_bit_fields_witness :
    ∃ a, getAddr ZoneData 9 2 0x15 = .ok a ∧ a &&& 7 = 0x15 &&& 7 ∧
      (a >>> 3) &&& 0x1F = 9 ∧ a >>> 8 = 2 ∧ a < 65536 :=
  (getAddr_bit_fields 0 9 2 0x15 (by decide)).2.2.1 (by decide)

/-! ### Session engine: the idle cleanup -/

/-- The transmission loop calls only `Wake` and `Write` on the transport. -/
theorem sendLoop_calls {σ : Type} (E : Env σ) (b : List Nat) :
    ∀ (n : Nat) (err : Option Err) (d : Dev σ),
      ∃ sent, (sendLoop E b n err d).2.calls = d.calls ++ sent ∧
        ∀ c ∈ sent, c = HalCall.Wake ∨ c = HalCall.Write b := by
  intro n
  induction n with
  | zero =>
    intro err d
    exact ⟨[], by simp [sendLoop], by simp⟩
  | succ n ih =>
    intro err d
    rw [sendLoop]
    generalize hw : (if d.state ≠ deviceStateActive then
        match E.hal.Wake d.env with
        | (e, s) =>
          let d : Dev σ := { d with env := s, calls := d.calls ++ [HalCall.Wake] }
          if e = none then (e, { d with state := deviceStateActive }) else (e, d)
      else (err, d)) = wk
    have hwk : ∃ pre, wk.2.calls = d.calls ++ pre ∧ ∀ c ∈ pre, c = HalCall.Wake := by
      rw [← hw]
      split
      · rcases E.hal.Wake d.env with ⟨e, s⟩
        simp only []
        split
        · exact ⟨[HalCall.Wake], rfl, by simp⟩
        · exact ⟨[HalCall.Wake], rfl, by simp⟩
      · exact ⟨[], by simp, by simp⟩
    obtain ⟨x, d0⟩ := wk
    obtain ⟨pre, hpre, hpw⟩ := hwk
    have hpre' : d0.calls = d.calls ++ pre := hpre
    rcases hwr : E.hal.Write b d0.env with ⟨⟨k, e⟩, s⟩
    have hmem : ∀ c ∈ pre ++ [HalCall.Write b], c = HalCall.Wake ∨ c = HalCall.Write b := by
      intro c hc
      rcases List.mem_append.mp hc with h | h
      · exact Or.inl (hpw c h)
      · exact Or.inr (by simpa using h)
    rcases e with _ | e
    · exact ⟨pre ++ [HalCall.Write b], by simp [hwr, hpre'], hmem⟩
    · rcases hcd : E.ctxDone d0.cfg.WakeDelay s with ⟨ce, s'⟩
      rcases ce with _ | ce
      · obtain ⟨sent, hs, hsm⟩ := ih (some e)
          { env := s', state := d0.state, cfg := d0.cfg, clockDivider := d0.clockDivider,
            calls := d0.calls ++ [HalCall.Write b] }
        refine ⟨pre ++ [HalCall.Write b] ++ sent, ?_, ?_⟩
        · simp only [hwr, hcd]
          rw [hs]; simp [hpre']
        · intro c hc
          rcases List.mem_append.mp hc with h | h
          · exact hmem c h
          · exact hsm c h
      · exact ⟨pre ++ [HalCall.Write b], by simp [hwr, hcd, hpre'], hmem⟩

/-- The wait-and-read part calls nothing on the transport but, at most once, `Read`. -/
theorem awaitResponse_calls {σ : Type} (E : Env σ) (p : packet) (recv : List Nat) (d : Dev σ) :
    (awaitResponse E p recv d).2.calls = d.calls ∨
    (awaitResponse E p recv d).2.calls = d.calls ++ [HalCall.Read (recv.length + 3)] := by
  unfold awaitResponse
  rcases ht : getExecutionTime d.cfg.DeviceType d.clockDivider p.opcode with e | t
  · left; rfl
  · dsimp only
    rcases hc : E.ctxDone t d.env with ⟨ce, s⟩
    rcases ce with _ | ce
    · dsimp only
      rw [List.length_replicate]
      rcases hr : E.hal.Read (recv.length + 3) s with ⟨⟨bytes, size, err⟩, s'⟩
      rcases err with _ | e
      · right; simp only [hr]
      · right; simp only [hr]
    · left; rfl

/-- The transmission loop against what the transport returned: the calls it records are
those of the trace; it ends with a nil error, the state Active, as soon as a write is
accepted; when no write is accepted it ends with an error, and the state is Active if
it was Active or a wake was accepted, and otherwise what it was. -/
theorem sendLoop_trace {σ : Type} (E : Env σ) (b : List Nat) :
    ∀ (n : Nat) (err : Option Err) (d : Dev σ),
      (sendLoop E b n err d).2.calls = d.calls ++ (sendTrace E b n d).map Prod.fst ∧
      ((HalCall.Write b, (none : Option Err)) ∈ sendTrace E b n d →
        (sendLoop E b n err d).1 = .fellThrough none ∧
        (sendLoop E b n err d).2.state = deviceStateActive) ∧
      ((HalCall.Write b, (none : Option Err)) ∉ sendTrace E b n d → (0 < n ∨ err ≠ none) →
        (∃ e, (sendLoop E b n err d).1 = .fellThrough (some e) ∨
          (sendLoop E b n err d).1 = .returned e)) ∧
      ((HalCall.Write b, (none : Option Err)) ∉ sendTrace E b n d →
        (d.state = deviceStateActive ∨ (HalCall.Wake, (none : Option Err)) ∈ sendTrace E b n d →
          (sendLoop E b n err d).2.state = deviceStateActive) ∧
        (¬ (d.state = deviceStateActive ∨
            (HalCall.Wake, (none : Option Err)) ∈ sendTrace E b n d) →
          (sendLoop E b n err d).2.state = d.state)) := by
  intro n
  induction n with
  | zero =>
    intro err d
    refine ⟨by simp [sendLoop, sendTrace], by simp [sendTrace], ?_, by simp [sendLoop, sendTrace]⟩
    intro _ h
    rcases h with h | h
    · omega
    · rcases err with _ | e
      · exact absurd rfl h
      · exact ⟨e, Or.inl rfl⟩
  | succ n ih =>
    intro err d
    rw [sendLoop, sendTrace]
    by_cases hst : d.state ≠ deviceStateActive
    · rw [if_pos hst, if_pos hst]
      rcases hwk : E.hal.Wake d.env with ⟨we, s1⟩
      dsimp only
      rcases hwr : E.hal.Write b s1 with ⟨⟨m, e⟩, s2⟩
      by_cases hwe : we = none
      · subst hwe
        simp only [if_true, hwr]
        rcases e with _ | e
        · simp
        · dsimp only
          rcases hcd : E.ctxDone d.cfg.WakeDelay s2 with ⟨ce, s3⟩
          rcases ce with _ | ce
          · dsimp only
            obtain ⟨h1, h2, h3, h4⟩ := ih (some e)
              { env := s3, state := deviceStateActive, cfg := d.cfg,
                clockDivider := d.clockDivider,
                calls := d.calls ++ [HalCall.Wake] ++ [HalCall.Write b] }
            generalize sendLoop E b n (some e) _ = L at h1 h2 h3 h4 ⊢
            generalize sendTrace E b n _ = T at h1 h2 h3 h4 ⊢
            dsimp only at h1 h4
            refine ⟨by simp [h1], ?_, ?_, ?_⟩
            · intro hm
              exact h2 (by simpa using hm)
            · intro hm _
              exact h3 (by simpa using hm) (Or.inr (by simp))
            · intro hm
              have hm' : (HalCall.Write b, (none : Option Err)) ∉ T := by simpa using hm
              refine ⟨fun _ => (h4 hm').1 (Or.inl rfl), ?_⟩
              intro hn
              exact absurd (Or.inr (by simp)) hn
          · simp
      · have hwe' : ¬ none = we := fun h => hwe h.symm
        simp only [if_neg hwe, hwr]
        rcases e with _ | e
        · simp
        · dsimp only
          rcases hcd : E.ctxDone d.cfg.WakeDelay s2 with ⟨ce, s3⟩
          rcases ce with _ | ce
          · dsimp only
            obtain ⟨h1, h2, h3, h4⟩ := ih (some e)
              { env := s3, state := d.state, cfg := d.cfg,
                clockDivider := d.clockDivider,
                calls := d.calls ++ [HalCall.Wake] ++ [HalCall.Write b] }
            generalize sendLoop E b n (some e) _ = L at h1 h2 h3 h4 ⊢
            generalize sendTrace E b n _ = T at h1 h2 h3 h4 ⊢
            dsimp only at h1 h4
            refine ⟨by simp [h1], ?_, ?_, ?_⟩
            · intro hm
              exact h2 (by simpa using hm)
            · intro hm _
              exact h3 (by simpa using hm) (Or.inr (by simp))
            · intro hm
              have hm' : (HalCall.Write b, (none : Option Err)) ∉ T := by simpa using hm
              simpa [hwe, hwe'] using h4 hm'
          · simp [hwe, hwe', hst]
    · rw [if_neg hst, if_neg hst]
      have hact : d.state = deviceStateActive := not_not.mp hst
      dsimp only
      rcases hwr : E.hal.Write b d.env with ⟨⟨m, e⟩, s2⟩
      simp only [hwr]
      rcases e with _ | e
      · simp
      · dsimp only
        rcases hcd : E.ctxDone d.cfg.WakeDelay s2 with ⟨ce, s3⟩
        rcases ce with _ | ce
        · dsimp only
          obtain ⟨h1, h2, h3, h4⟩ := ih (some e)
            { env := s3, state := d.state, cfg := d.cfg,
              clockDivider := d.clockDivider,
              calls := d.calls ++ [HalCall.Write b] }
          generalize sendLoop E b n (some e) _ = L at h1 h2 h3 h4 ⊢
          generalize sendTrace E b n _ = T at h1 h2 h3 h4 ⊢
          dsimp only at h1 h4
          refine ⟨by simp [h1], ?_, ?_, ?_⟩
          · intro hm
            exact h2 (by simpa using hm)
          · intro hm _
            exact h3 (by simpa using hm) (Or.inr (by simp))
          · intro hm
            have hm' : (HalCall.Write b, (none : Option Err)) ∉ T := by simpa using hm
            simpa using h4 hm'
        · simp [hact]

theorem sendTrace_no_idle {σ : Type} (E : Env σ) (b : List Nat) (n : Nat) (d : Dev σ) :
    HalCall.Idle ∉ (sendTrace E b n d).map Prod.fst := by
  obtain ⟨sent, hs, hsm⟩ := sendLoop_calls E b n none d
  rw [(sendLoop_trace E b n none d).1] at hs
  rw [List.append_cancel_left hs]
  intro h
  rcases hsm _ h with h' | h' <;> cases h'

/-- C11: whenever one of the `hal.Write` attempts of the transmission loop returns a nil
error, `executeResponse` calls `hal.Idle` exactly once, as the last call on the
transport, after the wakes and writes of the loop and the read (if one is made), and
returns with the session state `Idle`, whatever happens after the write (unknown
execution time, cancellation, read failure, bad checksum, error status, success, a
panic) and whatever `hal.Idle` itself returns. -/
theorem executeResponse_idle_once_last {σ : Type} (E : Env σ) (p : packet) (recv : List Nat)
    (d : Dev σ)
    (hw : (HalCall.Write (Encode p).1, (none : Option Err)) ∈
      sendTrace E (Encode p).1 (d.cfg.RxRetries + 1).toNat d) :
    ∃ rest, (rest = [] ∨ rest = [HalCall.Read (recv.length + 3)]) ∧
      (executeResponse E p recv d).2.calls
        = d.calls ++ ((sendTrace E (Encode p).1 (d.cfg.RxRetries + 1).toNat d).map Prod.fst
            ++ rest) ++ [HalCall.Idle] ∧
      HalCall.Idle ∉
        (sendTrace E (Encode p).1 (d.cfg.RxRetries + 1).toNat d).map Prod.fst ++ rest ∧
      (executeResponse E p recv d).2.calls.count HalCall.Idle
        = d.calls.count HalCall.Idle + 1 ∧
      (executeResponse E p recv d).2.state = deviceStateIdle := by
  obtain ⟨hc, hacc, _, _⟩ := sendLoop_trace E (Encode p).1 (d.cfg.RxRetries + 1).toNat none d
  have hres := (hacc hw).1
  have hidle := sendTrace_no_idle E (Encode p).1 (d.cfg.RxRetries + 1).toNat d
  generalize sendTrace E (Encode p).1 (d.cfg.RxRetries + 1).toNat d = T at hc hidle ⊢
  rcases hs : sendLoop E (Encode p).1 (d.cfg.RxRetries + 1).toNat none d with ⟨res, d1⟩
  rw [hs] at hc hres
  dsimp only at hc hres
  subst hres
  unfold executeResponse
  rw [encode_pair p]
  simp only [hs]
  have key : ∀ rest, HalCall.Idle ∉ T.map Prod.fst ++ rest →
      (d.calls ++ (T.map Prod.fst ++ rest) ++ [HalCall.Idle]).count HalCall.Idle
        = d.calls.count HalCall.Idle + 1 := by
    intro rest hb
    rw [List.count_append, List.count_append, List.count_eq_zero_of_not_mem hb]
    simp
  rcases awaitResponse_calls E p recv d1 with h | h
  · have hb : HalCall.Idle ∉ T.map Prod.fst ++ [] := by simpa using hidle
    refine ⟨[], Or.inl rfl, ?_, hb, ?_, trivial⟩
    · simp only [h, hc, List.append_nil]
    · have := key [] hb
      simp only [h, hc]
      simpa using this
  · have hb : HalCall.Idle ∉ T.map Prod.fst ++ [HalCall.Read (recv.length + 3)] := by
      intro hh
      rcases List.mem_append.mp hh with h' | h'
      · exact hidle h'
      · simp at h'
    refine ⟨[HalCall.Read (recv.length + 3)], Or.inr rfl, ?_, hb, ?_, trivial⟩
    · simp only [h, hc, List.append_assoc]
    · have := key _ hb
      simp only [h, hc]
      simpa [List.append_assoc] using this

set_option maxRecDepth 100000 in
theorem executeResponse_idle_once_last_witness :
    sendTrace (retryEnv [0x04, 0x00, 0x03, 0x40]) (Encode infoPacket).1
        (failDev.cfg.RxRetries + 1).toNat failDev
      = [(HalCall.Wake, none), (HalCall.Write (Encode infoPacket).1, some (Err.hal 1)),
         (HalCall.Write (Encode infoPacket).1, none)] ∧
    ∃ rest, (rest = [] ∨ rest = [HalCall.Read (([0] : List Nat).length + 3)]) ∧
      (executeResponse (retryEnv [0x04, 0x00, 0x03, 0x40]) infoPacket [0] failDev).2.calls
        = failDev.calls ++
            ((sendTrace (retryEnv [0x04, 0x00, 0x03, 0x40]) (Encode infoPacket).1
                (failDev.cfg.RxRetries + 1).toNat failDev).map Prod.fst ++ rest)
            ++ [HalCall.Idle] ∧
      HalCall.Idle ∉
        (sendTrace (retryEnv [0x04, 0x00, 0x03, 0x40]) (Encode infoPacket).1
          (failDev.cfg.RxRetries + 1).toNat failDev).map Prod.fst ++ rest ∧
      (executeResponse (retryEnv [0x04, 0x00, 0x03, 0x40]) infoPacket [0] failDev).2.calls.count
          HalCall.Idle
        = failDev.calls.count HalCall.Idle + 1 ∧
      (executeResponse (retryEnv [0x04, 0x00, 0x03, 0x40]) infoPacket [0] failDev).2.state
        = deviceStateIdle :=
  ⟨by rfl,
    executeResponse_idle_once_last (retryEnv [0x04, 0x00, 0x03, 0x40]) infoPacket [0] failDev
      (by decide)⟩

/-! ### Zone addressing engine: local validation -/

theorem getZoneSize_slot0_le (zone slot : Nat) (size : Int)
    (h : getZoneSize zone slot = .ok size) :
    ∃ size0, getZoneSize zone 0 = .ok size0 ∧ size0 ≤ size := by
  obtain ⟨hz, _, _⟩ := getZoneSize_ok zone slot size h
  rcases hz with hz | hz | hz
  · subst hz
    have e : getZoneSize ZoneConfig slot = .ok 128 := rfl
    rw [e] at h
    injection h with h
    exact ⟨128, rfl, by omega⟩
  · subst hz
    have e : getZoneSize ZoneOTP slot = .ok 64 := rfl
    rw [e] at h
    injection h with h
    exact ⟨64, rfl, by omega⟩
  · subst hz
    refine ⟨36, rfl, ?_⟩
    by_cases h8 : slot < 8
    · simp [getZoneSize, ZoneData, ZoneConfig, ZoneOTP, h8] at h
      omega
    · by_cases h9 : slot = 8
      · simp [getZoneSize, ZoneData, ZoneConfig, ZoneOTP, h9] at h
        omega
      · by_cases h16 : slot < 16
        · simp [getZoneSize, ZoneData, ZoneConfig, ZoneOTP, h8, h9, h16] at h
          omega
        · simp [getZoneSize, ZoneData, ZoneConfig, ZoneOTP, h8, h9, h16] at h

theorem readBytesZone_range_error {σ : Type} (X : Executor σ) (fuel zone slot : Nat)
    (offset : Int) (data : List Nat) (w : World σ) (size : Int)
    (hzs : getZoneSize zone slot = .ok size) (hne : data ≠ [])
    (hlo : -2 ^ 63 ≤ offset) (hhi : offset + data.length < 2 ^ 63)
    (hover : offset + data.length > size) :
    readBytesZone X fuel zone slot offset data w
      = (.ret (0, some invalidParameterRecieved, data), w) := by
  obtain ⟨size0, h0, hle⟩ := getZoneSize_slot0_le zone slot size hzs
  have hlen0 : data.length ≠ 0 := fun h => hne (List.length_eq_zero.mp h)
  unfold readBytesZone
  rw [if_neg hlen0, h0]
  dsimp only
  rw [wrapInt_eq _ (by omega) hhi, if_pos (by omega)]

theorem writeBytesZone_range_error {σ : Type} (X : Executor σ) (fuel zone slot offset : Nat)
    (data : List Nat) (w : World σ) (size : Int)
    (hzs : getZoneSize zone slot = .ok size) (hne : data ≠ [])
    (hover : (offset : Int) + data.length > size) :
    ∃ e, writeBytesZone X fuel zone slot offset data w = (.ret (0, some e), w) := by
  have hlen0 : data.length ≠ 0 := fun h => hne (List.length_eq_zero.mp h)
  unfold writeBytesZone
  by_cases h1 : zone = ZoneData ∧ slot > 15
  · rw [if_pos h1]; exact ⟨_, rfl⟩
  · rw [if_neg h1, if_neg hlen0]
    by_cases h2 : offset % atcaWordSize ≠ 0
    · rw [if_pos h2]; exact ⟨_, rfl⟩
    · rw [if_neg h2]
      by_cases h3 : data.length % atcaWordSize ≠ 0
      · rw [if_pos h3]; exact ⟨_, rfl⟩
      · rw [if_neg h3, hzs]
        dsimp only
        rw [if_pos hover]
        exact ⟨_, rfl⟩

set_option maxRecDepth 100000 in
/-- C15 (the code at the failing input): a 1-byte read at offset `2^63 - 1` of the
128-byte Config zone lies beyond the zone, but the `int` sum `offset+len(data)` of the
range check of `readBytesZone` wraps to `-2^63`, the check passes, and a Read command
for word 7 of block 255 (address `0x07FF`) is sent: the transport is woken, written to
and read, and `(1, nil)` is returned with the byte the device answered.  Where the sum
does not overflow, `readBytesZone` rejects every range beyond `getZoneSize(zone, slot)`,
and `writeBytesZone`, whose offset is a `uint8`, rejects every such range, both leaving
the world as it was: no packet is handed to `executeResponse`, so no call is made on
the transport.  Offset 120 with length 16 on the Config zone fails; offset 96 with
length 32 passes the validation and enters the loop. -/
theorem readBytesZone_range_check_wraps {σ : Type} (X : Executor σ) (E : Env σ)
    (fuel zone slot : Nat) (offR : Int) (offW : Nat) (data : List Nat) (w : World σ)
    (wd : World (Dev σ)) (size : Int) :
    getZoneSize ZoneConfig 0 = .ok 128 ∧
    (9223372036854775807 : Int) = 2 ^ 63 - 1 ∧
    (9223372036854775807 : Int) + (([0xFF] : List Nat).length : Int) > 128 ∧
    wrapInt (9223372036854775807 + (([0xFF] : List Nat).length : Int)) = -2 ^ 63 ∧
    (∀ mem : Nat → Nat,
      readBytesZone (memExec mem) 2 ZoneConfig 0 9223372036854775807 [0xFF] ⟨(), []⟩
        = (.ret (1, none, [mem 8191]), ⟨(), [⟨atcaRead, 0x00, 0x07FF, []⟩]⟩)) ∧
    (readBytesZone (executeResponse (replyEnv [0x07, 0x30, 0x00, 0x00, 0x00, 0x03, 0x5D]))
        2 ZoneConfig 0 9223372036854775807 [0xFF] ⟨freshDev, []⟩).1
      = .ret (1, none, [0x00]) ∧
    (readBytesZone (executeResponse (replyEnv [0x07, 0x30, 0x00, 0x00, 0x00, 0x03, 0x5D]))
        2 ZoneConfig 0 9223372036854775807 [0xFF] ⟨freshDev, []⟩).2.dev.calls
      = [HalCall.Wake, HalCall.Write [0x07, 0x02, 0x00, 0xFF, 0x07, 0x52, 0x2D],
         HalCall.Read 7, HalCall.Idle] ∧
    (getZoneSize zone slot = .ok size → data ≠ [] →
      (-2 ^ 63 ≤ offR → offR + data.length < 2 ^ 63 → offR + data.length > size →
        (∃ e, readBytesZone X fuel zone slot offR data w = (.ret (0, some e, data), w)) ∧
        (readBytesZone (executeResponse E) fuel zone slot offR data wd).2.dev.calls
          = wd.dev.calls) ∧
      ((offW : Int) + data.length > size →
        (∃ e, writeBytesZone X fuel zone slot offW data w = (.ret (0, some e), w)) ∧
        (writeBytesZone (executeResponse E) fuel zone slot offW data wd).2.dev.calls
          = wd.dev.calls)) ∧
    (∃ e, readBytesZone X fuel ZoneConfig slot 120 (List.replicate 16 0) w
        = (.ret (0, some e, List.replicate 16 0), w)) ∧
    (∃ e, writeBytesZone X fuel ZoneConfig slot 120 (List.replicate 16 0) w
        = (.ret (0, some e), w)) ∧
    readBytesZone X fuel ZoneConfig slot 96 (List.replicate 32 0) w
      = readBytesLoop X ZoneConfig slot 96 128 fuel (List.replicate 32 0) 32 3 0 0
          (List.replicate 32 0) w ∧
    writeBytesZone X fuel ZoneConfig slot 96 (List.replicate 32 0) w
      = writeBytesLoop X ZoneConfig slot (List.replicate 32 0) fuel 3 0 0 w := by
  refine ⟨rfl, by norm_num, by decide, by decide, fun _ => by rfl, by rfl, by rfl, ?_, ?_, ?_,
    ?_, ?_⟩
  · intro hzs hne
    refine ⟨?_, ?_⟩
    · intro hlo hhi h
      refine ⟨⟨_, readBytesZone_range_error X fuel zone slot offR data w size hzs hne hlo hhi
        h⟩, ?_⟩
      rw [readBytesZone_range_error (executeResponse E) fuel zone slot offR data wd size hzs
        hne hlo hhi h]
    · intro h
      refine ⟨writeBytesZone_range_error X fuel zone slot offW data w size hzs hne h, ?_⟩
      obtain ⟨e, he⟩ := writeBytesZone_range_error (executeResponse E) fuel zone slot offW
        data wd size hzs hne h
      rw [he]
  · exact ⟨_, readBytesZone_range_error X fuel ZoneConfig slot 120 _ w 128 rfl (by simp)
      (by norm_num) (by simp) (by simp)⟩
  · exact writeBytesZone_range_error X fuel ZoneConfig slot 120 _ w 128 rfl (by simp) (by simp)
  · rfl
  · rfl

/-- C16 (the code at the failing input): a 72-byte read at offset 0 of Data slot 8, whose
size is 416, is refused by the range validation of `readBytesZone`, which takes the zone
size of slot 0 (36); nothing is read from the device.  `writeBytesZone`, which takes the
size of the addressed slot, lets the same range through. -/
theorem readBytesZone_ignores_slot_size {σ : Type} (X : Executor σ) (fuel : Nat)
    (w : World σ) :
    getZoneSize ZoneData 8 = .ok 416 ∧
    readBytesZone X fuel ZoneData 8 0 (List.replicate 72 0) w
      = (.ret (0, some invalidParameterRecieved, List.replicate 72 0), w) ∧
    writeBytesZone X fuel ZoneData 8 0 (List.replicate 72 0) w
      = writeBytesLoop X ZoneData 8 (List.replicate 72 0) fuel 0 0 0 w := by
  refine ⟨rfl, ?_, rfl⟩
  unfold readBytesZone
  rw [if_neg (by simp)]
  rfl

/-- C19: `readBytesZone` with an empty destination returns `(0, nil)` for every zone,
slot and offset and leaves the world as it was; run on `executeResponse`, the record of
calls on the transport and the session state are unchanged: no wake, write, read or
idle. -/
theorem readBytesZone_empty_no_call {σ : Type} (X : Executor σ) (E : Env σ)
    (fuel zone slot : Nat) (offset : Int) (w : World σ) (wd : World (Dev σ)) :
    readBytesZone X fuel zone slot offset [] w = (.ret (0, none, []), w) ∧
    readBytesZone (executeResponse E) fuel zone slot offset [] wd = (.ret (0, none, []), wd) ∧
    (readBytesZone (executeResponse E) fuel zone slot offset [] wd).2.dev.calls
      = wd.dev.calls ∧
    (readBytesZone (executeResponse E) fuel zone slot offset [] wd).2.dev.state
      = wd.dev.state := by
  have h : ∀ {τ : Type} (Y : Executor τ) (v : World τ),
      readBytesZone Y fuel zone slot offset [] v = (.ret (0, none, []), v) := by
    intro τ Y v
    rfl
  exact ⟨h X w, h _ wd, by rw [h], by rw [h]⟩

/-! ### Zone addressing engine: alignment -/

/-- `writeZone` either fails before anything is sent, with an error that is not an
alignment error, or hands one command to `executeResponse`. -/
theorem writeZone_local_or_issued {σ : Type} (X : Executor σ) (zone slot block word : Nat)
    (chunk : List Nat) (w : World σ) :
    (∃ e, writeZone X zone slot block word chunk w = (.ret (some e), w) ∧
      e ≠ invalidOffset ∧ e ≠ invalidLength) ∨
    ∃ cmd, (writeZone X zone slot block word chunk w).2.issued = w.issued ++ [cmd] := by
  unfold writeZone
  by_cases hl : chunk.length ≠ atcaBlockSize ∧ chunk.length ≠ atcaWordSize
  · left; rw [if_pos hl]
    exact ⟨_, rfl, by decide, by decide⟩
  · rw [if_neg hl]
    rcases ha : getAddr zone slot block word with e | addr
    · left
      refine ⟨e, rfl, ?_⟩
      unfold getAddr at ha
      split at ha
      · cases ha
      · split at ha
        · cases ha
        · injection ha with ha
          subst ha
          exact ⟨by decide, by decide⟩
    · dsimp only [write]
      rcases hc : newWriteCommand zone addr chunk none with e | cmd
      · left
        refine ⟨e, rfl, ?_⟩
        unfold newWriteCommand newPacket at hc
        dsimp only at hc
        repeat' split at hc
        all_goals (cases hc <;> exact ⟨by decide, by decide⟩)
      · right
        refine ⟨cmd, ?_⟩
        simp only [execute, execResponse]
        rcases hx : X cmd [0] w.dev with ⟨out, s⟩
        rcases out with ⟨n, err, r⟩ | _ | _ <;> rfl


/-- The count returned by the loop of `writeBytesZone` is never below the index it
was entered with. -/
theorem writeBytesLoop_index_le {σ : Type} (X : Executor σ) (zone slot : Nat)
    (data : List Nat) :
    ∀ (fuel block word index : Nat) (w w' : World σ) (n : Int) (err : Option Err),
      writeBytesLoop X zone slot data fuel block word index w = (.ret (n, err), w') →
      (index : Int) ≤ n := by
  intro fuel
  induction fuel with
  | zero =>
    intro block word index w w' n err h
    simp [writeBytesLoop] at h
  | succ fuel ih =>
    intro block word index w w' n err h
    by_cases hdone : ¬ index < data.length
    · rw [writeBytesLoop_done X zone slot data fuel block word index w hdone] at h
      injection h with h1 _
      injection h1 with h1
      injection h1 with h1 _
      omega
    · have h1 : index < data.length := not_not.mp hdone
      by_cases hblk : (word = 0 ∧ index + 32 ≤ data.length) ∧
          ¬ (zone = ZoneConfig ∧ block = LockOffsetBlock)
      · rw [writeBytesLoop_block_step X zone slot data fuel block word index w hblk.1.1
          hblk.1.2 hblk.2] at h
        rcases hz : writeZone X zone slot block 0 ((data.drop index).take 32) w with ⟨out, w1⟩
        rw [hz] at h
        rcases out with v | _ | _
        · rcases v with _ | e
          · have := ih _ _ _ _ _ _ _ h
            omega
          · injection h with h1 _
            injection h1 with h1
            injection h1 with h1 _
            omega
        · cases h
        · cases h
      · by_cases hlock : zone = ZoneConfig ∧ block = LockOffsetBlock ∧ word = LockOffsetWord
        · rw [writeBytesLoop_skip_step X zone slot data fuel block word index w h1 hlock] at h
          have := ih _ _ _ _ _ _ _ h
          omega
        · by_cases hshort : data.length < index + 4
          · rw [writeBytesLoop_word_short X zone slot data fuel block word index w h1 hshort
              hlock] at h
            cases h
          · have hnb : ¬ (word = 0 ∧ index + 32 ≤ data.length) ∨
                (zone = ZoneConfig ∧ block = LockOffsetBlock) := by
              by_cases hq : word = 0 ∧ index + 32 ≤ data.length
              · right
                exact not_not.mp (fun hn => hblk ⟨hq, hn⟩)
              · left; exact hq
            rw [writeBytesLoop_word_step X zone slot data fuel block word index w (by omega)
              hnb hlock] at h
            rcases hz : writeZone X zone slot block word ((data.drop index).take 4) w
              with ⟨out, w1⟩
            rw [hz] at h
            rcases out with v | _ | _
            · rcases v with _ | e
              · dsimp only at h
                by_cases h8 : (word + 1) % 256 = 8
                · rw [if_pos h8] at h
                  have := ih _ _ _ _ _ _ _ h
                  omega
                · rw [if_neg h8] at h
                  have := ih _ _ _ _ _ _ _ h
                  omega
              · injection h with h1 _
                injection h1 with h1
                injection h1 with h1 _
                omega
            · cases h
            · cases h


theorem not_rejected_of_index_pos {σ : Type} (r : Outcome (Int × Option Err) × World σ)
    (w : World σ) (h : ∀ n err w', r = (.ret (n, err), w') → (1 : Int) ≤ n) :
    ¬ RejectedForMisalignment r w := by
  rintro (hr | hr)
  · have := h _ _ _ hr; omega
  · have := h _ _ _ hr; omega

theorem not_rejected_of_writeZone {σ : Type} (X : Executor σ) (zone slot block word : Nat)
    (chunk : List Nat) (w : World σ) (n : Int)
    (next : World σ → Outcome (Int × Option Err) × World σ)
    (hnext : ∀ w1, ¬ RejectedForMisalignment (next w1) w) :
    ¬ RejectedForMisalignment
      (match writeZone X zone slot block word chunk w with
        | (.panicked, w) => (.panicked, w)
        | (.outOfFuel, w) => (.outOfFuel, w)
        | (.ret (some e), w) => (.ret (n, some e), w)
        | (.ret none, w) => next w) w := by
  rcases writeZone_local_or_issued X zone slot block word chunk w with
    ⟨e, he, h1, h2⟩ | ⟨cmd, hcmd⟩
  · rw [he]
    rintro (hr | hr)
    · injection hr with hr _
      injection hr with hr
      injection hr with _ hr
      injection hr with hr
      exact h1 hr
    · injection hr with hr _
      injection hr with hr
      injection hr with _ hr
      injection hr with hr
      exact h2 hr
  · rcases hz : writeZone X zone slot block word chunk w with ⟨out, w1⟩
    rw [hz] at hcmd
    have hw : w1 ≠ w := by
      intro h
      rw [h] at hcmd
      have := congrArg List.length hcmd
      simp at this
    rcases out with v | _ | _
    · rcases v with _ | e
      · exact hnext w1
      · rintro (hr | hr)
        · injection hr with _ hr
          exact hw hr
        · injection hr with _ hr
          exact hw hr
    · rintro (hr | hr)
      · injection hr with hr _
        cases hr
      · injection hr with hr _
        cases hr
    · rintro (hr | hr)
      · injection hr with hr _
        cases hr
      · injection hr with hr _
        cases hr

/-- Entered at index 0 with a non-empty word-aligned request, the loop of `writeBytesZone`
never ends in what a rejection for misalignment looks like. -/
theorem writeBytesLoop_not_rejected {σ : Type} (X : Executor σ) (zone slot : Nat)
    (data : List Nat) (fuel block word : Nat) (w : World σ)
    (hne : 0 < data.length) (h4 : data.length % 4 = 0) :
    ¬ RejectedForMisalignment (writeBytesLoop X zone slot data fuel block word 0 w) w := by
  cases fuel with
  | zero =>
    rintro (hr | hr) <;> simp [writeBytesLoop] at hr
  | succ fuel =>
    have hpos : ∀ (b' w' i' : Nat) (w1 : World σ), 1 ≤ i' →
        ¬ RejectedForMisalignment (writeBytesLoop X zone slot data fuel b' w' i' w1) w := by
      intro b' w' i' w1 hi
      apply not_rejected_of_index_pos
      intro n err w2 h
      have := writeBytesLoop_index_le X zone slot data fuel b' w' i' w1 w2 n err h
      omega
    by_cases hblk : (word = 0 ∧ 0 + 32 ≤ data.length) ∧
        ¬ (zone = ZoneConfig ∧ block = LockOffsetBlock)
    · rw [writeBytesLoop_block_step X zone slot data fuel block word 0 w hblk.1.1
        hblk.1.2 hblk.2]
      exact not_rejected_of_writeZone X zone slot block 0 _ w _ _
        (fun w1 => hpos _ _ _ w1 (by omega))
    · by_cases hlock : zone = ZoneConfig ∧ block = LockOffsetBlock ∧ word = LockOffsetWord
      · rw [writeBytesLoop_skip_step X zone slot data fuel block word 0 w hne hlock]
        exact hpos _ _ _ w (by omega)
      · have hnb : ¬ (word = 0 ∧ 0 + 32 ≤ data.length) ∨
            (zone = ZoneConfig ∧ block = LockOffsetBlock) := by
          by_cases hq : word = 0 ∧ 0 + 32 ≤ data.length
          · right
            exact not_not.mp (fun hn => hblk ⟨hq, hn⟩)
          · left; exact hq
        rw [writeBytesLoop_word_step X zone slot data fuel block word 0 w (by omega) hnb hlock]
        apply not_rejected_of_writeZone X zone slot block word _ w _
          (fun w1 => if (word + 1) % 256 = 8 then
            writeBytesLoop X zone slot data fuel ((block + 1) % 256) 0 (0 + 4) w1
          else writeBytesLoop X zone slot data fuel block ((word + 1) % 256) (0 + 4) w1)
        intro w1
        by_cases h8 : (word + 1) % 256 = 8
        · rw [if_pos h8]
          exact hpos _ _ _ w1 (by omega)
        · rw [if_neg h8]
          exact hpos _ _ _ w1 (by omega)

/-- C17: `writeBytesZone` with non-empty data and a misaligned offset or length returns
an error and leaves the world as it was (nothing is handed to `executeResponse`, no call
on the transport).  When the slot check passes, the result is a rejection for
misalignment if and only if `offset` is not a multiple of 4 or `len(data)` is not a
multiple of 4; a word-aligned request that is not a multiple of 32 (offset 4, length 4)
is not rejected and enters the loop at block 0, word 1. -/
theorem writeBytesZone_misalignment_iff {σ : Type} (X : Executor σ) (fuel zone slot : Nat)
    (offset : Nat) (data : List Nat) (w : World σ) (hne : data ≠ []) :
    ((offset % 4 ≠ 0 ∨ data.length % 4 ≠ 0) →
      ∃ e, writeBytesZone X fuel zone slot offset data w = (.ret (0, some e), w)) ∧
    (¬ (zone = ZoneData ∧ slot > 15) →
      (RejectedForMisalignment (writeBytesZone X fuel zone slot offset data w) w ↔
        (offset % 4 ≠ 0 ∨ data.length % 4 ≠ 0))) ∧
    (∀ a b c d : Nat,
      ¬ RejectedForMisalignment (writeBytesZone X fuel ZoneConfig slot 4 [a, b, c, d] w) w ∧
      writeBytesZone X fuel ZoneConfig slot 4 [a, b, c, d] w
        = writeBytesLoop X ZoneConfig slot [a, b, c, d] fuel 0 1 0 w) := by
  have hlen0 : data.length ≠ 0 := fun h => hne (List.length_eq_zero.mp h)
  have main : ∀ (zone' offset' : Nat) (data' : List Nat), data'.length ≠ 0 →
      ¬ (zone' = ZoneData ∧ slot > 15) →
      (RejectedForMisalignment (writeBytesZone X fuel zone' slot offset' data' w) w ↔
        (offset' % 4 ≠ 0 ∨ data'.length % 4 ≠ 0)) := by
    intro zone' offset' data' hl0 hslot
    unfold writeBytesZone
    rw [if_neg hslot, if_neg hl0]
    by_cases h2 : offset' % atcaWordSize ≠ 0
    · rw [if_pos h2]
      exact ⟨fun _ => Or.inl h2, fun _ => Or.inl rfl⟩
    · rw [if_neg h2]
      by_cases h3 : data'.length % atcaWordSize ≠ 0
      · rw [if_pos h3]
        exact ⟨fun _ => Or.inr h3, fun _ => Or.inr rfl⟩
      · rw [if_neg h3]
        simp only [atcaWordSize] at h2 h3
        constructor
        · intro hr
          exfalso
          revert hr
          rcases hz : getZoneSize zone' slot with e | zs
          · dsimp only
            have he : e ≠ invalidOffset ∧ e ≠ invalidLength := by
              unfold getZoneSize at hz
              repeat' split at hz
              all_goals (cases hz <;> exact ⟨by decide, by decide⟩)
            rintro (hr | hr)
            · injection hr with hr _
              injection hr with hr
              injection hr with _ hr
              injection hr with hr
              exact he.1 hr
            · injection hr with hr _
              injection hr with hr
              injection hr with _ hr
              injection hr with hr
              exact he.2 hr
          · dsimp only
            split
            · rintro (hr | hr)
              · injection hr with hr _
                injection hr with hr
                injection hr with _ hr
                injection hr with hr
                cases hr
              · injection hr with hr _
                injection hr with hr
                injection hr with _ hr
                injection hr with hr
                cases hr
            · exact writeBytesLoop_not_rejected X zone' slot data' fuel _ _ w (by omega)
                (by omega)
        · intro h
          omega
  refine ⟨?_, main zone offset data hlen0, ?_⟩
  · intro hmis
    unfold writeBytesZone
    by_cases h1 : zone = ZoneData ∧ slot > 15
    · rw [if_pos h1]; exact ⟨_, rfl⟩
    · rw [if_neg h1, if_neg hlen0]
      by_cases h2 : offset % atcaWordSize ≠ 0
      · rw [if_pos h2]; exact ⟨_, rfl⟩
      · rw [if_neg h2]
        have h3 : data.length % atcaWordSize ≠ 0 := by
          simp only [atcaWordSize] at h2 ⊢
          omega
        rw [if_pos h3]; exact ⟨_, rfl⟩
  · intro a b c d
    constructor
    · have hz : ¬ (ZoneConfig = ZoneData ∧ slot > 15) := by
        rintro ⟨h, _⟩
        exact absurd h (by decide)
      rw [main ZoneConfig 4 [a, b, c, d] (by simp) hz]
      simp
    · simp [writeBytesZone, getZoneSize, ZoneConfig, ZoneData, atcaWordSize, atcaBlockSize,
        zoneSizeConfig]

theorem writeBytesZone_misalignment_iff_witness :
    (∃ e, writeBytesZone acceptAll 3 ZoneConfig 0 2 [1, 2, 3, 4] ⟨(), []⟩
      = (.ret (0, some e), ⟨(), []⟩)) ∧
    (RejectedForMisalignment (writeBytesZone acceptAll 3 ZoneConfig 0 2 [1, 2, 3, 4] ⟨(), []⟩)
        ⟨(), []⟩ ↔
      ((2 : Nat) % 4 ≠ 0 ∨ ([1, 2, 3, 4] : List Nat).length % 4 ≠ 0)) :=
  ⟨(writeBytesZone_misalignment_iff acceptAll 3 ZoneConfig 0 2 [1, 2, 3, 4] ⟨(), []⟩
      (by simp)).1 (Or.inl (by decide)),
    (writeBytesZone_misalignment_iff acceptAll 3 ZoneConfig 0 2 [1, 2, 3, 4] ⟨(), []⟩
      (by simp)).2.1 (by decide)⟩

/-! ### Zone addressing engine: the exported write -/

/-- A word-aligned request inside the zone, to a device that accepts every command, is
written completely. -/
theorem writeBytesZone_accept_ret {σ : Type} (X : Executor σ) (hX : Accepts X)
    (fuel zone slot offset : Nat) (data : List Nat) (w : World σ) (zoneSize : Int)
    (hzs : getZoneSize zone slot = .ok zoneSize) (hne : data ≠ [])
    (ho : offset % 4 = 0) (hl : data.length % 4 = 0)
    (hfit : (offset : Int) + data.length ≤ zoneSize) (hfuel : data.length < 4 * fuel) :
    ∃ w', writeBytesZone X fuel zone slot offset data w
      = (.ret ((data.length : Int), none), w') := by
  obtain ⟨hz, hsz, hslot⟩ := getZoneSize_ok zone slot zoneSize hzs
  have hlen0 : data.length ≠ 0 := fun h => hne (List.length_eq_zero.mp h)
  unfold writeBytesZone
  rw [if_neg (by intro h; have := hslot h.1; omega), if_neg hlen0,
    if_neg (by simp only [atcaWordSize]; omega), if_neg (by simp only [atcaWordSize]; omega), hzs]
  simp only []
  rw [if_neg (by omega)]
  obtain ⟨_, _, w', h, _⟩ := writeBytesLoop_accept_cover X hX zone slot offset data hz hl
    (by omega) fuel (offset / atcaBlockSize) (offset % atcaBlockSize / atcaWordSize) 0 w
    (by simp only [atcaBlockSize, atcaWordSize]; omega)
    (by simp only [atcaBlockSize, atcaWordSize]; omega) (by decide) (by omega) (by omega)
  exact ⟨w', h⟩

/-- C18 (the code at the failing input): a 4-byte write at offset 4 of the Config zone
has an offset and a length that are not multiples of 32, and `WriteBytesZone` does not
fail: it issues one Write command, the 4-byte write of word 1 of block 0, and, the
device accepting it, returns nil. -/
theorem WriteBytesZone_accepts_non_multiple_of_32 :
    (4 : Nat) % 32 ≠ 0 ∧ ([1, 2, 3, 4] : List Nat).length % 32 ≠ 0 ∧
    (WriteBytesZone acceptAll 2 ZoneConfig 0 4 [1, 2, 3, 4] ⟨(), []⟩).1 = .ret none ∧
    (WriteBytesZone acceptAll 2 ZoneConfig 0 4 [1, 2, 3, 4] ⟨(), []⟩).2.issued.length = 1 := by
  refine ⟨by decide, by decide, ?_, ?_⟩
  · rfl
  · rfl

/-- What `WriteBytesZone` enforces: it returns an error, and sends nothing, whenever
`data` is non-empty and `offset` or `len(data)` is not a multiple of 4, the word size;
when both are multiples of 4, the range lies inside the zone and the device accepts
every command, it returns nil. -/
theorem WriteBytesZone_word_multiples {σ : Type} (X : Executor σ) (fuel zone slot : Nat)
    (offset : Nat) (data : List Nat) (w : World σ) (hne : data ≠ []) :
    ((offset % 4 ≠ 0 ∨ data.length % 4 ≠ 0) →
      ∃ e, WriteBytesZone X fuel zone slot offset data w = (.ret (some e), w)) ∧
    (∀ zoneSize : Int, Accepts X → getZoneSize zone slot = .ok zoneSize →
      offset % 4 = 0 → data.length % 4 = 0 → (offset : Int) + data.length ≤ zoneSize →
      data.length < 4 * fuel →
      (WriteBytesZone X fuel zone slot offset data w).1 = .ret none) := by
  have hlen0 : data.length ≠ 0 := fun h => hne (List.length_eq_zero.mp h)
  constructor
  · intro hmis
    unfold WriteBytesZone writeBytesZone
    by_cases h1 : zone = ZoneData ∧ slot > 15
    · rw [if_pos h1]; exact ⟨_, rfl⟩
    · rw [if_neg h1, if_neg hlen0]
      by_cases h2 : offset % atcaWordSize ≠ 0
      · rw [if_pos h2]; exact ⟨_, rfl⟩
      · rw [if_neg h2]
        have h3 : data.length % atcaWordSize ≠ 0 := by
          simp only [atcaWordSize] at h2 ⊢
          omega
        rw [if_pos h3]; exact ⟨_, rfl⟩
  · intro zoneSize hX hzs ho hl hfit hfuel
    obtain ⟨w', h⟩ := writeBytesZone_accept_ret X hX fuel zone slot offset data w zoneSize
      hzs hne ho hl hfit hfuel
    unfold WriteBytesZone
    rw [h]

theorem WriteBytesZone_word_multiples_witness :
    (∃ e, WriteBytesZone acceptAll 2 ZoneConfig 0 34 [1, 2, 3, 4] ⟨(), []⟩
      = (.ret (some e), ⟨(), []⟩)) ∧
    (WriteBytesZone acceptAll 2 ZoneConfig 0 36 [1, 2, 3, 4] ⟨(), []⟩).1 = .ret none :=
  ⟨(WriteBytesZone_word_multiples acceptAll 2 ZoneConfig 0 34 [1, 2, 3, 4] ⟨(), []⟩
      (by simp)).1 (Or.inl (by decide)),
    (WriteBytesZone_word_multiples acceptAll 2 ZoneConfig 0 36 [1, 2, 3, 4] ⟨(), []⟩
      (by simp)).2 128 acceptAll_accepts rfl (by decide) (by decide) (by decide) (by decide)⟩

/-! ### Packet codec: the size limit -/

/-- C21: `newPacket(opcode, param1, param2, data)` returns an error if and only if
`len(data) > 151`; otherwise it returns the packet holding exactly the given opcode,
param1, param2 and data. -/
theorem newPacket_error_iff (opcode param1 param2 : Nat) (data : List Nat) :
    ((∃ e, newPacket opcode param1 param2 data = .error e) ↔ data.length > 151) ∧
    (¬ data.length > 151 →
      newPacket opcode param1 param2 data = .ok ⟨opcode, param1, param2, data⟩) ∧
    atcaCmdSizeMax = 151 := by
  unfold newPacket atcaCmdSizeMax
  refine ⟨?_, ?_, rfl⟩
  · by_cases h : data.length > 4 * 36 + 7
    · rw [if_pos h]
      exact ⟨fun _ => h, fun _ => ⟨_, rfl⟩⟩
    · rw [if_neg h]
      constructor
      · rintro ⟨e, he⟩; cases he
      · intro h'; exact absurd h' h
  · intro h
    rw [if_neg h]

theorem newPacket_error_iff_witness :
    newPacket 0x12 0x80 0x0010 (List.replicate 64 0)
      = .ok ⟨0x12, 0x80, 0x0010, List.replicate 64 0⟩ :=
  (newPacket_error_iff 0x12 0x80 0x0010 (List.replicate 64 0)).2.1 (by decide)

/-! ### Session engine: transmission attempts that all fail -/

theorem sendAttempts_zero_succ (b : List Nat) (m : Nat) :
    HalCall.Write b :: sendAttempts b 0 m = sendAttempts b 0 (m + 1) := by
  simp [sendAttempts, List.replicate_succ]

theorem sendAttempts_count (b : List Nat) (k m : Nat) :
    (sendAttempts b k m).count (HalCall.Write b) = k + m := by
  induction k with
  | zero => simp [sendAttempts]
  | succ k ih =>
    simp only [sendAttempts]
    rw [List.count_cons_of_ne (by simp), List.count_cons_self, ih]
    omega

theorem sendAttempts_mem (b : List Nat) (k m : Nat) :
    ∀ c ∈ sendAttempts b k m, c = HalCall.Wake ∨ c = HalCall.Write b := by
  induction k with
  | zero =>
    intro c hc
    simp only [sendAttempts] at hc
    exact Or.inr (List.eq_of_mem_replicate hc)
  | succ k ih =>
    intro c hc
    simp only [sendAttempts, List.mem_cons] at hc
    rcases hc with h | h | h
    · exact Or.inl h
    · exact Or.inr h
    · exact ih c h

/-- The transmission loop when no write is accepted and the context is never cancelled:
it runs all its iterations; the first `k` wake before writing, the others do not. -/
theorem sendLoop_all_writes_fail {σ : Type} (E : Env σ) (b : List Nat)
    (hctx : ∀ t s, (E.ctxDone t s).1 = none)
    (hw : ∀ s, (E.hal.Write b s).1.2 ≠ none) :
    ∀ (n : Nat) (err : Option Err) (d : Dev σ),
      ∃ (k : Nat) (e : Err) (dn : Dev σ),
        sendLoop E b (n + 1) err d = (.fellThrough (some e), dn) ∧
        k ≤ n + 1 ∧
        dn.calls = d.calls ++ sendAttempts b k (n + 1 - k) ∧
        (d.state = deviceStateActive → k = 0) ∧
        (d.state ≠ deviceStateActive → 1 ≤ k) ∧
        (k < n + 1 → dn.state = deviceStateActive) ∧
        ((∀ s, (E.hal.Wake s).1 ≠ none) →
          dn.state = d.state ∧ (d.state ≠ deviceStateActive → k = n + 1)) ∧
        dn.cfg = d.cfg ∧
        (∃ s m s', E.hal.Write b s = ((m, some e), s') ∧
          dn.env = (E.ctxDone d.cfg.WakeDelay s').2) := by
  intro n
  induction n with
  | zero =>
    intro err d
    rw [sendLoop]
    by_cases hst : d.state ≠ deviceStateActive
    · rw [if_pos hst]
      rcases hwk : E.hal.Wake d.env with ⟨we, s1⟩
      dsimp only
      rcases hwr : E.hal.Write b s1 with ⟨⟨m, e⟩, s2⟩
      have hne := hw s1
      rw [hwr] at hne
      rcases e with _ | e
      · exact absurd rfl hne
      · rcases hcd : E.ctxDone d.cfg.WakeDelay s2 with ⟨ce, s3⟩
        have hc := hctx d.cfg.WakeDelay s2
        rw [hcd] at hc
        dsimp only at hc
        subst hc
        by_cases hwe : we = none
        · subst hwe
          simp only [if_true, hwr, hcd, sendLoop]
          refine ⟨1, e, _, rfl, by omega, by simp [sendAttempts], fun h => absurd h hst,
            fun _ => by omega, fun h => by omega, ?_, rfl, ⟨s1, m, s2, hwr, by simp [hcd]⟩⟩
          intro hall
          have := hall d.env
          rw [hwk] at this
          exact absurd rfl this
        · simp only [if_neg hwe, hwr, hcd, sendLoop]
          refine ⟨1, e, _, rfl, by omega, by simp [sendAttempts], fun h => absurd h hst,
            fun _ => by omega, fun h => by omega, ?_, rfl, ⟨s1, m, s2, hwr, by simp [hcd]⟩⟩
          intro _
          exact ⟨rfl, fun _ => rfl⟩
    · rw [if_neg hst]
      have hact : d.state = deviceStateActive := not_not.mp hst
      dsimp only
      rcases hwr : E.hal.Write b d.env with ⟨⟨m, e⟩, s2⟩
      have hne := hw d.env
      rw [hwr] at hne
      rcases e with _ | e
      · exact absurd rfl hne
      · rcases hcd : E.ctxDone d.cfg.WakeDelay s2 with ⟨ce, s3⟩
        have hc := hctx d.cfg.WakeDelay s2
        rw [hcd] at hc
        dsimp only at hc
        subst hc
        simp only [hwr, hcd, sendLoop]
        refine ⟨0, e, _, rfl, by omega, by simp [sendAttempts], fun _ => rfl,
          fun h => absurd hact h, fun _ => hact, ?_, rfl, ⟨d.env, m, s2, hwr, by simp [hcd]⟩⟩
        intro _
        exact ⟨rfl, fun h => absurd hact h⟩
  | succ n ih =>
    intro err d
    rw [sendLoop]
    by_cases hst : d.state ≠ deviceStateActive
    · rw [if_pos hst]
      rcases hwk : E.hal.Wake d.env with ⟨we, s1⟩
      dsimp only
      rcases hwr : E.hal.Write b s1 with ⟨⟨m, e⟩, s2⟩
      have hne := hw s1
      rw [hwr] at hne
      rcases e with _ | e
      · exact absurd rfl hne
      · rcases hcd : E.ctxDone d.cfg.WakeDelay s2 with ⟨ce, s3⟩
        have hc := hctx d.cfg.WakeDelay s2
        rw [hcd] at hc
        dsimp only at hc
        subst hc
        by_cases hwe : we = none
        · subst hwe
          simp only [if_true, hwr, hcd]
          obtain ⟨k, e', dn, hs, hk, hcalls, hka, hkn, hkst, hall, hcfg, hlast⟩ := ih (some e)
            { env := s3, state := deviceStateActive, cfg := d.cfg,
              clockDivider := d.clockDivider,
              calls := d.calls ++ [HalCall.Wake] ++ [HalCall.Write b] }
          have hk0 : k = 0 := hka rfl
          subst hk0
          refine ⟨1, e', dn, hs, by omega, ?_, fun h => absurd h hst, fun _ => by omega,
            fun _ => hkst (by omega), ?_, hcfg, hlast⟩
          · rw [hcalls]
            simp [sendAttempts]
          · intro hall'
            have := hall' d.env
            rw [hwk] at this
            exact absurd rfl this
        · simp only [if_neg hwe, hwr, hcd]
          obtain ⟨k, e', dn, hs, hk, hcalls, hka, hkn, hkst, hall, hcfg, hlast⟩ := ih (some e)
            { env := s3, state := d.state, cfg := d.cfg,
              clockDivider := d.clockDivider,
              calls := d.calls ++ [HalCall.Wake] ++ [HalCall.Write b] }
          have hk1 : 1 ≤ k := hkn hst
          refine ⟨k + 1, e', dn, hs, by omega, ?_, fun h => absurd h hst, fun _ => by omega,
            fun h => hkst (by omega), ?_, hcfg, hlast⟩
          · rw [hcalls]
            have : n + 1 + 1 - (k + 1) = n + 1 - k := by omega
            rw [this]
            simp [sendAttempts]
          · intro hall'
            obtain ⟨h1, h2⟩ := hall hall'
            exact ⟨h1, fun _ => by have := h2 hst; omega⟩
    · rw [if_neg hst]
      have hact : d.state = deviceStateActive := not_not.mp hst
      dsimp only
      rcases hwr : E.hal.Write b d.env with ⟨⟨m, e⟩, s2⟩
      have hne := hw d.env
      rw [hwr] at hne
      rcases e with _ | e
      · exact absurd rfl hne
      · rcases hcd : E.ctxDone d.cfg.WakeDelay s2 with ⟨ce, s3⟩
        have hc := hctx d.cfg.WakeDelay s2
        rw [hcd] at hc
        dsimp only at hc
        subst hc
        simp only [hwr, hcd]
        obtain ⟨k, e', dn, hs, hk, hcalls, hka, hkn, hkst, hall, hcfg, hlast⟩ := ih (some e)
          { env := s3, state := d.state, cfg := d.cfg,
            clockDivider := d.clockDivider,
            calls := d.calls ++ [HalCall.Write b] }
        have hk0 : k = 0 := hka hact
        subst hk0
        refine ⟨0, e', dn, hs, by omega, ?_, fun _ => rfl, fun h => absurd hact h,
          fun _ => by rw [← hact]; exact (hkst (by omega)).trans hact.symm ▸ rfl, ?_, hcfg, hlast⟩
        · rw [hcalls]
          simp only [List.append_assoc, List.singleton_append, Nat.sub_zero]
          rw [sendAttempts_zero_succ]
        · intro hall'
          exact ⟨(hall hall').1, fun h => absurd hact h⟩

/-- The transmission loop leaves the session state Active or as it was; it stays as it
was when no wake succeeds and no write is accepted. -/
theorem sendLoop_state {σ : Type} (E : Env σ) (b : List Nat) :
    ∀ (n : Nat) (err : Option Err) (d : Dev σ),
      ((sendLoop E b n err d).2.state = deviceStateActive ∨
        (sendLoop E b n err d).2.state = d.state) ∧
      (d.state = deviceStateActive → (sendLoop E b n err d).2.state = deviceStateActive) ∧
      ((∀ s, (E.hal.Wake s).1 ≠ none) → (sendLoop E b n err d).1 ≠ .fellThrough none →
        (sendLoop E b n err d).2.state = d.state) ∧
      ((∀ s, (E.hal.Wake s).1 = none) → 0 < n →
        (sendLoop E b n err d).2.state = deviceStateActive) := by
  intro n
  induction n with
  | zero =>
    intro err d
    simp [sendLoop]
  | succ n ih =>
    intro err d
    rw [sendLoop]
    by_cases hst : d.state ≠ deviceStateActive
    · rw [if_pos hst]
      rcases hwk : E.hal.Wake d.env with ⟨we, s1⟩
      dsimp only
      rcases hwr : E.hal.Write b s1 with ⟨⟨m, e⟩, s2⟩
      by_cases hwe : we = none
      · subst hwe
        simp only [if_true, hwr]
        rcases e with _ | e
        · dsimp only
          refine ⟨Or.inl rfl, fun _ => rfl, fun _ h => absurd rfl h, fun _ _ => rfl⟩
        · dsimp only
          rcases hcd : E.ctxDone d.cfg.WakeDelay s2 with ⟨ce, s3⟩
          rcases ce with _ | ce
          · dsimp only
            obtain ⟨_, h2, _, _⟩ := ih (some e)
              { env := s3, state := deviceStateActive, cfg := d.cfg,
                clockDivider := d.clockDivider,
                calls := d.calls ++ [HalCall.Wake] ++ [HalCall.Write b] }
            have hA := h2 rfl
            refine ⟨Or.inl hA, fun _ => hA, ?_, fun _ _ => hA⟩
            intro hall
            have := hall d.env
            rw [hwk] at this
            exact absurd rfl this
          · dsimp only
            refine ⟨Or.inl rfl, fun _ => rfl, ?_, fun _ _ => rfl⟩
            intro hall
            have := hall d.env
            rw [hwk] at this
            exact absurd rfl this
      · simp only [if_neg hwe, hwr]
        have hnall : ¬ ∀ s, (E.hal.Wake s).1 = none := by
          intro hall
          have := hall d.env
          rw [hwk] at this
          exact hwe this
        rcases e with _ | e
        · dsimp only
          refine ⟨Or.inl rfl, fun _ => rfl, fun _ h => absurd rfl h, fun _ _ => rfl⟩
        · dsimp only
          rcases hcd : E.ctxDone d.cfg.WakeDelay s2 with ⟨ce, s3⟩
          rcases ce with _ | ce
          · dsimp only
            obtain ⟨h1, h2, h3, _⟩ := ih (some e)
              { env := s3, state := d.state, cfg := d.cfg,
                clockDivider := d.clockDivider,
                calls := d.calls ++ [HalCall.Wake] ++ [HalCall.Write b] }
            exact ⟨h1, h2, h3, fun h _ => absurd h hnall⟩
          · dsimp only
            exact ⟨Or.inr rfl, fun h => h, fun _ _ => rfl, fun h _ => absurd h hnall⟩
    · rw [if_neg hst]
      have hact : d.state = deviceStateActive := not_not.mp hst
      dsimp only
      rcases hwr : E.hal.Write b d.env with ⟨⟨m, e⟩, s2⟩
      simp only [hwr]
      rcases e with _ | e
      · refine ⟨Or.inl rfl, fun _ => rfl, fun _ h => absurd rfl h, fun _ _ => rfl⟩
      · dsimp only
        rcases hcd : E.ctxDone d.cfg.WakeDelay s2 with ⟨ce, s3⟩
        rcases ce with _ | ce
        · dsimp only
          obtain ⟨h1, h2, h3, _⟩ := ih (some e)
            { env := s3, state := d.state, cfg := d.cfg,
              clockDivider := d.clockDivider,
              calls := d.calls ++ [HalCall.Write b] }
          exact ⟨h1, h2, h3, fun _ _ => h2 hact⟩
        · dsimp only
          exact ⟨Or.inr rfl, fun h => h, fun _ _ => rfl, fun _ _ => hact⟩

/-- C22: with `RxRetries = r >= 0`, a context that is never cancelled and a transport
that accepts no write of the frame, `executeResponse` returns `(0, err)` where `err` is
the error of the last write (the one after which the final wait was made), and the
calls it makes are exactly `r + 1` attempts: the first `k` wake and then write, the
other `r + 1 - k` only write, with `k = 0` when the state is Active at the start and
`k >= 1` otherwise, wakes stopping once one has made the state Active (`k = r + 1` when
every wake fails).  There are `r + 1` writes, and neither `hal.Read` nor `hal.Idle` is
called. -/
theorem executeResponse_all_writes_fail {σ : Type} (E : Env σ) (p : packet)
    (recv : List Nat) (d : Dev σ) (r : Nat)
    (hr : d.cfg.RxRetries = (r : Int))
    (hctx : ∀ t s, (E.ctxDone t s).1 = none)
    (hw : ∀ s, (E.hal.Write (Encode p).1 s).1.2 ≠ none) :
    ∃ (k : Nat) (e : Err),
      (executeResponse E p recv d).1 = .ret (0, some e, recv) ∧
      (∃ s m s', E.hal.Write (Encode p).1 s = ((m, some e), s') ∧
        (executeResponse E p recv d).2.env = (E.ctxDone d.cfg.WakeDelay s').2) ∧
      k ≤ r + 1 ∧
      (executeResponse E p recv d).2.calls
        = d.calls ++ sendAttempts (Encode p).1 k (r + 1 - k) ∧
      (sendAttempts (Encode p).1 k (r + 1 - k)).count (HalCall.Write (Encode p).1) = r + 1 ∧
      (∀ c ∈ sendAttempts (Encode p).1 k (r + 1 - k),
        c ≠ HalCall.Idle ∧ ∀ len, c ≠ HalCall.Read len) ∧
      (d.state = deviceStateActive → k = 0) ∧
      (d.state ≠ deviceStateActive → 1 ≤ k) ∧
      (k < r + 1 → (executeResponse E p recv d).2.state = deviceStateActive) ∧
      ((∀ s, (E.hal.Wake s).1 ≠ none) →
        (executeResponse E p recv d).2.state = d.state ∧
        (d.state ≠ deviceStateActive → k = r + 1)) := by
  obtain ⟨k, e, dn, hs, hk, hcalls, hka, hkn, hkst, hall, _, hlast⟩ :=
    sendLoop_all_writes_fail E (Encode p).1 hctx hw r none d
  have hn : (d.cfg.RxRetries + 1).toNat = r + 1 := by rw [hr]; omega
  have hex : executeResponse E p recv d = (.ret (0, some e, recv), dn) := by
    unfold executeResponse
    rw [encode_pair p]
    simp only [hn, hs]
  rw [hex]
  refine ⟨k, e, rfl, hlast, hk, hcalls, ?_, ?_, hka, hkn, hkst, hall⟩
  · rw [sendAttempts_count]; omega
  · intro c hc
    rcases sendAttempts_mem _ _ _ c hc with h | h
    · subst h; exact ⟨by simp, by simp⟩
    · subst h; exact ⟨by simp, by simp⟩

theorem executeResponse_all_writes_fail_witness :
    ∃ (k : Nat) (e : Err),
      (executeResponse failEnv infoPacket [0] failDev).1 = .ret (0, some e, [0]) ∧
      (∃ s m s', failEnv.hal.Write (Encode infoPacket).1 s = ((m, some e), s') ∧
        (executeResponse failEnv infoPacket [0] failDev).2.env
          = (failEnv.ctxDone failDev.cfg.WakeDelay s').2) ∧
      k ≤ 2 + 1 ∧
      (executeResponse failEnv infoPacket [0] failDev).2.calls
        = failDev.calls ++ sendAttempts (Encode infoPacket).1 k (2 + 1 - k) ∧
      (sendAttempts (Encode infoPacket).1 k (2 + 1 - k)).count
        (HalCall.Write (Encode infoPacket).1) = 2 + 1 ∧
      (∀ c ∈ sendAttempts (Encode infoPacket).1 k (2 + 1 - k),
        c ≠ HalCall.Idle ∧ ∀ len, c ≠ HalCall.Read len) ∧
      (failDev.state = deviceStateActive → k = 0) ∧
      (failDev.state ≠ deviceStateActive → 1 ≤ k) ∧
      (k < 2 + 1 → (executeResponse failEnv infoPacket [0] failDev).2.state
        = deviceStateActive) ∧
      ((∀ s, (failEnv.hal.Wake s).1 ≠ none) →
        (executeResponse failEnv infoPacket [0] failDev).2.state = failDev.state ∧
        (failDev.state ≠ deviceStateActive → k = 2 + 1)) :=
  executeResponse_all_writes_fail failEnv infoPacket [0] failDev 2 rfl (fun _ _ => rfl)
    (fun _ => by simp [failEnv])


/-! ### Session engine: the state after a command -/

theorem sendLoop_failEnv (b : List Nat) :
    sendLoop failEnv b 3 none failDev
      = (.fellThrough (some (Err.hal 2)),
          { failDev with env := 3, state := deviceStateActive,
                         calls := [HalCall.Wake, HalCall.Write b, HalCall.Write b,
                           HalCall.Write b] }) := by
  simp [sendLoop, failEnv, failDev]

theorem sendLoop_cancelEnv (b : List Nat) :
    sendLoop cancelEnv b 21 none freshDev
      = (.returned (Err.ctx 1),
          { freshDev with calls := [HalCall.Wake, HalCall.Write b] }) := by
  simp [sendLoop, cancelEnv, freshDev]

/-- C23, as stated, fails: when every write is refused (three attempts, the device
woken at the first) `executeResponse` returns the last write error with the session
state Active, and when the context is cancelled after the first refused write it returns
the context error with the state still Unknown; in neither case is the state Idle. -/
theorem executeResponse_state_not_idle_after_send_failure :
    executeResponse failEnv infoPacket [0] failDev
      = (.ret (0, some (Err.hal 2), [0]),
          { failDev with env := 3, state := deviceStateActive,
                         calls := [HalCall.Wake, HalCall.Write (Encode infoPacket).1,
                           HalCall.Write (Encode infoPacket).1,
                           HalCall.Write (Encode infoPacket).1] }) ∧
    (executeResponse failEnv infoPacket [0] failDev).2.state ≠ deviceStateIdle ∧
    executeResponse cancelEnv infoPacket [0] freshDev
      = (.ret (0, some (Err.ctx 1), [0]),
          { freshDev with calls := [HalCall.Wake, HalCall.Write (Encode infoPacket).1] }) ∧
    (executeResponse cancelEnv infoPacket [0] freshDev).2.state ≠ deviceStateIdle := by
  have h1 : executeResponse failEnv infoPacket [0] failDev
      = (.ret (0, some (Err.hal 2), [0]),
          { failDev with env := 3, state := deviceStateActive,
                         calls := [HalCall.Wake, HalCall.Write (Encode infoPacket).1,
                           HalCall.Write (Encode infoPacket).1,
                           HalCall.Write (Encode infoPacket).1] }) := by
    unfold executeResponse
    rw [encode_pair infoPacket]
    have hn : (failDev.cfg.RxRetries + 1).toNat = 3 := by decide
    simp only [hn, sendLoop_failEnv]
  have h2 : executeResponse cancelEnv infoPacket [0] freshDev
      = (.ret (0, some (Err.ctx 1), [0]),
          { freshDev with calls := [HalCall.Wake, HalCall.Write (Encode infoPacket).1] }) := by
    unfold executeResponse
    rw [encode_pair infoPacket]
    have hn : (freshDev.cfg.RxRetries + 1).toNat = 21 := by decide
    simp only [hn, sendLoop_cancelEnv]
  refine ⟨h1, ?_, h2, ?_⟩
  · rw [h1]; decide
  · rw [h2]; decide

/-- C23, amended: after `executeResponse` returns, the session state is Idle whenever the
transmission loop was passed with a nil error, as it is once a `hal.Write` attempt
returned a nil error, whatever happens afterwards.  When every transmission attempt
fails or the context is cancelled between attempts, it returns the error with the
device handle as the loop left it, the calls on the transport being the wakes and
writes of the loop: no cleanup runs, and the state is Active if it was Active or one of
the `hal.Wake` attempts returned a nil error (as the first does when every wake
succeeds and `RxRetries >= 0`), and otherwise what it was before the call (as it is
when every wake fails). -/
theorem executeResponse_state_after {σ : Type} (E : Env σ) (p : packet) (recv : List Nat)
    (d : Dev σ) :
    (∀ d1, sendLoop E (Encode p).1 (d.cfg.RxRetries + 1).toNat none d
        = (.fellThrough none, d1) →
      (executeResponse E p recv d).2.state = deviceStateIdle) ∧
    ((HalCall.Write (Encode p).1, (none : Option Err)) ∈
        sendTrace E (Encode p).1 (d.cfg.RxRetries + 1).toNat d →
      (executeResponse E p recv d).2.state = deviceStateIdle) ∧
    ((sendLoop E (Encode p).1 (d.cfg.RxRetries + 1).toNat none d).1 ≠ .fellThrough none →
      (HalCall.Write (Encode p).1, (none : Option Err)) ∉
        sendTrace E (Encode p).1 (d.cfg.RxRetries + 1).toNat d ∧
      (∃ e, (executeResponse E p recv d).1 = .ret (0, some e, recv)) ∧
      (executeResponse E p recv d).2
        = (sendLoop E (Encode p).1 (d.cfg.RxRetries + 1).toNat none d).2 ∧
      (executeResponse E p recv d).2.calls
        = d.calls ++ (sendTrace E (Encode p).1 (d.cfg.RxRetries + 1).toNat d).map Prod.fst ∧
      (d.state = deviceStateActive ∨
          (HalCall.Wake, (none : Option Err)) ∈
            sendTrace E (Encode p).1 (d.cfg.RxRetries + 1).toNat d →
        (executeResponse E p recv d).2.state = deviceStateActive) ∧
      (¬ (d.state = deviceStateActive ∨
          (HalCall.Wake, (none : Option Err)) ∈
            sendTrace E (Encode p).1 (d.cfg.RxRetries + 1).toNat d) →
        (executeResponse E p recv d).2.state = d.state) ∧
      ((executeResponse E p recv d).2.state = deviceStateActive ∨
        (executeResponse E p recv d).2.state = d.state) ∧
      (d.state = deviceStateActive →
        (executeResponse E p recv d).2.state = deviceStateActive) ∧
      ((∀ s, (E.hal.Wake s).1 = none) → 0 ≤ d.cfg.RxRetries →
        (executeResponse E p recv d).2.state = deviceStateActive) ∧
      ((∀ s, (E.hal.Wake s).1 ≠ none) → (executeResponse E p recv d).2.state = d.state)) := by
  obtain ⟨t1, t2, _, t4⟩ :=
    sendLoop_trace E (Encode p).1 (d.cfg.RxRetries + 1).toNat none d
  have hidle : ∀ d1, sendLoop E (Encode p).1 (d.cfg.RxRetries + 1).toNat none d
      = (.fellThrough none, d1) →
      (executeResponse E p recv d).2.state = deviceStateIdle := by
    intro d1 h
    unfold executeResponse
    rw [encode_pair p]
    simp only [h]
  refine ⟨hidle, ?_, ?_⟩
  · intro hw
    exact hidle _ (Prod.ext (t2 hw).1 rfl)
  · intro hne
    have hnm : (HalCall.Write (Encode p).1, (none : Option Err)) ∉
        sendTrace E (Encode p).1 (d.cfg.RxRetries + 1).toNat d := fun hw => hne (t2 hw).1
    obtain ⟨h1, h2, h3, h4⟩ :=
      sendLoop_state E (Encode p).1 (d.cfg.RxRetries + 1).toNat none d
    have hex : (∃ e, (executeResponse E p recv d).1 = .ret (0, some e, recv)) ∧
        (executeResponse E p recv d).2
          = (sendLoop E (Encode p).1 (d.cfg.RxRetries + 1).toNat none d).2 := by
      rcases hs : sendLoop E (Encode p).1 (d.cfg.RxRetries + 1).toNat none d with ⟨res, dn⟩
      rw [hs] at hne
      unfold executeResponse
      rw [encode_pair p]
      simp only [hs]
      rcases res with err | ce
      · rcases err with _ | e
        · exact absurd rfl hne
        · exact ⟨⟨e, rfl⟩, rfl⟩
      · exact ⟨⟨ce, rfl⟩, rfl⟩
    refine ⟨hnm, hex.1, hex.2, ?_, ?_, ?_, ?_, ?_, ?_, ?_⟩
    · rw [hex.2]; exact t1
    · rw [hex.2]; exact (t4 hnm).1
    · rw [hex.2]; exact (t4 hnm).2
    · rw [hex.2]; exact h1
    · rw [hex.2]; exact h2
    · intro hall hr
      rw [hex.2]
      exact h4 hall (by omega)
    · intro hall
      rw [hex.2]
      exact h3 hall hne

set_option maxRecDepth 100000 in
theorem executeResponse_state_after_witness :
    (executeResponse (replyEnv [4, 0x00, 0x12, 0x34]) infoPacket [0] freshDev).2.state
      = deviceStateIdle ∧
    (executeResponse (retryEnv [4, 0x00, 0x12, 0x34]) infoPacket [0] failDev).2.state
      = deviceStateIdle ∧
    sendTrace lateWakeEnv (Encode infoPacket).1 (failDev.cfg.RxRetries + 1).toNat failDev
      = [(HalCall.Wake, some (Err.hal 9)),
         (HalCall.Write (Encode infoPacket).1, some (Err.hal 0)),
         (HalCall.Wake, none),
         (HalCall.Write (Encode infoPacket).1, some (Err.hal 1)),
         (HalCall.Write (Encode infoPacket).1, some (Err.hal 2))] ∧
    (executeResponse lateWakeEnv infoPacket [0] failDev).2.state = deviceStateActive ∧
    (executeResponse failEnv infoPacket [0] failDev).2.state = deviceStateActive :=
  ⟨(executeResponse_state_after (replyEnv [4, 0x00, 0x12, 0x34]) infoPacket [0] freshDev).1
      (sentDev (Encode infoPacket).1) (sendLoop_replyEnv _ _),
    (executeResponse_state_after (retryEnv [4, 0x00, 0x12, 0x34]) infoPacket [0] failDev).2.1
      (by decide),
    by rfl,
    ((executeResponse_state_after lateWakeEnv infoPacket [0] failDev).2.2
      (by decide)).2.2.2.2.1 (Or.inr (by decide)),
    ((executeResponse_state_after failEnv infoPacket [0] failDev).2.2
      (by
        have hn : (failDev.cfg.RxRetries + 1).toNat = 3 := by decide
        rw [hn, sendLoop_failEnv]
        simp)).2.2.2.2.2.2.2.2.1 (fun _ => rfl) (by decide)⟩

/-! ### Zone addressing engine: the configuration zone as a whole -/

theorem writeCommandFor_opcode (zone slot block word : Nat) (chunk : List Nat) (cmd : packet)
    (h : writeCommandFor zone slot block word chunk = .ok cmd) : cmd.opcode = atcaWrite := by
  unfold writeCommandFor at h
  rcases ha : getAddr zone slot block word with e | addr
  · rw [ha] at h; cases h
  · rw [ha] at h
    dsimp only at h
    unfold newWriteCommand at h
    dsimp only at h
    split at h
    · split at h
      · cases h
      · rw [newPacket_ok_iff] at h
        rw [h.2]
    · split at h
      · rw [newPacket_ok_iff] at h
        rw [h.2]
      · cases h

theorem writeZone_issued_writes {σ : Type} (X : Executor σ) (zone slot block word : Nat)
    (chunk : List Nat) (w : World σ) :
    ∃ new, (writeZone X zone slot block word chunk w).2.issued = w.issued ++ new ∧
      ∀ p ∈ new, p.opcode = atcaWrite := by
  rcases writeZone_issued X zone slot block word chunk w with h | ⟨cmd, hcmd, _, h⟩
  · exact ⟨[], by simpa using h, by simp⟩
  · refine ⟨[cmd], h, ?_⟩
    intro p hp
    simp only [List.mem_singleton] at hp
    subst hp
    exact writeCommandFor_opcode _ _ _ _ _ _ hcmd

/-- Every packet the loop of `writeBytesZone` issues is a Write command. -/
theorem writeBytesLoop_issued_writes {σ : Type} (X : Executor σ) (zone slot : Nat)
    (data : List Nat) :
    ∀ (fuel block word index : Nat) (w : World σ),
      ∃ new, (writeBytesLoop X zone slot data fuel block word index w).2.issued
          = w.issued ++ new ∧ ∀ p ∈ new, p.opcode = atcaWrite := by
  intro fuel
  induction fuel with
  | zero =>
    intro block word index w
    exact ⟨[], by simp [writeBytesLoop], by simp⟩
  | succ fuel ih =>
    intro block word index w
    have hstep : ∀ (b' wd' : Nat) (chunk : List Nat)
        (next : World σ → Outcome (Int × Option Err) × World σ),
        (∀ w1, ∃ new, (next w1).2.issued = w1.issued ++ new ∧
          ∀ p ∈ new, p.opcode = atcaWrite) →
        ∃ new, ((match writeZone X zone slot b' wd' chunk w with
          | (.panicked, w) => (.panicked, w)
          | (.outOfFuel, w) => (.outOfFuel, w)
          | (.ret (some e), w) => (.ret ((index : Int), some e), w)
          | (.ret none, w) => next w) :
            Outcome (Int × Option Err) × World σ).2.issued = w.issued ++ new ∧
          ∀ p ∈ new, p.opcode = atcaWrite := by
      intro b' wd' chunk next hnext
      obtain ⟨new1, hn1, hs1⟩ := writeZone_issued_writes X zone slot b' wd' chunk w
      rcases hz : writeZone X zone slot b' wd' chunk w with ⟨out, w1⟩
      rw [hz] at hn1
      cases out with
      | panicked => exact ⟨new1, hn1, hs1⟩
      | outOfFuel => exact ⟨new1, hn1, hs1⟩
      | ret v =>
        cases v with
        | some e => exact ⟨new1, hn1, hs1⟩
        | none =>
          obtain ⟨new2, hn2, hs2⟩ := hnext w1
          refine ⟨new1 ++ new2, ?_, ?_⟩
          · simp only []
            rw [hn2, hn1, List.append_assoc]
          · intro p hp
            rcases List.mem_append.mp hp with h | h
            · exact hs1 p h
            · exact hs2 p h
    by_cases hdone : ¬ index < data.length
    · rw [writeBytesLoop_done X _ slot data fuel block word index w hdone]
      exact ⟨[], by simp, by simp⟩
    · have h1 : index < data.length := not_not.mp hdone
      by_cases hblk : (word = 0 ∧ index + 32 ≤ data.length) ∧
          ¬ (zone = ZoneConfig ∧ block = LockOffsetBlock)
      · rw [writeBytesLoop_block_step X _ slot data fuel block word index w hblk.1.1 hblk.1.2
          hblk.2]
        exact hstep block 0 _ _ (fun w1 => ih _ _ _ w1)
      · by_cases hlock : zone = ZoneConfig ∧ block = LockOffsetBlock ∧ word = LockOffsetWord
        · rw [writeBytesLoop_skip_step X _ slot data fuel block word index w h1 hlock]
          exact ih block 6 (index + 4) w
        · by_cases hshort : data.length < index + 4
          · rw [writeBytesLoop_word_short X _ slot data fuel block word index w h1 hshort hlock]
            exact ⟨[], by simp, by simp⟩
          · have hnb : ¬ (word = 0 ∧ index + 32 ≤ data.length) ∨
                (zone = ZoneConfig ∧ block = LockOffsetBlock) := by
              by_cases hq : word = 0 ∧ index + 32 ≤ data.length
              · right
                exact not_not.mp (fun hn => hblk ⟨hq, hn⟩)
              · left; exact hq
            rw [writeBytesLoop_word_step X _ slot data fuel block word index w (by omega) hnb
              hlock]
            apply hstep block word _
              (fun w1 => if (word + 1) % 256 = 8 then
                writeBytesLoop X zone slot data fuel ((block + 1) % 256) 0 (index + 4) w1
              else writeBytesLoop X zone slot data fuel block ((word + 1) % 256) (index + 4) w1)
            intro w1
            by_cases h8 : (word + 1) % 256 = 8
            · rw [if_pos h8]; exact ih _ _ _ w1
            · rw [if_neg h8]; exact ih _ _ _ w1

theorem writeBytesZone_issued_writes {σ : Type} (X : Executor σ) (fuel zone slot offset : Nat)
    (data : List Nat) (w : World σ) :
    ∃ new, (writeBytesZone X fuel zone slot offset data w).2.issued = w.issued ++ new ∧
      ∀ p ∈ new, p.opcode = atcaWrite := by
  have hnil : ∀ (r : Outcome (Int × Option Err)),
      ∃ new, ((r, w) : Outcome (Int × Option Err) × World σ).2.issued = w.issued ++ new ∧
        ∀ p ∈ new, p.opcode = atcaWrite := fun _ => ⟨[], by simp, by simp⟩
  unfold writeBytesZone
  split
  · exact hnil _
  · split
    · exact hnil _
    · split
      · exact hnil _
      · split
        · exact hnil _
        · split
          · exact hnil _
          · split
            · exact hnil _
            · exact writeBytesLoop_issued_writes X zone slot data fuel _ _ 0 w

theorem execute_issued {σ : Type} (X : Executor σ) (p : packet) (w : World σ) :
    (execute X p w).2.issued = w.issued ++ [p] := by
  unfold execute execResponse
  rcases X p [0] w.dev with ⟨out, s⟩
  rcases out with ⟨n, err, r⟩ | _ | _ <;> rfl

theorem updateExtra_eq {σ : Type} (X : Executor σ) (mode v : Nat) (w : World σ) :
    updateExtra X mode v w = execute X ⟨atcaUpdateExtra, mode, v, []⟩ w := by
  unfold updateExtra newUpdateExtraCommand newPacket
  rw [if_neg (by simp)]

theorem execute_accept {σ : Type} (X : Executor σ) (hX : Accepts X) (p : packet)
    (w : World σ) :
    ∃ w', execute X p w = (.ret none, w') ∧ w'.issued = w.issued ++ [p] := by
  have hi := execute_issued X p w
  unfold execute execResponse at hi ⊢
  obtain ⟨n, r, s', h⟩ := hX p [0] w.dev
  rw [h] at hi ⊢
  exact ⟨_, rfl, hi⟩

/-- A word-aligned request inside the zone, to a device that accepts every command:
the result and the calls that cover it. -/
theorem writeBytesZone_accept_cover {σ : Type} (X : Executor σ) (hX : Accepts X)
    (fuel zone slot offset : Nat) (data : List Nat) (w : World σ) (zoneSize : Int)
    (hzs : getZoneSize zone slot = .ok zoneSize) (hne : data ≠ [])
    (ho : offset % 4 = 0) (hl : data.length % 4 = 0)
    (hfit : (offset : Int) + data.length ≤ zoneSize) (hfuel : data.length < 4 * fuel) :
    ∃ calls cmds w', writeBytesZone X fuel zone slot offset data w
        = (.ret ((data.length : Int), none), w') ∧
      w'.issued = w.issued ++ cmds ∧
      List.Forall₂ (fun c cmd => writeCommandFor zone slot c.block c.word c.chunk = .ok cmd)
        calls cmds ∧
      WritesCover zone offset data offset calls := by
  obtain ⟨hz, hsz, hslot⟩ := getZoneSize_ok zone slot zoneSize hzs
  have hlen0 : data.length ≠ 0 := fun h => hne (List.length_eq_zero.mp h)
  unfold writeBytesZone
  rw [if_neg (by intro h; have := hslot h.1; omega), if_neg hlen0,
    if_neg (by simp only [atcaWordSize]; omega), if_neg (by simp only [atcaWordSize]; omega), hzs]
  simp only []
  rw [if_neg (by omega)]
  exact writeBytesLoop_accept_cover X hX zone slot offset data hz hl
    (by omega) fuel (offset / atcaBlockSize) (offset % atcaBlockSize / atcaWordSize) 0 w
    (by simp only [atcaBlockSize, atcaWordSize]; omega)
    (by simp only [atcaBlockSize, atcaWordSize]; omega) (by decide) (by omega) (by omega)

theorem writeConfigZone_unfold {σ : Type} (X : Executor σ) (fuel : Nat) (data : List Nat)
    (w : World σ) (hlen : data.length = 128) :
    writeConfigZone X fuel data w =
      match writeBytesZone X fuel ZoneConfig 0 16 (data.drop 16) w with
      | (.panicked, w) => (.panicked, w)
      | (.outOfFuel, w) => (.outOfFuel, w)
      | (.ret (n, some e), w) => (.ret (n, some e), w)
      | (.ret (n, none), w) =>
        match execute X ⟨atcaUpdateExtra, 0x00, data.getD 84 0, []⟩ w with
        | (.panicked, w) => (.panicked, w)
        | (.outOfFuel, w) => (.outOfFuel, w)
        | (.ret (some e), w) => (.ret (n, some e), w)
        | (.ret none, w) =>
          match execute X ⟨atcaUpdateExtra, 0x01, data.getD 85 0, []⟩ w with
          | (.panicked, w) => (.panicked, w)
          | (.outOfFuel, w) => (.outOfFuel, w)
          | (.ret err, w) => (.ret (n, err), w) := by
  have h84 : data.get? 84 = some (data.getD 84 0) := by
    rw [List.getD_eq_getElem?_getD, List.get?_eq_getElem?]
    rw [List.getElem?_eq_getElem (by omega)]
    rfl
  have h85 : data.get? 85 = some (data.getD 85 0) := by
    rw [List.getD_eq_getElem?_getD, List.get?_eq_getElem?]
    rw [List.getElem?_eq_getElem (by omega)]
    rfl
  have hs : goSlice data (PermanentOffset608 : Nat) (data.length : Nat) = some (data.drop 16) := by
    rw [goSlice_from data PermanentOffset608 (by rw [hlen]; decide)]
    rfl
  unfold writeConfigZone
  rw [if_neg (by rw [hlen]; decide), hs]
  simp only [h84, h85, updateExtra_eq, updateModeUserExtra, updateModeUserExtraAdd,
    PermanentOffset608]

/-- C28: for 128-byte data, `writeConfigZone`
(1) against a device that accepts every command returns `(112, nil)` and issues, in this
order, the Write commands of calls whose byte ranges lie in 16..127, carry those bytes of
`data` and cover exactly bytes 16..127 without 84..87, then UpdateExtra with mode 0x00
and value `data[84]`, then UpdateExtra with mode 0x01 and value `data[85]`;
(2) when the zone write returns an error, returns that error having issued Write
commands only (no UpdateExtra);
(3) when the first UpdateExtra returns an error, returns that error having issued the
Write commands and that one UpdateExtra (the second is not issued).
`data.getD i 0` is `data[i]`, the length being 128. -/
theorem writeConfigZone_sequence {σ : Type} (X : Executor σ) (fuel : Nat) (data : List Nat)
    (w : World σ) (hlen : data.length = 128) :
    (Accepts X → 28 < fuel →
      ∃ (calls : List WriteCall) (cmds : List packet) (w' : World σ),
        writeConfigZone X fuel data w = (.ret (112, none), w') ∧
        w'.issued = w.issued ++ cmds ++
          [⟨atcaUpdateExtra, 0x00, data.getD 84 0, []⟩,
           ⟨atcaUpdateExtra, 0x01, data.getD 85 0, []⟩] ∧
        List.Forall₂
          (fun c cmd => writeCommandFor ZoneConfig 0 c.block c.word c.chunk = .ok cmd)
          calls cmds ∧
        (∀ cmd ∈ cmds, cmd.opcode = atcaWrite) ∧
        (∀ c ∈ calls, 16 ≤ c.start ∧ c.stop ≤ 128 ∧
          c.chunk = (data.drop c.start).take c.chunk.length) ∧
        (∀ i, (∃ c ∈ calls, c.start ≤ i ∧ i < c.stop) ↔
          (16 ≤ i ∧ i < 128 ∧ ¬ (84 ≤ i ∧ i ≤ 87)))) ∧
    (∀ n e w1,
      writeBytesZone X fuel ZoneConfig 0 16 (data.drop 16) w = (.ret (n, some e), w1) →
      writeConfigZone X fuel data w = (.ret (n, some e), w1) ∧
      ∃ new, w1.issued = w.issued ++ new ∧ ∀ p ∈ new, p.opcode = atcaWrite) ∧
    (∀ n w1 e w2,
      writeBytesZone X fuel ZoneConfig 0 16 (data.drop 16) w = (.ret (n, none), w1) →
      execute X ⟨atcaUpdateExtra, 0x00, data.getD 84 0, []⟩ w1 = (.ret (some e), w2) →
      writeConfigZone X fuel data w = (.ret (n, some e), w2) ∧
      ∃ new, w2.issued = w.issued ++ new ++ [⟨atcaUpdateExtra, 0x00, data.getD 84 0, []⟩] ∧
        ∀ p ∈ new, p.opcode = atcaWrite) ∧
    atcaWrite ≠ atcaUpdateExtra := by
  have hdl : (data.drop 16).length = 112 := by rw [List.length_drop, hlen]
  refine ⟨?_, ?_, ?_, by decide⟩
  · intro hX hfuel
    obtain ⟨calls, cmds, w1, hw, hiss, hf2, hc1, hc2, hc3⟩ :=
      writeBytesZone_accept_cover X hX fuel ZoneConfig 0 16 (data.drop 16) w 128 rfl
        (by intro h; rw [h] at hdl; simp at hdl) (by decide) (by rw [hdl]) (by rw [hdl]; decide)
        (by rw [hdl]; omega)
    obtain ⟨w2, he1, hi1⟩ := execute_accept X hX ⟨atcaUpdateExtra, 0x00, data.getD 84 0, []⟩ w1
    obtain ⟨w3, he2, hi2⟩ := execute_accept X hX ⟨atcaUpdateExtra, 0x01, data.getD 85 0, []⟩ w2
    refine ⟨calls, cmds, w3, ?_, ?_, hf2, ?_, ?_, ?_⟩
    · rw [writeConfigZone_unfold X fuel data w hlen, hw]
      simp only [he1, he2, hdl]
      rfl
    · rw [hi2, hi1, hiss]
      simp
    · have hwr := writeBytesZone_issued_writes X fuel ZoneConfig 0 16 (data.drop 16) w
      rw [hw] at hwr
      obtain ⟨new, hn, hp⟩ := hwr
      have : new = cmds := by
        have h := hn.symm.trans hiss
        exact List.append_cancel_left h
      subst this
      exact hp
    · intro c hc
      obtain ⟨_, h16, hchunk, _⟩ := hc1 c hc
      have hstop : c.stop ≤ 128 := by
        have hpos : c.start < c.stop := by
          unfold WriteCall.stop
          obtain ⟨hsh, _⟩ := hc1 c hc
          omega
        have := (hc3 c.start).mp ⟨c, hc, le_refl _, hpos⟩
        by_contra hgt
        have hlt : 128 < c.stop := by omega
        by_cases h127 : c.start ≤ 127
        · have h2 := (hc3 (c.stop - 1)).mp ⟨c, hc, by omega, by omega⟩
          rw [hdl] at h2
          omega
        · rw [hdl] at this
          omega
      refine ⟨h16, hstop, ?_⟩
      have hdd : (data.drop 16).drop (c.start - 16) = data.drop c.start := by
        rw [List.drop_drop]
        congr 1
        omega
      rw [← hdd]
      exact hchunk
    · intro i
      rw [hc3 i, hdl]
      unfold lockByte
      simp
  · intro n e w1 hw
    refine ⟨?_, ?_⟩
    · rw [writeConfigZone_unfold X fuel data w hlen, hw]
    · have hwr := writeBytesZone_issued_writes X fuel ZoneConfig 0 16 (data.drop 16) w
      rw [hw] at hwr
      exact hwr
  · intro n w1 e w2 hw he
    refine ⟨?_, ?_⟩
    · rw [writeConfigZone_unfold X fuel data w hlen, hw]
      simp only [he]
    · have hwr := writeBytesZone_issued_writes X fuel ZoneConfig 0 16 (data.drop 16) w
      rw [hw] at hwr
      obtain ⟨new, hn, hp⟩ := hwr
      refine ⟨new, ?_, hp⟩
      have := execute_issued X ⟨atcaUpdateExtra, 0x00, data.getD 84 0, []⟩ w1
      rw [he] at this
      rw [this, hn]

set_option maxRecDepth 100000 in
theorem writeConfigZone_sequence_witness :
    (∃ (calls : List WriteCall) (cmds : List packet) (w' : World Unit),
      writeConfigZone acceptAll 29 (List.range 128) ⟨(), []⟩ = (.ret (112, none), w') ∧
      w'.issued = (⟨(), []⟩ : World Unit).issued ++ cmds ++
        [⟨atcaUpdateExtra, 0x00, (List.range 128).getD 84 0, []⟩,
         ⟨atcaUpdateExtra, 0x01, (List.range 128).getD 85 0, []⟩] ∧
      List.Forall₂
        (fun c cmd => writeCommandFor ZoneConfig 0 c.block c.word c.chunk = .ok cmd)
        calls cmds ∧
      (∀ cmd ∈ cmds, cmd.opcode = atcaWrite) ∧
      (∀ c ∈ calls, 16 ≤ c.start ∧ c.stop ≤ 128 ∧
        c.chunk = ((List.range 128).drop c.start).take c.chunk.length) ∧
      (∀ i, (∃ c ∈ calls, c.start ≤ i ∧ i < c.stop) ↔
        (16 ≤ i ∧ i < 128 ∧ ¬ (84 ≤ i ∧ i ≤ 87)))) ∧
    (writeConfigZone rejectAll 29 (List.range 128) ⟨(), []⟩).1
      = .ret (0, some errExecution) ∧
    (writeConfigZone rejectUpdateExtra 29 (List.range 128) ⟨(), []⟩).1
      = .ret (112, some errExecution) :=
  ⟨(writeConfigZone_sequence acceptAll 29 (List.range 128) ⟨(), []⟩ (by simp)).1
      acceptAll_accepts (by decide),
    congrArg Prod.fst
      ((writeConfigZone_sequence rejectAll 29 (List.range 128) ⟨(), []⟩ (by simp)).2.1
        0 errExecution
        (writeBytesZone rejectAll 29 ZoneConfig 0 16 ((List.range 128).drop 16) ⟨(), []⟩).2
        (Prod.ext (by rfl) rfl)).1,
    congrArg Prod.fst
      ((writeConfigZone_sequence rejectUpdateExtra 29 (List.range 128) ⟨(), []⟩
          (by simp)).2.2.1 112
        (writeBytesZone rejectUpdateExtra 29 ZoneConfig 0 16 ((List.range 128).drop 16)
          ⟨(), []⟩).2
        errExecution
        (execute rejectUpdateExtra ⟨atcaUpdateExtra, 0x00, (List.range 128).getD 84 0, []⟩
          (writeBytesZone rejectUpdateExtra 29 ZoneConfig 0 16 ((List.range 128).drop 16)
            ⟨(), []⟩).2).2
        (Prod.ext (by decide) rfl) (Prod.ext (by rfl) rfl)).1⟩

/-! ### Configuration image -/

theorem uint16_be_split (hi lo : Nat) (hh : hi < 256) (hl : lo < 256) :
    (((hi <<< 8) ||| lo) >>> 8) % 256 = hi ∧ ((hi <<< 8) ||| lo) % 256 = lo := by
  have e : (hi <<< 8) ||| lo = hi * 256 + lo := by
    rw [Nat.shiftLeft_eq, show (2 : Nat) ^ 8 = 256 by norm_num, Nat.mul_comm]
    exact (Nat.mul_add_lt_is_or (show lo < 2 ^ 8 by omega) hi).symm
  rw [e, Nat.shiftRight_eq_div_pow]
  constructor <;> omega

theorem list_eq_map_range (l : List Nat) :
    l = (List.range l.length).map (fun i => l.getD i 0) := by
  apply List.ext_getElem
  · simp
  · intro i h1 h2
    simp [List.getD_eq_getElem?_getD, List.getElem?_eq_getElem h1]

theorem range_128 : List.range 128 = [0, 1, 2, 3, 4, 5, 6, 7, 8, 9, 10, 11, 12, 13, 14, 15, 16, 17, 18, 19, 20, 21, 22, 23, 24,
    25, 26, 27, 28, 29, 30, 31, 32, 33, 34, 35, 36, 37, 38, 39, 40, 41, 42, 43, 44, 45, 46, 47,
    48, 49, 50, 51, 52, 53, 54, 55, 56, 57, 58, 59, 60, 61, 62, 63, 64, 65, 66, 67, 68, 69, 70,
    71, 72, 73, 74, 75, 76, 77, 78, 79, 80, 81, 82, 83, 84, 85, 86, 87, 88, 89, 90, 91, 92, 93,
    94, 95, 96, 97, 98, 99, 100, 101, 102, 103, 104, 105, 106, 107, 108, 109, 110, 111, 112,
    113, 114, 115, 116, 117, 118, 119, 120, 121, 122, 123, 124, 125, 126, 127] := by
  decide

set_option maxRecDepth 100000 in
/-- Reading a 128-byte image into a `Config608` and writing it back gives the image. -/
theorem marshal_unmarshal (l : List Nat) (hlen : l.length = 128) (hb : ∀ b ∈ l, b < 256) :
    ∃ conf, Unmarshal l = .ok conf ∧ Marshal conf = (l, none) := by
  have hl := list_eq_map_range l
  rw [hlen, range_128] at hl
  generalize (fun i => l.getD i 0) = f at hl
  simp only [List.map_cons, List.map_nil] at hl
  subst hl
  have h88 : f 88 < 256 := hb _ (by simp)
  have h89 : f 89 < 256 := hb _ (by simp)
  obtain ⟨e1, e2⟩ := uint16_be_split (f 88) (f 89) h88 h89
  unfold Unmarshal
  rw [if_neg (by simp)]
  refine ⟨_, rfl, ?_⟩
  simp only [Marshal, bytesAt, byteAt, List.range_succ, List.range_zero, List.map_cons,
    List.map_nil, List.flatMap_cons, List.flatMap_nil, List.nil_append, List.cons_append,
    List.map_append, List.flatMap_append, List.append_nil, List.getD_cons_succ,
    List.getD_cons_zero, List.drop_succ_cons, List.drop_zero, List.take_succ_cons,
    List.take_zero, Nat.zero_add, Nat.reduceAdd, Nat.reduceMul, e1, e2, List.append_assoc]

theorem unmarshalPartial_image (c : List Nat) (offset : Nat)
    (hfit : offset + c.length ≤ 128) :
    UnmarshalPartial c (offset : Int)
      = .ret (Unmarshal (List.replicate offset 0 ++ c
          ++ List.replicate (128 - (offset + c.length)) 0)) := by
  unfold UnmarshalPartial
  have hsize : PermanentOffset608 + Default608.length = 128 := by decide
  simp only [hsize]
  rw [if_neg (by omega)]
  simp only [Int.toNat_ofNat, List.length_append, List.length_replicate]
  rw [if_neg (by omega)]

set_option maxRecDepth 100000 in
/-- C30: for every offset `>= 0` and byte sequence `c` with `offset + len(c) <= 128`,
`UnmarshalPartial(c, offset, &conf)` succeeds and `Marshal(conf)` is the 128-byte image
made of `offset` zero bytes, then `c`, then zero padding, so that every byte of the image
outside the supplied range is zero; `Marshal(DefaultConfig608())[16:]` equals
`Default608`; and when `offset + len(c) > 128`, `UnmarshalPartial` returns an error. -/
theorem unmarshalPartial_marshal (c : List Nat) (offset : Nat) (hb : ∀ b ∈ c, b < 256) :
    (offset + c.length ≤ 128 →
      ∃ conf, UnmarshalPartial c (offset : Int) = .ret (.ok conf) ∧
        Marshal conf = (List.replicate offset 0 ++ c
          ++ List.replicate (128 - (offset + c.length)) 0, none) ∧
        (Marshal conf).1.length = 128 ∧
        (∀ i, i < offset ∨ offset + c.length ≤ i → (Marshal conf).1.getD i 0 = 0)) ∧
    (offset + c.length > 128 →
      UnmarshalPartial c (offset : Int) = .ret (.error configExceedsMaximumSize)) ∧
    (∃ conf, DefaultConfig608 = .ret conf ∧ (Marshal conf).1.drop 16 = Default608) := by
  refine ⟨?_, ?_, ?_⟩
  · intro hfit
    have hlen : (List.replicate offset 0 ++ c
        ++ List.replicate (128 - (offset + c.length)) 0).length = 128 := by
      simp only [List.length_append, List.length_replicate]; omega
    have hbytes : ∀ b ∈ List.replicate offset 0 ++ c
        ++ List.replicate (128 - (offset + c.length)) 0, b < 256 := by
      intro b hbm
      simp only [List.mem_append, List.mem_replicate] at hbm
      rcases hbm with (⟨_, h⟩ | h) | ⟨_, h⟩
      · omega
      · exact hb b h
      · omega
    obtain ⟨conf, hu, hm⟩ := marshal_unmarshal _ hlen hbytes
    refine ⟨conf, ?_, hm, ?_, ?_⟩
    · rw [unmarshalPartial_image c offset hfit, hu]
    · rw [hm]; exact hlen
    · intro i hi
      rw [hm]
      simp only [List.getD_eq_getElem?_getD]
      rcases hi with hi | hi
      · rw [List.append_assoc, List.getElem?_append_left (by simp; omega)]
        simp [List.getElem?_replicate, hi]
      · rw [List.getElem?_append_right (by simp; omega)]
        simp only [List.getElem?_replicate, List.length_append, List.length_replicate]
        split <;> rfl
  · intro hbig
    unfold UnmarshalPartial
    have hsize : PermanentOffset608 + Default608.length = 128 := by decide
    simp only [hsize]
    rw [if_neg (by omega)]
    simp only [Int.toNat_ofNat, List.length_append, List.length_replicate]
    rw [if_pos (by omega)]
  · have hd : ∀ b ∈ Default608, b < 256 := by decide
    obtain ⟨conf, hu, hm⟩ := marshal_unmarshal
      (List.replicate 16 0 ++ Default608 ++ List.replicate (128 - (16 + Default608.length)) 0)
      (by decide) (by
        intro b hbm
        simp only [List.mem_append, List.mem_replicate] at hbm
        rcases hbm with (⟨_, h⟩ | h) | ⟨_, h⟩
        · omega
        · exact hd b h
        · omega)
    refine ⟨conf, ?_, ?_⟩
    · unfold DefaultConfig608
      have := unmarshalPartial_image Default608 16 (by decide)
      rw [show ((PermanentOffset608 : Nat) : Int) = ((16 : Nat) : Int) by rfl, this, hu]
    · rw [hm]
      decide

theorem unmarshalPartial_marshal_witness :
    (∃ conf, UnmarshalPartial [0x55, 0x55, 0x00, 0x55] ((84 : Nat) : Int) = .ret (.ok conf) ∧
      Marshal conf = (List.replicate 84 0 ++ [0x55, 0x55, 0x00, 0x55]
        ++ List.replicate (128 - (84 + ([0x55, 0x55, 0x00, 0x55] : List Nat).length)) 0,
        none) ∧
      (Marshal conf).1.length = 128 ∧
      (∀ i, i < 84 ∨ 84 + ([0x55, 0x55, 0x00, 0x55] : List Nat).length ≤ i →
        (Marshal conf).1.getD i 0 = 0)) ∧
    UnmarshalPartial (List.replicate 8 0) ((124 : Nat) : Int)
      = .ret (.error configExceedsMaximumSize) :=
  ⟨(unmarshalPartial_marshal [0x55, 0x55, 0x00, 0x55] 84 (by decide)).1 (by decide),
    (unmarshalPartial_marshal (List.replicate 8 0) 124 (by decide)).2.1 (by decide)⟩

/-! ### Lock state -/

/-- The command `IsLocked` issues: a 4-byte Read of the Config zone at block 2, word 5. -/
theorem isLocked_readZone {σ : Type} (X : Executor σ) (w : World σ) :
    readZone X ZoneConfig 0 LockOffsetBlock LockOffsetWord (List.replicate atcaWordSize 0) w
      = execResponse X ⟨atcaRead, 0x00, 0x0015, []⟩ [0, 0, 0, 0] w := by
  rfl

theorem unmarshalPartial_lock_word (wd : List Nat) (h : wd.length = 4) :
    ∃ conf, UnmarshalPartial wd LockOffset = .ret (.ok conf) ∧
      conf.LockValue = wd.getD 2 0 ∧ conf.LockConfig = wd.getD 3 0 := by
  have himg := unmarshalPartial_image wd 84 (by omega)
  have hl : ((LockOffset : Nat) : Int) = ((84 : Nat) : Int) := by rfl
  rw [hl, himg]
  unfold Unmarshal
  rw [if_neg (by simp only [List.length_append, List.length_replicate]; omega)]
  refine ⟨_, rfl, ?_, ?_⟩
  · show byteAt _ 86 = _
    unfold byteAt
    simp only [List.getD_eq_getElem?_getD]
    rw [List.getElem?_append_left (by simp; omega),
      List.getElem?_append_right (by simp)]
    simp
  · show byteAt _ 87 = _
    unfold byteAt
    simp only [List.getD_eq_getElem?_getD]
    rw [List.getElem?_append_left (by simp; omega),
      List.getElem?_append_right (by simp)]
    simp

/-- C29: `IsLocked` issues exactly one command, the 4-byte Read of Config zone block 2,
word 5 (opcode Read, `param1 = 0x00`, address `0x0015`, a 4-byte buffer), whatever the
zone asked for and whatever the device answers.  When the device answers without error
and `wd` is the word then standing in the buffer (the answer `r` itself when it has 4
bytes), the Config zone is reported locked iff `wd[3] != 0x55`, the Data zone iff
`wd[2] != 0x55`, and every other zone gives an error; when the read fails its error is
returned. -/
theorem isLocked_reads_lock_word {σ : Type} (X : Executor σ) (zone : Nat) (w : World σ) :
    (IsLocked X zone w).2.issued = w.issued ++ [⟨atcaRead, 0x00, 0x0015, []⟩] ∧
    (∀ n r s', X ⟨atcaRead, 0x00, 0x0015, []⟩ [0, 0, 0, 0] w.dev = (.ret (n, none, r), s') →
      (IsLocked X ZoneConfig w).1
        = .ret (decide ((goCopy [0, 0, 0, 0] r).getD 3 0 ≠ 0x55), none) ∧
      (IsLocked X ZoneData w).1
        = .ret (decide ((goCopy [0, 0, 0, 0] r).getD 2 0 ≠ 0x55), none) ∧
      (zone ≠ ZoneConfig → zone ≠ ZoneData →
        (IsLocked X zone w).1 = .ret (false, some unknownLockZone)) ∧
      (r.length = 4 → goCopy [0, 0, 0, 0] r = r)) ∧
    (∀ n e r s', X ⟨atcaRead, 0x00, 0x0015, []⟩ [0, 0, 0, 0] w.dev = (.ret (n, some e, r), s') →
      (IsLocked X zone w).1 = .ret (false, some e)) := by
  have hstep : ∀ z, IsLocked X z w =
      match execResponse X ⟨atcaRead, 0x00, 0x0015, []⟩ [0, 0, 0, 0] w with
      | (.panicked, w) => (.panicked, w)
      | (.outOfFuel, w) => (.outOfFuel, w)
      | (.ret (_, some e, _), w) => (.ret (false, some e), w)
      | (.ret (_, none, buf), w) =>
        match UnmarshalPartial buf LockOffset with
        | .panicked => (.panicked, w)
        | .outOfFuel => (.outOfFuel, w)
        | .ret (.error e) => (.ret (false, some e), w)
        | .ret (.ok conf) =>
          if z = ZoneConfig then (.ret (conf.LockConfig.IsLocked, none), w)
          else if z = ZoneData then (.ret (conf.LockValue.IsLocked, none), w)
          else (.ret (false, some unknownLockZone), w) := by
    intro z
    unfold IsLocked
    dsimp only
    rw [isLocked_readZone]
  have hok : ∀ z n r s',
      X ⟨atcaRead, 0x00, 0x0015, []⟩ [0, 0, 0, 0] w.dev = (.ret (n, none, r), s') →
      ∃ conf : Config608, conf.LockValue = (goCopy [0, 0, 0, 0] r).getD 2 0 ∧
        conf.LockConfig = (goCopy [0, 0, 0, 0] r).getD 3 0 ∧
        (IsLocked X z w).1 =
          (if z = ZoneConfig then .ret (conf.LockConfig.IsLocked, none)
          else if z = ZoneData then .ret (conf.LockValue.IsLocked, none)
          else .ret (false, some unknownLockZone)) := by
    intro z n r s' hx
    obtain ⟨conf, hu, h2, h3⟩ := unmarshalPartial_lock_word (goCopy [0, 0, 0, 0] r)
      (by rw [goCopy_length]; rfl)
    refine ⟨conf, h2, h3, ?_⟩
    rw [hstep z]
    unfold execResponse
    simp only [hx, hu]
    split <;> [rfl; (split <;> rfl)]
  refine ⟨?_, ?_, ?_⟩
  · rw [hstep zone]
    unfold execResponse
    rcases X ⟨atcaRead, 0x00, 0x0015, []⟩ [0, 0, 0, 0] w.dev with ⟨out, s⟩
    rcases out with ⟨n, err, r⟩ | _ | _
    · rcases err with _ | e
      · dsimp only
        rcases UnmarshalPartial (goCopy [0, 0, 0, 0] r) LockOffset with v | _ | _
        · rcases v with e | conf
          · rfl
          · dsimp only
            split <;> [rfl; (split <;> rfl)]
        · rfl
        · rfl
      · rfl
    · rfl
    · rfl
  · intro n r s' hx
    refine ⟨?_, ?_, ?_, ?_⟩
    · obtain ⟨conf, h2, h3, h⟩ := hok ZoneConfig n r s' hx
      rw [h, if_pos rfl, h3]
      rfl
    · obtain ⟨conf, h2, h3, h⟩ := hok ZoneData n r s' hx
      rw [h, if_neg (by decide), if_pos rfl, h2]
      rfl
    · intro hz1 hz2
      obtain ⟨conf, h2, h3, h⟩ := hok zone n r s' hx
      rw [h, if_neg hz1, if_neg hz2]
    · intro hr
      unfold goCopy
      rw [List.drop_of_length_le (by rw [hr]; rfl), List.take_of_length_le (by rw [hr]; rfl)]
      simp
  · intro n e r s' hx
    rw [hstep zone]
    unfold execResponse
    simp only [hx]

theorem isLocked_reads_lock_word_witness :
    (IsLocked (memExec (fun i => if i = 87 then 0x55 else 0)) ZoneConfig ⟨(), []⟩).1
        = .ret (decide ((goCopy [0, 0, 0, 0] [0, 0, 0, 0x55]).getD 3 0 ≠ 0x55), none) ∧
    (IsLocked (memExec (fun i => if i = 87 then 0x55 else 0)) ZoneData ⟨(), []⟩).1
        = .ret (decide ((goCopy [0, 0, 0, 0] [0, 0, 0, 0x55]).getD 2 0 ≠ 0x55), none) ∧
    (IsLocked rejectAll ZoneConfig ⟨(), []⟩).1 = .ret (false, some errExecution) :=
  ⟨((isLocked_reads_lock_word (memExec (fun i => if i = 87 then 0x55 else 0)) ZoneConfig
      ⟨(), []⟩).2.1 4 [0, 0, 0, 0x55] () rfl).1,
    ((isLocked_reads_lock_word (memExec (fun i => if i = 87 then 0x55 else 0)) ZoneConfig
      ⟨(), []⟩).2.1 4 [0, 0, 0, 0x55] () rfl).2.1,
    (isLocked_reads_lock_word rejectAll ZoneConfig ⟨(), []⟩).2.2 0 errExecution [0, 0, 0, 0]
      () rfl⟩

/-! ### Kit protocol: replies -/

theorem hex_digit_upper :
    ∀ n < 16, reverseHexTable (if 97 ≤ hextable n ∧ hextable n ≤ 122 then hextable n - 32
        else hextable n) = n ∧
      (if 97 ≤ hextable n ∧ hextable n ≤ 122 then hextable n - 32 else hextable n) ≠ 41 := by
  decide

set_option maxRecDepth 100000 in
theorem byte_nibbles : ∀ x < 256, x >>> 4 < 16 ∧ x &&& 0x0f < 16 ∧
    ((x >>> 4) <<< 4) ||| (x &&& 0x0f) = x := by
  decide

theorem kitWritePayload_cons (x : Nat) (b : List Nat) :
    kitWritePayload (x :: b)
      = (if 97 ≤ hextable (x >>> 4) ∧ hextable (x >>> 4) ≤ 122 then hextable (x >>> 4) - 32
          else hextable (x >>> 4))
        :: (if 97 ≤ hextable (x &&& 0x0f) ∧ hextable (x &&& 0x0f) ≤ 122
            then hextable (x &&& 0x0f) - 32 else hextable (x &&& 0x0f))
        :: kitWritePayload b := by
  simp [kitWritePayload, hexEncodeToString, stringsToUpper]

theorem kitWritePayload_length (b : List Nat) : (kitWritePayload b).length = 2 * b.length := by
  induction b with
  | nil => rfl
  | cons x b ih => rw [kitWritePayload_cons]; simp only [List.length_cons, ih]; omega

theorem kitWritePayload_no_paren (b : List Nat) (hb : ∀ x ∈ b, x < 256) :
    41 ∉ kitWritePayload b := by
  induction b with
  | nil => simp [kitWritePayload, hexEncodeToString, stringsToUpper]
  | cons x b ih =>
    rw [kitWritePayload_cons]
    have hx := byte_nibbles x (hb x (by simp))
    have h1 := (hex_digit_upper _ hx.1).2
    have h2 := (hex_digit_upper _ hx.2.1).2
    simp only [List.mem_cons, not_or]
    exact ⟨fun h => h1 h.symm, fun h => h2 h.symm, ih (fun y hy => hb y (by simp [hy]))⟩

/-- Decoding what `halKit.Write` encodes gives the bytes back, written from `dst[i]` on. -/
theorem hexDecodeLoop_payload (b : List Nat) :
    ∀ (i : Nat) (dst : List Nat), (∀ x ∈ b, x < 256) → i + b.length ≤ dst.length →
      hexDecodeLoop (kitWritePayload b) i dst
        = .ret (((i + b.length : Nat) : Int), none,
            dst.take i ++ b ++ dst.drop (i + b.length)) := by
  induction b with
  | nil =>
    intro i dst _ _
    simp [kitWritePayload, hexEncodeToString, stringsToUpper, hexDecodeLoop]
  | cons x b ih =>
    intro i dst hb hlen
    have hx := byte_nibbles x (hb x (by simp))
    have h1 := (hex_digit_upper _ hx.1).1
    have h2 := (hex_digit_upper _ hx.2.1).1
    rw [kitWritePayload_cons, hexDecodeLoop]
    simp only [h1, h2, hx.2.2]
    rw [if_neg (by have := hx.1; omega), if_neg (by have := hx.2.1; omega)]
    simp only [List.length_cons] at hlen
    rw [if_pos (by omega)]
    rw [ih (i + 1) (dst.set i x) (fun y hy => hb y (by simp [hy]))
      (by rw [List.length_set]; omega)]
    have hset : dst.set i x = dst.take i ++ x :: dst.drop (i + 1) := by
      rw [List.set_eq_take_append_cons_drop, if_pos (by omega)]
    have e1 : (dst.set i x).take (i + 1) = dst.take i ++ [x] := by
      rw [hset, List.take_append_eq_append_take]
      simp only [List.length_take]
      have hm : min i dst.length = i := by omega
      rw [hm, List.take_of_length_le (by simp)]
      simp
    have e2 : (dst.set i x).drop (i + 1 + b.length) = dst.drop (i + (b.length + 1)) := by
      rw [hset, List.drop_append_eq_append_drop]
      simp only [List.length_take]
      have hm : min i dst.length = i := by omega
      rw [hm, List.drop_of_length_le (by simp; omega)]
      have : i + 1 + b.length - i = (b.length) + 1 := by omega
      rw [this, List.drop_succ_cons, List.drop_drop]
      simp only [List.nil_append]
      congr 1
      omega
    rw [e1, e2]
    simp only [List.length_cons, List.append_assoc, List.singleton_append]
    congr 2
    push_cast
    omega

theorem bytesIndexByte_first (body t : List Nat) (c : Nat) (h : c ∉ body) :
    bytesIndexByte (body ++ c :: t) c = (body.length : Int) := by
  unfold bytesIndexByte
  rw [if_pos (by simp)]
  congr 1
  induction body with
  | nil => simp
  | cons y body ih =>
    simp only [List.mem_cons, not_or] at h
    simp only [List.cons_append]
    rw [List.indexOf_cons_ne _ (fun e => h.1 e.symm), ih h.2]
    rfl

theorem validate_ne_errRecvBuffer (resp : List Nat) :
    validateResponseStatusCode resp ≠ some errRecvBuffer := by
  unfold validateResponseStatusCode
  rcases resp with _ | ⟨s, _⟩
  · decide
  · dsimp only
    repeat' split
    all_goals decide

/-- The part of `kitParseRsp` after a status of `00`. -/
theorem kitParseRsp_status_ok (c1 c2 x : Nat) (tail replyRest dst : List Nat) (capDst : Nat)
    (hdec : hexDecode [0] [c1, c2] = .ret (1, none, [0])) :
    kitParseRsp (c1 :: c2 :: x :: tail) replyRest dst capDst =
      if bytesIndexByte tail 41 = -1 then .ret (0, some failedToFindEndOfFrame, dst)
      else if hexDecodedLen (bytesIndexByte tail 41) > (capDst : Int) then
        .ret (0, some errRecvBuffer, dst)
      else hexDecode dst (tail.take (bytesIndexByte tail 41).toNat) := by
  unfold kitParseRsp
  simp only [List.length_cons, List.cons_append, List.take_succ_cons, List.take_zero]
  rw [if_neg (by omega), hdec]
  simp only [Int.toNat_one, List.take_succ_cons, List.take_zero,
    validateResponseStatusCode, if_true, List.drop_succ_cons, List.drop_zero]
  rw [if_neg (by omega)]

/-- C24: for every byte sequence `b` with `len(b) <= len(dst)` and every trailing text
`t`, `kitParseRsp` applied to the reply `"00(" ++ HEX(b) ++ ")" ++ t`, where `HEX(b)` is
the upper-case hex text `halKit.Write` produces for `b`, returns `(len(b), nil)` and
leaves `dst` with `b` in `dst[0..len(b))` and the rest as it was. -/
theorem kitParseRsp_decodes_payload (b t replyRest dst : List Nat) (capDst : Nat)
    (hb : ∀ x ∈ b, x < 256) (hlen : b.length ≤ dst.length) (hcap : dst.length ≤ capDst) :
    ∃ dst', kitParseRsp (str "00(" ++ kitWritePayload b ++ str ")" ++ t) replyRest dst capDst
        = .ret ((b.length : Int), none, dst') ∧
      dst'.length = dst.length ∧ dst'.take b.length = b ∧
      dst'.drop b.length = dst.drop b.length ∧
      kitWriteCommand 69 b = str "E:t(" ++ kitWritePayload b ++ str ")\n" := by
  have hreply : str "00(" ++ kitWritePayload b ++ str ")" ++ t
      = 48 :: 48 :: 40 :: (kitWritePayload b ++ 41 :: t) := by
    simp [str]
  have hidx := bytesIndexByte_first (kitWritePayload b) t 41 (kitWritePayload_no_paren b hb)
  rw [kitWritePayload_length] at hidx
  refine ⟨b ++ dst.drop b.length, ?_, ?_, ?_, ?_, ?_⟩
  · rw [hreply, kitParseRsp_status_ok 48 48 40 _ replyRest dst capDst (by rfl), hidx]
    rw [if_neg (by omega), if_neg (by unfold hexDecodedLen; omega)]
    have ht : (kitWritePayload b ++ 41 :: t).take ((2 * b.length : Nat) : Int).toNat
        = kitWritePayload b := by
      rw [Int.toNat_ofNat, ← kitWritePayload_length b, List.take_left]
    rw [ht]
    unfold hexDecode
    rw [hexDecodeLoop_payload b 0 dst hb (by omega)]
    simp
  · simp only [List.length_append, List.length_drop]; omega
  · rw [List.take_left]
  · rw [List.drop_left]
  · simp [kitWriteCommand, str]

theorem kitParseRsp_decodes_payload_witness :
    ∃ dst', kitParseRsp (str "00(" ++ kitWritePayload [0x04, 0x11, 0x33, 0x43]
        ++ str ")" ++ str "\n") [] [0, 0, 0, 0, 0, 0, 0] 7
        = .ret ((([0x04, 0x11, 0x33, 0x43] : List Nat).length : Int), none, dst') ∧
      dst'.length = ([0, 0, 0, 0, 0, 0, 0] : List Nat).length ∧
      dst'.take ([0x04, 0x11, 0x33, 0x43] : List Nat).length = [0x04, 0x11, 0x33, 0x43] ∧
      dst'.drop ([0x04, 0x11, 0x33, 0x43] : List Nat).length
        = ([0, 0, 0, 0, 0, 0, 0] : List Nat).drop ([0x04, 0x11, 0x33, 0x43] : List Nat).length ∧
      kitWriteCommand 69 [0x04, 0x11, 0x33, 0x43]
        = str "E:t(" ++ kitWritePayload [0x04, 0x11, 0x33, 0x43] ++ str ")\n" :=
  kitParseRsp_decodes_payload [0x04, 0x11, 0x33, 0x43] (str "\n") [] [0, 0, 0, 0, 0, 0, 0] 7
    (by decide) (by decide) (by decide)

/-- C25: if the first two characters of a kit reply hex-decode to a status byte
`s != 0x00`, `kitParseRsp` returns `(0, validateResponseStatusCode([s]))`, an error,
whatever follows them in the reply (a well-formed parenthesised payload or anything
else), and `dst` is as it was. -/
theorem kitParseRsp_status_error (c1 c2 s : Nat) (rest replyRest dst : List Nat)
    (capDst : Nat) (hdec : hexDecode [0] [c1, c2] = .ret (1, none, [s])) (hs : s ≠ 0) :
    kitParseRsp (c1 :: c2 :: rest) replyRest dst capDst
      = .ret (0, validateResponseStatusCode [s], dst) ∧
    validateResponseStatusCode [s] ≠ none := by
  have hv : ∃ e, validateResponseStatusCode [s] = some e := validate_nonzero s hs
  obtain ⟨e, he⟩ := hv
  refine ⟨?_, by rw [he]; simp⟩
  unfold kitParseRsp
  simp only [List.length_cons, List.cons_append, List.take_succ_cons, List.take_zero]
  rw [if_neg (by omega), hdec]
  simp only [Int.toNat_one, List.take_succ_cons, List.take_zero, he]

theorem kitParseRsp_status_error_witness :
    kitParseRsp (48 :: 49 :: str "(AABB)\n") [] [0, 0] 2
      = .ret (0, validateResponseStatusCode [0x01], [0, 0]) ∧
    validateResponseStatusCode [0x01] ≠ none :=
  kitParseRsp_status_error 48 49 0x01 (str "(AABB)\n") [] [0, 0] 2 (by rfl) (by decide)

/-- C26: if a kit reply has status `00` and the text between index 3 and the first `)`
has `k` characters with `floor(k/2) > cap(dst)`, `kitParseRsp` returns
`(0, errRecvBuffer)` and `dst` is as it was; `errRecvBuffer` differs from the error for a
missing delimiter and from every error `validateResponseStatusCode` returns. -/
theorem kitParseRsp_buffer_too_small (c1 c2 x : Nat) (body t replyRest dst : List Nat)
    (capDst : Nat) (hdec : hexDecode [0] [c1, c2] = .ret (1, none, [0]))
    (hbody : 41 ∉ body) (hbig : body.length / 2 > capDst) :
    kitParseRsp (c1 :: c2 :: x :: (body ++ 41 :: t)) replyRest dst capDst
      = .ret (0, some errRecvBuffer, dst) ∧
    errRecvBuffer ≠ failedToFindEndOfFrame ∧
    (∀ resp, validateResponseStatusCode resp ≠ some errRecvBuffer) := by
  refine ⟨?_, by decide, validate_ne_errRecvBuffer⟩
  rw [kitParseRsp_status_ok c1 c2 x _ replyRest dst capDst hdec,
    bytesIndexByte_first body t 41 hbody]
  rw [if_neg (by omega), if_pos (by unfold hexDecodedLen; omega)]

theorem kitParseRsp_buffer_too_small_witness :
    kitParseRsp (48 :: 48 :: 40 :: (str "AABBCC" ++ 41 :: str "\n")) [] [0, 0] 2
      = .ret (0, some errRecvBuffer, [0, 0]) ∧
    errRecvBuffer ≠ failedToFindEndOfFrame ∧
    (∀ resp, validateResponseStatusCode resp ≠ some errRecvBuffer) :=
  kitParseRsp_buffer_too_small 48 48 40 (str "AABBCC") (str "\n") [] [0, 0] 2 (by rfl)
    (by decide) (by decide)

/-! ### Kit protocol: device discovery -/

theorem isSpace_newline_cr : isSpace 10 = true ∧ isSpace 13 = true ∧ isSpace 32 = true := by
  decide

theorem SkipSpace_nonspace (c : Nat) (rest : List Nat) (h : isSpace c = false) :
    SkipSpace (c :: rest) = some (c :: rest) := by
  have h10 : c ≠ 10 := by
    intro e; rw [e] at h; exact absurd h (by decide)
  have h13 : c ≠ 13 := by
    intro e; rw [e] at h; exact absurd h (by decide)
  rw [SkipSpace, if_neg (fun hh => h13 hh.1), if_neg h10, if_pos (by simp [h])]

theorem hex_digit_not_space (c : Nat) (h : reverseHexTable c ≤ 15) : isSpace c = false := by
  unfold reverseHexTable at h
  have hc : 48 ≤ c ∧ c ≤ 102 := by
    repeat' split at h
    all_goals omega
  clear h
  unfold isSpace
  rw [if_neg (by omega), decide_eq_false_iff_not]
  omega

theorem scanString_token (tok rest : List Nat) (hne : tok ≠ [])
    (hws : ∀ c ∈ tok, isSpace c = false) :
    scanString (tok ++ 32 :: rest) = some (tok, 32 :: rest) := by
  rcases tok with _ | ⟨c, tok⟩
  · exact absurd rfl hne
  · have hc := hws c (by simp)
    have htw : ((c :: tok) ++ 32 :: rest).takeWhile (fun c => ¬ isSpace c) = c :: tok := by
      rw [List.takeWhile_append_of_pos (by
        intro x hx
        simp [hws x hx])]
      simp [isSpace_newline_cr.2.2]
    have hdw : ((c :: tok) ++ 32 :: rest).dropWhile (fun c => ¬ isSpace c) = 32 :: rest := by
      rw [List.dropWhile_append_of_pos (by
        intro x hx
        simp [hws x hx])]
      simp [isSpace_newline_cr.2.2]
    unfold scanString
    simp only [List.cons_append, SkipSpace_nonspace c _ hc]
    rw [if_neg (by simp)]
    simp only [List.cons_append] at htw hdw
    rw [htw, hdw]

theorem scanFormatSpace_one (c : Nat) (rest : List Nat) (h : isSpace c = false) :
    scanFormatSpace (32 :: c :: rest) = some (c :: rest) := by
  rw [scanFormatSpace, if_neg (by simp [isSpace_newline_cr.2.2]), if_neg (by decide)]
  simp [List.dropWhile_cons, h]

theorem scanHex2_digits (d1 d2 c : Nat) (rest : List Nat)
    (h1 : reverseHexTable d1 ≤ 15) (h2 : reverseHexTable d2 ≤ 15) :
    scanHex2 (d1 :: d2 :: c :: rest)
      = some (16 * reverseHexTable d1 + reverseHexTable d2, c :: rest) := by
  have hs := hex_digit_not_space d1 h1
  unfold scanHex2
  simp only [SkipSpace_nonspace d1 _ hs]
  have htok : ((d1 :: d2 :: c :: rest).take 2).takeWhile
      (fun c => reverseHexTable c ≤ 0x0f ∨ c = 95) = [d1, d2] := by
    simp [List.takeWhile_cons, h1, h2]
  simp only [htok]
  rw [if_neg (by simp)]
  have hp : parseHexToken [d1, d2] = some (16 * reverseHexTable d1 + reverseHexTable d2) := by
    unfold parseHexToken
    rw [if_neg (by simp), if_neg (by simp; omega)]
    simp
  simp only [hp]
  rw [if_neg (by omega)]
  rfl

/-- What `fmt.Sscanf` reads from a reply `"<kitId> <iface> <II>(<AA>)"` followed by any
text. -/
theorem sscanfKitDevice_reply (kitId iface t : List Nat) (i1 i2 a1 a2 : Nat)
    (hk : kitId ≠ []) (hkws : ∀ c ∈ kitId, isSpace c = false)
    (hf : iface ≠ []) (hfws : ∀ c ∈ iface, isSpace c = false)
    (hi1 : reverseHexTable i1 ≤ 15) (hi2 : reverseHexTable i2 ≤ 15)
    (ha1 : reverseHexTable a1 ≤ 15) (ha2 : reverseHexTable a2 ≤ 15) :
    sscanfKitDevice (kitId ++ 32 :: (iface ++ 32 :: i1 :: i2 :: 40 :: a1 :: a2 :: 41 :: t))
      = some (kitId, iface, 16 * reverseHexTable i1 + reverseHexTable i2,
          16 * reverseHexTable a1 + reverseHexTable a2) := by
  rcases hfe : iface with _ | ⟨f0, ftail⟩
  · exact absurd hfe hf
  · have hf0 : isSpace f0 = false := hfws f0 (by rw [hfe]; simp)
    unfold sscanfKitDevice
    rw [scanString_token kitId _ hk hkws]
    simp only [List.cons_append]
    rw [scanFormatSpace_one f0 _ hf0]
    have := scanString_token (f0 :: ftail) (i1 :: i2 :: 40 :: a1 :: a2 :: 41 :: t) (by simp)
      (by rw [← hfe]; exact hfws)
    simp only [List.cons_append] at this
    simp only [this]
    rw [scanFormatSpace_one i1 _ (hex_digit_not_space i1 hi1)]
    simp only [scanHex2_digits i1 i2 40 _ hi1 hi2, scanLiteral, if_true,
      scanHex2_digits a1 a2 41 _ ha1 ha2]

theorem HasPrefix_append (s p t : List Nat) (h : HasPrefix s p = true) :
    HasPrefix (s ++ t) p = true := by
  unfold HasPrefix at h ⊢
  simp only [decide_eq_true_eq] at h ⊢
  have hl : p.length ≤ s.length := by
    have := congrArg List.length h
    simp only [List.length_take] at this
    omega
  rw [List.take_append_of_le_length hl, h]

theorem HasPrefix_first (s p q : List Nat) (c d : Nat) (hcd : c ≠ d)
    (hp : HasPrefix s (c :: p) = true) : HasPrefix s (d :: q) = false := by
  unfold HasPrefix at hp ⊢
  simp only [decide_eq_true_eq, decide_eq_false_iff_not] at hp ⊢
  rcases s with _ | ⟨x, s⟩
  · simp at hp
  · simp only [List.length_cons, List.take_succ_cons, List.cons.injEq] at hp ⊢
    intro h
    exact hcd (hp.1.symm.trans h.1)


theorem kitTypeFromKitIface_cases (iface : List Nat)
    (hif : iface = str "TWI" ∨ iface = str "SWI" ∨ iface = str "SPI") :
    iface ≠ [] ∧ (∀ c ∈ iface, isSpace c = false) ∧
    kitTypeFromKitIface iface = .ok (if iface = str "TWI" then KitTypeI2C
      else if iface = str "SWI" then KitTypeSWI else KitTypeSPI) := by
  rcases hif with h | h | h <;> subst h <;> exact ⟨by decide, by decide, by rfl⟩

/-- C27: for every reply `"<kitId> <iface> <II>(<AA>)"` (followed by any text) where
`kitId` is a token without white space that starts with `ECC6`, `iface` is `TWI`, `SWI`
or `SPI`, and `II`, `AA` are two hex digits each, `parseKitDevice` returns the device
type ATECC608, the kit type I2C, SWI or SPI respectively, and the address `AA`;
`"ECC608B TWI 00(6C)"` gives ATECC608, I2C, `0x6C`.  Every reply that starts with
`no_device` gives `errNoDevice`, and on that reply the discovery scan of `halKit.init`
goes on with the next index instead of returning. -/
theorem parseKitDevice_reply (kitId iface t : List Nat) (i1 i2 a1 a2 : Nat)
    (hid : HasPrefix kitId (str "ECC6") = true) (hkws : ∀ c ∈ kitId, isSpace c = false)
    (hif : iface = str "TWI" ∨ iface = str "SWI" ∨ iface = str "SPI")
    (hi1 : reverseHexTable i1 ≤ 15) (hi2 : reverseHexTable i2 ≤ 15)
    (ha1 : reverseHexTable a1 ≤ 15) (ha2 : reverseHexTable a2 ≤ 15) :
    parseKitDevice (kitId ++ 32 :: (iface ++ 32 :: i1 :: i2 :: 40 :: a1 :: a2 :: 41 :: t))
      = .ok ⟨DeviceATECC608,
          (if iface = str "TWI" then KitTypeI2C
            else if iface = str "SWI" then KitTypeSWI else KitTypeSPI),
          16 * reverseHexTable a1 + reverseHexTable a2⟩ ∧
    parseKitDevice (str "ECC608B TWI 00(6C)") = .ok ⟨DeviceATECC608, KitTypeI2C, 0x6C⟩ ∧
    (∀ buf, HasPrefix buf (str "no_device") = true → parseKitDevice buf = .error errNoDevice) ∧
    (∀ (σ : Type) (B : KitBoard σ) (cfg : HIDConfig) (n i : Nat) (s s' : σ) (buf : List Nat),
      B.deviceReply i s = (.ok buf, s') → HasPrefix buf (str "no_device") = true →
      kitInitLoop B cfg (n + 1) i s = kitInitLoop B cfg n (i + 1) s') := by
  have hnodev : ∀ buf, HasPrefix buf (str "no_device") = true →
      parseKitDevice buf = .error errNoDevice := by
    intro buf h
    unfold parseKitDevice
    rw [if_pos h]
  refine ⟨?_, by rfl, hnodev, ?_⟩
  · obtain ⟨hfne, hfws, hkt⟩ := kitTypeFromKitIface_cases iface hif
    have hkne : kitId ≠ [] := by
      intro h
      rw [h] at hid
      exact absurd hid (by decide)
    have he : str "ECC6" = 69 :: str "CC6" := by decide
    have hn : str "no_device" = 110 :: str "o_device" := by decide
    have hpre : HasPrefix
        (kitId ++ 32 :: (iface ++ 32 :: i1 :: i2 :: 40 :: a1 :: a2 :: 41 :: t))
        (str "no_device") = false := by
      rw [hn]
      apply HasPrefix_first _ (str "CC6") _ 69 110 (by decide)
      rw [← he]
      exact HasPrefix_append _ _ _ hid
    unfold parseKitDevice
    rw [if_neg (by rw [hpre]; decide),
      sscanfKitDevice_reply kitId iface t i1 i2 a1 a2 hkne hkws hfne hfws hi1 hi2 ha1 ha2]
    simp only [deviceTypeFromKitId, hid, if_true, hkt]
  · intro σ B cfg n i s s' buf hreply hpre
    rw [kitInitLoop]
    unfold getKitDeviceByIndex
    rw [hreply]
    simp only [hnodev buf hpre, if_true]

theorem parseKitDevice_reply_witness :
    parseKitDevice (str "ECC608A-XY" ++ 32 :: (str "SWI" ++ 32 :: 48 :: 49 :: 40 :: 99 ::
        48 :: 41 :: []))
      = .ok ⟨DeviceATECC608,
          (if str "SWI" = str "TWI" then KitTypeI2C
            else if str "SWI" = str "SWI" then KitTypeSWI else KitTypeSPI),
          16 * reverseHexTable 99 + reverseHexTable 48⟩ :=
  (parseKitDevice_reply (str "ECC608A-XY") (str "SWI") [] 48 49 99 48 (by decide) (by decide)
    (Or.inr (Or.inl rfl)) (by decide) (by decide) (by decide) (by decide)).1

/-! ### Checksum and frame: the count byte, the checksum bytes, leading zeros -/

theorem crc16Byte_zero : crc16Byte 0 0 = 0 := by decide

theorem crc16_append (a b : List Nat) : crc16 (a ++ b) = b.foldl crc16Byte (crc16 a) := by
  unfold crc16
  rw [List.foldl_append]

theorem crc16_zeros (z : List Nat) (hz : ∀ x ∈ z, x = 0) : crc16 z = 0 := by
  induction z with
  | nil => rfl
  | cons a t ih =>
    have ha : a = 0 := hz a (List.mem_cons_self _ _)
    subst ha
    have ht : crc16 t = 0 := ih (fun x hx => hz x (List.mem_cons_of_mem _ hx))
    unfold crc16 at ht ⊢
    rw [List.foldl_cons, crc16Byte_zero]
    exact ht

/-- C39: `crc16` of the empty sequence is `0x0000`; for every sequence `z` of zero
bytes `crc16 z = 0x0000`, and `crc16 (z ++ d) = crc16 d` for every byte sequence `d`. -/
theorem crc16_blind_to_leading_zeros (z d : List Nat) (hz : ∀ x ∈ z, x = 0) :
    crc16 [] = 0x0000 ∧ crc16 z = 0x0000 ∧ crc16 (z ++ d) = crc16 d := by
  refine ⟨rfl, crc16_zeros z hz, ?_⟩
  rw [crc16_append, crc16_zeros z hz]
  rfl

theorem crc16_blind_to_leading_zeros_witness :
    (∀ x ∈ ([0, 0, 0] : List Nat), x = 0) ∧
    crc16 [] = 0x0000 ∧ crc16 [0, 0, 0] = 0x0000 ∧
      crc16 ([0, 0, 0] ++ [0x61]) = crc16 [0x61] :=
  ⟨by decide, crc16_blind_to_leading_zeros [0, 0, 0] [0x61] (by decide)⟩

theorem encode_length (p : packet) : (Encode p).1.length = 7 + p.data.length := by
  simp only [Encode, appendUint16, List.length_append, List.length_cons, List.length_nil]
  omega

theorem encode_head (p : packet) : (Encode p).1.head? = some p.Size := by
  simp only [Encode, appendUint16, List.nil_append, List.cons_append, List.head?_cons]

/-- C33, amended: for every packet built by `newPacket`, the first byte of
the frame `f = Encode(p)` is the length of the whole frame, the count byte itself
included: `f[0] = len(f) = 7 + len(data)`. -/
theorem encode_count_byte_is_frame_length (opcode param1 param2 : Nat) (data : List Nat)
    (p : packet) (hp : newPacket opcode param1 param2 data = .ok p) :
    (Encode p).1.head? = some (Encode p).1.length ∧
    (Encode p).1.length = 7 + data.length := by
  rw [newPacket_ok_iff] at hp
  obtain ⟨hlen, rfl⟩ := hp
  refine ⟨?_, encode_length _⟩
  rw [encode_head, encode_length]
  simp only [packet.Size, atcaCmdSizeMin]
  congr 1
  omega

theorem encode_count_byte_is_frame_length_witness :
    newPacket 0x30 0 0 [] = .ok infoPacket ∧
    (Encode infoPacket).1.head? = some (Encode infoPacket).1.length ∧
    (Encode infoPacket).1.length = 7 + ([] : List Nat).length :=
  ⟨rfl, encode_count_byte_is_frame_length 0x30 0 0 [] infoPacket rfl⟩

set_option maxRecDepth 100000 in
/-- C33, as stated, fails: the Info/Revision packet is built by `newPacket`, its frame
has 7 bytes and its first byte is 7, not `len(f) - 1 = 6`. -/
theorem encode_count_byte_counts_itself :
    newPacket 0x30 0 0 [] = .ok infoPacket ∧
    (Encode infoPacket).1 = [0x07, 0x30, 0x00, 0x00, 0x00, 0x03, 0x5D] ∧
    (Encode infoPacket).1.head? = some 7 ∧ (Encode infoPacket).1.length = 7 ∧
    (Encode infoPacket).1.head? ≠ some ((Encode infoPacket).1.length - 1) := by
  have h : (Encode infoPacket).1 = [0x07, 0x30, 0x00, 0x00, 0x00, 0x03, 0x5D] := by decide
  refine ⟨rfl, h, ?_, ?_, ?_⟩ <;> rw [h] <;> decide

theorem encode_split (p : packet) :
    ∃ body, (Encode p).1 = body ++ [crc16 body % 256, (crc16 body >>> 8) % 256] := by
  refine ⟨[p.Size, p.opcode, p.param1, p.param2 % 256, (p.param2 >>> 8) % 256] ++ p.data, ?_⟩
  simp only [Encode, appendUint16, List.nil_append, List.cons_append, List.append_assoc]

theorem crc_bytes_value (c : Nat) (hc : c < 2 ^ 16) :
    (c % 256) ||| (((c >>> 8) % 256) <<< 8) = c := by
  have h : (c >>> 8) % 256 = c / 256 := by
    rw [Nat.shiftRight_eq_div_pow]; omega
  rw [h, le_bytes_crc]

/-- C34, amended: for every packet built by `newPacket` with frame
`f = Encode(p)`, of `7 + len(data)` bytes, the two trailing bytes of `f` hold,
little-endian, `crc16` of `f` without those two bytes. -/
theorem encode_checksum_of_frame_without_trailer (opcode param1 param2 : Nat)
    (data : List Nat) (p : packet) (hp : newPacket opcode param1 param2 data = .ok p) :
    (Encode p).1.length = 7 + data.length ∧
    uint16LE ((Encode p).1.drop ((Encode p).1.length - 2)) =
      some (crc16 ((Encode p).1.take ((Encode p).1.length - 2))) := by
  rw [newPacket_ok_iff] at hp
  obtain ⟨_, rfl⟩ := hp
  refine ⟨encode_length _, ?_⟩
  generalize (⟨opcode, param1, param2, data⟩ : packet) = p
  obtain ⟨body, hb⟩ := encode_split p
  rw [hb]
  have h1 : (body ++ [crc16 body % 256, (crc16 body >>> 8) % 256]).length - 2 = body.length := by
    simp
  rw [h1, List.drop_left, List.take_left]
  show some _ = some _
  rw [crc_bytes_value _ (crc16_lt body)]

set_option maxRecDepth 100000 in
theorem encode_checksum_of_frame_without_trailer_witness :
    newPacket 0x30 0 0 [] = .ok infoPacket ∧
    (Encode infoPacket).1.length = 7 + ([] : List Nat).length ∧
    uint16LE ((Encode infoPacket).1.drop ((Encode infoPacket).1.length - 2)) =
      some (crc16 ((Encode infoPacket).1.take ((Encode infoPacket).1.length - 2))) :=
  ⟨rfl, encode_checksum_of_frame_without_trailer 0x30 0 0 [] infoPacket rfl⟩

set_option maxRecDepth 100000 in
/-- C34, as stated, fails: in the Info/Revision frame `07 30 00 00 00 03 5D` the stored
value is `0x5D03`, and `crc16` over the frame with its two trailing bytes replaced by
`00 00` is `0xCE0C`. -/
theorem encode_checksum_zero_placeholders_differ :
    newPacket 0x30 0 0 [] = .ok infoPacket ∧
    (Encode infoPacket).1 = [0x07, 0x30, 0x00, 0x00, 0x00] ++ [0x03, 0x5D] ∧
    uint16LE [0x03, 0x5D] = some 0x5D03 ∧
    crc16 ([0x07, 0x30, 0x00, 0x00, 0x00] ++ [0x00, 0x00]) = 0xCE0C ∧
    crc16 ([0x07, 0x30, 0x00, 0x00, 0x00] ++ [0x00, 0x00]) ≠ 0x5D03 := by
  have h5 : crc16 [0x07, 0x30, 0x00, 0x00, 0x00] = 0x5D03 := by decide
  have h7 : crc16 ([0x07, 0x30, 0x00, 0x00, 0x00] ++ [0x00, 0x00]) = 0xCE0C := by
    rw [crc16_append, h5]
    decide
  refine ⟨rfl, by decide, rfl, h7, ?_⟩
  rw [h7]
  decide

/-! ### Write commands, coordinates, Secure Boot bits -/

theorem goCopy_scratch (k : Nat) (v : List Nat) (h : v.length ≤ k) :
    goCopy (List.replicate k 0) v = v ++ List.replicate (k - v.length) 0 := by
  unfold goCopy
  rw [List.length_replicate, List.take_of_length_le h, List.drop_replicate]

/-- C36 (the code at the failing inputs): the payload of the packet `newWriteCommand`
builds is the whole 64-byte scratch array, the value followed by zeros: a 4-byte value
without MAC gives 60 trailing zero bytes and a frame of 71 bytes (not 11), a 32-byte
value without MAC gives 32 trailing zero bytes and a frame of 71 bytes (not 39).
`param1` is the zone for 4 bytes and the zone with `0x80` for 32 bytes, and a value of
any other length is refused. -/
theorem newWriteCommand_payload_is_scratch (zone addr : Nat) :
    newWriteCommand ZoneConfig 0x0004 [1, 2, 3, 4] none
      = .ok ⟨atcaWrite, ZoneConfig, 0x0004, [1, 2, 3, 4] ++ List.replicate 60 0⟩ ∧
    (∀ v : List Nat, v.length = 4 →
      newWriteCommand zone addr v none
        = .ok ⟨atcaWrite, zone, addr, v ++ List.replicate 60 0⟩ ∧
      (Encode ⟨atcaWrite, zone, addr, v ++ List.replicate 60 0⟩).1.length = 71) ∧
    (∀ v : List Nat, v.length = 32 →
      newWriteCommand zone addr v none
        = .ok ⟨atcaWrite, zone ||| 0x80, addr, v ++ List.replicate 32 0⟩ ∧
      (Encode ⟨atcaWrite, zone ||| 0x80, addr, v ++ List.replicate 32 0⟩).1.length = 71) ∧
    (∀ (v : List Nat) (mac : Option (List Nat)), v.length ≠ 4 → v.length ≠ 32 →
      newWriteCommand zone addr v mac = .error writeDataExceedsBlockSize) := by
  refine ⟨rfl, ?_, ?_, ?_⟩
  · intro v hv
    constructor
    · unfold newWriteCommand
      simp only [atcaBlockSize, atcaWordSize, List.length_replicate, Option.isSome_none]
      have hm : min (32 * 2) v.length = 4 := by omega
      rw [goCopy_scratch _ v (by omega)]
      simp [hm, hv, newPacket, atcaCmdSizeMax]
    · rw [encode_length]
      simp [hv]
  · intro v hv
    constructor
    · unfold newWriteCommand
      simp only [atcaBlockSize, atcaWordSize, List.length_replicate, Option.isSome_none]
      have hm : min (32 * 2) v.length = 32 := by omega
      rw [goCopy_scratch _ v (by omega)]
      simp [hm, hv, newPacket, atcaCmdSizeMax, atcaZoneReadWrite32]
    · rw [encode_length]
      simp [hv]
  · intro v mac h4 h32
    unfold newWriteCommand
    simp only [atcaBlockSize, atcaWordSize, List.length_replicate]
    have h1 : ¬ min (32 * 2) v.length = 4 := by omega
    have h2 : ¬ min (32 * 2) v.length = 32 := by omega
    rw [if_neg h1, if_neg h2]

/-- C37 (the code at the failing inputs): `getAddr` does not look at the slot.  For the
Data zone and slot 16 it returns the address `0x0080`, and `readZone` and `writeZone`
hand a Read, respectively a Write, with that address to the device and return what the
device answers; no slot of the Data zone is refused by `getAddr`.  An unsupported zone
is refused by both with nothing sent. -/
theorem zone_calls_do_not_check_slot {σ : Type} (X : Executor σ) (w : World σ)
    (zone slot block offset : Nat) :
    getAddr ZoneData 16 0 0 = .ok 0x0080 ∧
    (readZone X ZoneData 16 0 0 [0, 0, 0, 0] w).2.issued
      = w.issued ++ [⟨atcaRead, ZoneData, 0x0080, []⟩] ∧
    (writeZone X ZoneData 16 0 0 [1, 2, 3, 4] w).2.issued
      = w.issued ++ [⟨atcaWrite, ZoneData, 0x0080, [1, 2, 3, 4] ++ List.replicate 60 0⟩] ∧
    (readZone acceptAll ZoneData 16 0 0 [9, 9, 9, 9] ⟨(), []⟩).1
      = .ret (1, none, [0, 9, 9, 9]) ∧
    (writeZone acceptAll ZoneData 16 0 0 [1, 2, 3, 4] ⟨(), []⟩).1 = .ret none ∧
    (∃ addr, getAddr ZoneData slot block offset = .ok addr) ∧
    (∀ data : List Nat, zone ≠ ZoneConfig → zone ≠ ZoneOTP → zone ≠ ZoneData →
      (∃ e, readZone X zone slot block offset data w = (.ret (0, some e, data), w)) ∧
      (∃ e, writeZone X zone slot block offset data w = (.ret (some e), w))) := by
  refine ⟨rfl, ?_, ?_, rfl, rfl, ⟨_, rfl⟩, ?_⟩
  · have h : readZone X ZoneData 16 0 0 [0, 0, 0, 0] w
        = execResponse X ⟨atcaRead, ZoneData, 0x0080, []⟩ [0, 0, 0, 0] w := rfl
    rw [h]
    unfold execResponse
    rcases hx : X ⟨atcaRead, ZoneData, 0x0080, []⟩ [0, 0, 0, 0] w.dev with ⟨out, s⟩
    rcases out with ⟨n, e, r⟩ | _ | _ <;> rfl
  · have h : writeZone X ZoneData 16 0 0 [1, 2, 3, 4] w
        = execute X ⟨atcaWrite, ZoneData, 0x0080, [1, 2, 3, 4] ++ List.replicate 60 0⟩ w := rfl
    rw [h]
    exact execute_issued X _ w
  · intro data h0 h1 h2
    have ha : getAddr zone slot block offset = .error invalidZoneReceived := by
      unfold getAddr
      simp [h0, h1, h2]
    constructor
    · unfold readZone
      split
      · exact ⟨_, rfl⟩
      · rw [ha]
        exact ⟨_, rfl⟩
    · unfold writeZone
      split
      · exact ⟨_, rfl⟩
      · rw [ha]
        exact ⟨_, rfl⟩

/-! ### Secure Boot bits -/

set_option maxRecDepth 1000000 in
theorem and3_shape (b : Nat) (hb : b < 256) :
    b &&& 0x03 = b % 4 ∧ (b &&& 0x04) >>> 2 = (b >>> 2) &&& 1 ∧
    ((b &&& 0x08 != 0) = b.testBit 3) ∧ ((b &&& 0x10 != 0) = b.testBit 4) ∧
    (b &&& 0xe0) >>> 4 = 2 * (b >>> 5) := by
  revert hb
  revert b
  decide

/-- C31 (the code at the failing input): `Reserved1()` is `(Bits1 & 0xe0) >> 4`, twice
the three bits the layout puts at bit 5: for `Bits1 = 0x20` it returns 2 where
`Bits1 >> 5` is 1, for `0xE0` it returns 14, outside `0..7`, and the five fields put
together give `0x40`, not `0x20`.  The other four accessors split the byte as
documented. -/
theorem secureBoot_reserved1_is_doubled (bits1 bits2 : Nat) :
    SecureBoot.Reserved1 ⟨0x20, 0⟩ = 2 ∧ 0x20 >>> 5 = 1 ∧
    SecureBoot.Reserved1 ⟨0xE0, 0⟩ = 14 ∧
    (SecureBoot.Mode ⟨0x20, 0⟩ ||| (SecureBoot.Reserved0 ⟨0x20, 0⟩ <<< 2)
      ||| ((SecureBoot.PersistentEnabled ⟨0x20, 0⟩).toNat <<< 3)
      ||| ((SecureBoot.RandNonce ⟨0x20, 0⟩).toNat <<< 4)
      ||| (SecureBoot.Reserved1 ⟨0x20, 0⟩ <<< 5)) = 0x40 ∧
    (bits1 < 256 →
      SecureBoot.Reserved1 ⟨bits1, bits2⟩ = 2 * (bits1 >>> 5) ∧
      SecureBoot.Mode ⟨bits1, bits2⟩ = bits1 &&& 3 ∧
      SecureBoot.Reserved0 ⟨bits1, bits2⟩ = (bits1 >>> 2) &&& 1 ∧
      SecureBoot.PersistentEnabled ⟨bits1, bits2⟩ = bits1.testBit 3 ∧
      SecureBoot.RandNonce ⟨bits1, bits2⟩ = bits1.testBit 4) := by
  refine ⟨by decide, by decide, by decide, by decide, ?_⟩
  intro hb
  obtain ⟨_, h2, h3, h4, h5⟩ := and3_shape bits1 hb
  exact ⟨h5, rfl, h2, h3, h4⟩

/-! ### External verification -/

theorem verifyExtern_nil {σ : Type} (X : Executor σ) (deviceType : Int)
    (msg sig pub : Option (List Nat)) (w : World σ)
    (h : msg = none ∨ sig = none ∨ pub = none) :
    verifyExtern X deviceType msg sig pub w
      = (.ret (false, some expectedMessageSignatureAndPublicKey), w) := by
  rcases msg with _ | m <;> rcases sig with _ | s <;> rcases pub with _ | p <;>
    first
    | rfl
    | (exfalso; rcases h with h | h | h <;> cases h)

set_option maxRecDepth 100000 in
/-- C38: `verifyExtern` returns `false` with the error when an argument is nil, when the
nonce load fails and when the Verify command cannot be built; once the Verify command
is executed with error `err` (nil included) it returns `(err != errCRC, err)`, so `true`
for every outcome but `errCRC`.  On a device that accepts the nonce: success gives
`(true, nil)`, check-mac-verify failed and a transport error give `true` with that
error, `errCRC` gives `false`. -/
theorem verifyExtern_true_iff_executed_and_not_crc {σ : Type} (X : Executor σ)
    (deviceType : Int) (msg sig pub : Option (List Nat)) (w : World σ) :
    ((msg = none ∨ sig = none ∨ pub = none) →
      verifyExtern X deviceType msg sig pub w
        = (.ret (false, some expectedMessageSignatureAndPublicKey), w)) ∧
    (∀ m s p, msg = some m → sig = some s → pub = some p →
      (∀ e w1,
        nonceLoad X (if deviceType = DeviceATECC608 then nonceTargetMsgDigBuf
          else nonceTargetTempKey) (some m) w = (.ret (some e), w1) →
        verifyExtern X deviceType msg sig pub w = (.ret (false, some e), w1)) ∧
      (∀ w1,
        nonceLoad X (if deviceType = DeviceATECC608 then nonceTargetMsgDigBuf
          else nonceTargetTempKey) (some m) w = (.ret none, w1) →
        (∀ e,
          newVerifyCommand verifyModeExternal
            (if deviceType = DeviceATECC608 then verifySourceMsgDigBuf
              else verifySourceTempKey) verifyKeyP256 s p none = .error e →
          verifyExtern X deviceType msg sig pub w = (.ret (false, some e), w1)) ∧
        (∀ cmd err w2,
          newVerifyCommand verifyModeExternal
            (if deviceType = DeviceATECC608 then verifySourceMsgDigBuf
              else verifySourceTempKey) verifyKeyP256 s p none = .ok cmd →
          execute X cmd w1 = (.ret err, w2) →
          ∃ ok, verifyExtern X deviceType msg sig pub w = (.ret (ok, err), w2) ∧
            (ok = true ↔ err ≠ some errCRC)))) ∧
    (verifyExtern (verifyAnswers none) DeviceATECC608 (some (List.replicate 32 1))
        (some (List.replicate 64 2)) (some (List.replicate 64 3)) ⟨(), []⟩).1
      = .ret (true, none) ∧
    (verifyExtern (verifyAnswers (some errCheckMacVerifyFailed)) DeviceATECC608
        (some (List.replicate 32 1)) (some (List.replicate 64 2))
        (some (List.replicate 64 3)) ⟨(), []⟩).1
      = .ret (true, some errCheckMacVerifyFailed) ∧
    (verifyExtern (verifyAnswers (some (Err.hal 1))) DeviceATECC608
        (some (List.replicate 32 1)) (some (List.replicate 64 2))
        (some (List.replicate 64 3)) ⟨(), []⟩).1
      = .ret (true, some (Err.hal 1)) ∧
    (verifyExtern (verifyAnswers (some errCRC)) DeviceATECC608
        (some (List.replicate 32 1)) (some (List.replicate 64 2))
        (some (List.replicate 64 3)) ⟨(), []⟩).1
      = .ret (false, some errCRC) ∧
    verifyExtern (verifyAnswers none) DeviceATECC608 (some (List.replicate 5 1))
        (some (List.replicate 64 2)) (some (List.replicate 64 3)) ⟨(), []⟩
      = (.ret (false, some invalidNonceSizeRequested), ⟨(), []⟩) ∧
    (verifyExtern (verifyAnswers none) DeviceATECC608 (some (List.replicate 32 1))
        (some (List.replicate 64 2)) (some (List.replicate 3 3)) ⟨(), []⟩).1
      = .ret (false, some invalidPublicKeyReceived) := by
  refine ⟨verifyExtern_nil X deviceType msg sig pub w, ?_, by rfl, by rfl, by rfl, by rfl,
    by rfl, by rfl⟩
  intro m s p hm hs hp
  subst hm; subst hs; subst hp
  refine ⟨?_, ?_⟩
  · intro e w1 hn
    simp only [verifyExtern, hn]
  · intro w1 hn
    refine ⟨?_, ?_⟩
    · intro e he
      simp only [verifyExtern, hn, he]
    · intro cmd err w2 hc hx
      refine ⟨decide (err ≠ some errCRC), ?_, ?_⟩
      · simp only [verifyExtern, hn, hc, hx]
      · simp

/-! ### Zone addressing engine: reads that deliver fewer bytes than asked for -/

theorem readZone_emptyAnswer (o : Nat) (w : World Unit) :
    ∃ w1, readZone emptyAnswer ZoneConfig 0 0 o (List.replicate 32 0) w
      = (.ret (0, none, List.replicate 32 0), w1) := by
  unfold readZone
  rw [if_neg (by decide)]
  have ha : ∃ addr, getAddr ZoneConfig 0 0 o = .ok addr := ⟨_, rfl⟩
  obtain ⟨addr, ha⟩ := ha
  rw [ha]
  exact ⟨_, rfl⟩

theorem readBytesLoop_emptyAnswer (fuel : Nat) : ∀ (k : Nat) (w : World Unit),
    (readBytesLoop emptyAnswer ZoneConfig 0 0 128 fuel (List.replicate 32 0) 32 0 (k : Int) 0
      [0, 0, 0, 0] w).1 = .outOfFuel := by
  induction fuel with
  | zero => intro k w; rfl
  | succ n ih =>
    intro k w
    obtain ⟨w1, hrz⟩ := readZone_emptyAnswer (((k : Int) % 256).toNat) w
    have hrz2 : readZone emptyAnswer ZoneConfig 0 ((0 : Int) % 256).toNat
        (((k : Int) % 256).toNat) ((List.replicate 32 0).take 32) w
        = (.ret (0, none, List.replicate 32 0), w1) := hrz
    rw [readBytesLoop, if_neg (by decide)]
    have hsw : (if 32 = atcaBlockSize ∧ (128 : Int) - 0 * 32 < 32 then
        (atcaWordSize, ((0 + 0 : Int).tdiv 4).tmod (32 / 4)) else (32, (k : Int)))
        = (32, (k : Int)) := by
      rw [if_neg (by decide)]
    simp only [hsw, hrz2]
    have h1 : ¬ ((0 : Int) * 32 + (k : Int) * 4 < 0) := by omega
    simp only [if_neg h1]
    have := ih (k + 1) w1
    exact this

set_option maxRecDepth 100000 in
/-- C40 (the code at the failing inputs): the status-only frame `04 00 03 40` answers a
32-byte Read of the Config zone with `(1, nil)`; a 4-byte `readBytesZone` at offset 4 of
the Config zone then has `readBufIdx = 4` and `copyLength = 1 - 4 = -3`, and the slice
`readBuf[4:1]` panics in the first iteration.  When the answer is `(0, nil)`, as for the
3-byte frame `03 80 02`, an iteration copies nothing and moves only the word counter:
the loop is still running after any number of iterations. -/
theorem readBytesZone_short_answer_panics (fuel : Nat) :
    (executeResponse (replyEnv [0x04, 0x00, 0x03, 0x40]) ⟨atcaRead, 0x80, 0x0000, []⟩
        (List.replicate 32 0) freshDev).1 = .ret (1, none, List.replicate 32 0) ∧
    (readZone (executeResponse (replyEnv [0x04, 0x00, 0x03, 0x40])) ZoneConfig 0 0 0
        (List.replicate 32 0) ⟨freshDev, []⟩).1 = .ret (1, none, List.replicate 32 0) ∧
    (readBytesZone (executeResponse (replyEnv [0x04, 0x00, 0x03, 0x40])) (fuel + 1)
        ZoneConfig 0 4 [0, 0, 0, 0] ⟨freshDev, []⟩).1 = .panicked ∧
    (readBytesZone acceptAll (fuel + 1) ZoneConfig 0 4 [0, 0, 0, 0] ⟨(), []⟩).1 = .panicked ∧
    (executeResponse (replyEnv [0x03, 0x80, 0x02]) ⟨atcaRead, 0x80, 0x0000, []⟩
        (List.replicate 32 0) freshDev).1 = .ret (0, none, List.replicate 32 0) ∧
    (readBytesZone emptyAnswer fuel ZoneConfig 0 0 [0, 0, 0, 0] ⟨(), []⟩).1 = .outOfFuel := by
  refine ⟨by rfl, by rfl, by rfl, by rfl, by rfl, ?_⟩
  exact readBytesLoop_emptyAnswer fuel 0 ⟨(), []⟩

/-! ### Zone addressing engine: the writes of a 64-byte request to the Config zone -/

/-- A block-wise iteration against a device that accepts every command. -/
theorem writeBytesLoop_accept_block {σ : Type} (X : Executor σ) (hX : Accepts X)
    (slot : Nat) (data : List Nat) (fuel block block1 index index1 : Nat) (w : World σ)
    (hb : block1 = block + 1) (hi : index1 = index + 32) (hb1 : block1 < 256)
    (hr : index1 ≤ data.length) (hl : block ≠ 2) :
    ∃ cmd w1,
      writeCommandFor ZoneConfig slot block 0 ((data.drop index).take 32) = .ok cmd ∧
      w1.issued = w.issued ++ [cmd] ∧
      writeBytesLoop X ZoneConfig slot data (fuel + 1) block 0 index w =
        writeBytesLoop X ZoneConfig slot data fuel block1 0 index1 w1 := by
  subst hb; subst hi
  obtain ⟨cmd, w1, hc, hz, hi⟩ := writeZone_accept X hX ZoneConfig slot block 0
    ((data.drop index).take 32) w (Or.inl rfl) (Or.inl (by simp; omega))
  refine ⟨cmd, w1, hc, hi, ?_⟩
  rw [writeBytesLoop_block_step X ZoneConfig slot data fuel block 0 index w rfl hr
    (by simp only [LockOffsetBlock]; tauto), hz]
  have e : (block + 1) % 256 = block + 1 := by omega
  simp only [e]

/-- A word-wise iteration in block 2, off the lock word, against a device that accepts
every command. -/
theorem writeBytesLoop_accept_word {σ : Type} (X : Executor σ) (hX : Accepts X)
    (slot : Nat) (data : List Nat) (fuel word word1 index index1 : Nat) (w : World σ)
    (hw : word1 = word + 1) (hi : index1 = index + 4)
    (hr : index1 ≤ data.length) (hw8 : word1 ≤ 8) (hl : word ≠ 5) :
    ∃ cmd w1,
      writeCommandFor ZoneConfig slot 2 word ((data.drop index).take 4) = .ok cmd ∧
      w1.issued = w.issued ++ [cmd] ∧
      writeBytesLoop X ZoneConfig slot data (fuel + 1) 2 word index w =
        if word1 = 8 then writeBytesLoop X ZoneConfig slot data fuel 3 0 index1 w1
        else writeBytesLoop X ZoneConfig slot data fuel 2 word1 index1 w1 := by
  subst hw; subst hi
  obtain ⟨cmd, w1, hc, hz, hi⟩ := writeZone_accept X hX ZoneConfig slot 2 word
    ((data.drop index).take 4) w (Or.inl rfl) (Or.inr (by simp; omega))
  refine ⟨cmd, w1, hc, hi, ?_⟩
  rw [writeBytesLoop_word_step X ZoneConfig slot data fuel 2 word index w hr
    (Or.inr ⟨rfl, rfl⟩) (by simp only [LockOffsetWord]; tauto), hz]
  have e : (word + 1) % 256 = word + 1 := by omega
  simp only [e]

theorem lockBlockCalls_bytes (data : List Nat) (hlen : data.length = 64) :
    ((lockBlockCalls data).map WriteCall.chunk).flatten = data.take 20 ++ data.drop 24 := by
  have e1 : data.take 20 = (data.drop 0).take 4 ++ (data.drop 4).take 4 ++
      (data.drop 8).take 4 ++ (data.drop 12).take 4 ++ (data.drop 16).take 4 := by
    have t : ∀ m, data.take (m + 4) = data.take m ++ (data.drop m).take 4 :=
      fun m => List.take_add data m 4
    rw [show (20 : Nat) = 16 + 4 from rfl, t 16, show (16 : Nat) = 12 + 4 from rfl, t 12,
      show (12 : Nat) = 8 + 4 from rfl, t 8, show (8 : Nat) = 4 + 4 from rfl, t 4,
      show (4 : Nat) = 0 + 4 from rfl, t 0]
    simp
  have e2 : data.drop 24 = (data.drop 24).take 4 ++ (data.drop 28).take 4 ++
      (data.drop 32).take 32 := by
    have d : ∀ m n, data.drop m = (data.drop m).take n ++ data.drop (m + n) := by
      intro m n
      rw [← List.drop_drop, List.take_append_drop]
    have e3 : (data.drop 32).take 32 = data.drop 32 :=
      List.take_of_length_le (by simp; omega)
    rw [e3, List.append_assoc]
    conv_lhs => rw [d 24 4]
    congr 1
    exact d 28 4
  rw [e1, e2]
  simp [lockBlockCalls]

theorem writeBytesZone_config_at_64 {σ : Type} (X : Executor σ) (fuel slot : Nat)
    (data : List Nat) (w : World σ) (hlen : data.length = 64) :
    writeBytesZone X fuel ZoneConfig slot 64 data w
      = writeBytesLoop X ZoneConfig slot data fuel 2 0 0 w := by
  simp [writeBytesZone, getZoneSize, ZoneConfig, ZoneData, atcaWordSize, atcaBlockSize,
    zoneSizeConfig, hlen]

/-- C32, amended: a 64-byte request at byte offset 64 of the Config zone, to
a device that accepts every command, returns `(64, nil)` and issues the commands of
eight `writeZone` calls: words 0 to 4, 6 and 7 of block 2 and block 3.  Together they
carry bytes `0..19` and `24..63` of the request, 60 of the 64 bytes; the word at offset
20 of the request (bytes 84..87 of the zone) is not written. -/
theorem writeBytesZone_config_skips_lock_word {σ : Type} (X : Executor σ) (hX : Accepts X)
    (fuel slot : Nat) (data : List Nat) (w : World σ) (hlen : data.length = 64)
    (hfuel : 10 ≤ fuel) :
    ∃ (cmds : List packet) (w1 : World σ),
      writeBytesZone X fuel ZoneConfig slot 64 data w = (.ret (64, none), w1) ∧
      w1.issued = w.issued ++ cmds ∧
      List.Forall₂ (fun c cmd => writeCommandFor ZoneConfig slot c.block c.word c.chunk = .ok cmd)
        (lockBlockCalls data) cmds ∧
      ((lockBlockCalls data).map WriteCall.chunk).flatten = data.take 20 ++ data.drop 24 ∧
      ((lockBlockCalls data).map WriteCall.chunk).flatten.length = 60 ∧
      (∀ c ∈ lockBlockCalls data, ∀ i, c.start ≤ i → i < c.stop → ¬ lockByte ZoneConfig i) := by
  obtain ⟨f, rfl⟩ : ∃ f, fuel = f + 10 := ⟨fuel - 10, by omega⟩
  rw [writeBytesZone_config_at_64 X _ slot data w hlen]
  obtain ⟨c0, w0, h0, i0, s0⟩ := writeBytesLoop_accept_word X hX slot data (f + 9) 0 1 0 4 w
    rfl rfl (by omega) (by omega) (by omega)
  obtain ⟨c1, w1, h1, i1, s1⟩ := writeBytesLoop_accept_word X hX slot data (f + 8) 1 2 4 8 w0
    rfl rfl (by omega) (by omega) (by omega)
  obtain ⟨c2, w2, h2, i2, s2⟩ := writeBytesLoop_accept_word X hX slot data (f + 7) 2 3 8 12 w1
    rfl rfl (by omega) (by omega) (by omega)
  obtain ⟨c3, w3, h3, i3, s3⟩ := writeBytesLoop_accept_word X hX slot data (f + 6) 3 4 12 16 w2
    rfl rfl (by omega) (by omega) (by omega)
  obtain ⟨c4, w4, h4, i4, s4⟩ := writeBytesLoop_accept_word X hX slot data (f + 5) 4 5 16 20 w3
    rfl rfl (by omega) (by omega) (by omega)
  have s5 : writeBytesLoop X ZoneConfig slot data (f + 5) 2 5 20 w4
      = writeBytesLoop X ZoneConfig slot data (f + 4) 2 6 24 w4 :=
    writeBytesLoop_skip_step X ZoneConfig slot data (f + 4) 2 5 20 w4 (by omega)
      ⟨rfl, rfl, rfl⟩
  obtain ⟨c6, w6, h6, i6, s6⟩ := writeBytesLoop_accept_word X hX slot data (f + 3) 6 7 24 28 w4
    rfl rfl (by omega) (by omega) (by omega)
  obtain ⟨c7, w7, h7, i7, s7⟩ := writeBytesLoop_accept_word X hX slot data (f + 2) 7 8 28 32 w6
    rfl rfl (by omega) (by omega) (by omega)
  obtain ⟨c8, w8, h8, i8, s8⟩ := writeBytesLoop_accept_block X hX slot data (f + 1) 3 4 32 64 w7
    rfl rfl (by omega) (by omega) (by omega)
  have s9 : writeBytesLoop X ZoneConfig slot data (f + 1) 4 0 64 w8 = (.ret (64, none), w8) :=
    writeBytesLoop_done X ZoneConfig slot data f 4 0 64 w8 (by omega)
  rw [if_neg (by decide)] at s0 s1 s2 s3 s4 s6
  rw [if_pos rfl] at s7
  refine ⟨[c0, c1, c2, c3, c4, c6, c7, c8], w8, ?_, ?_, ?_, lockBlockCalls_bytes data hlen, ?_, ?_⟩
  · rw [s0, s1, s2, s3, s4, s5, s6, s7, s8, s9]
  · rw [i8, i7, i6, i4, i3, i2, i1, i0]
    simp
  · exact List.Forall₂.cons h0 (List.Forall₂.cons h1 (List.Forall₂.cons h2
      (List.Forall₂.cons h3 (List.Forall₂.cons h4 (List.Forall₂.cons h6
      (List.Forall₂.cons h7 (List.Forall₂.cons h8 List.Forall₂.nil)))))))
  · rw [lockBlockCalls_bytes data hlen]
    simp
    omega
  · intro c hc i h1 h2 hlock
    simp only [lockBlockCalls, List.mem_cons, List.mem_singleton, List.not_mem_nil,
      or_false] at hc
    unfold lockByte at hlock
    rcases hc with rfl | rfl | rfl | rfl | rfl | rfl | rfl | rfl <;>
      simp [WriteCall.start, WriteCall.stop, hlen] at h1 h2 <;> omega

set_option maxRecDepth 100000 in
theorem writeBytesZone_config_skips_lock_word_witness :
    ∃ (cmds : List packet) (w1 : World Unit),
      writeBytesZone acceptAll 10 ZoneConfig 0 64 (List.range 64) ⟨(), []⟩
        = (.ret (64, none), w1) ∧
      w1.issued = (⟨(), []⟩ : World Unit).issued ++ cmds ∧
      List.Forall₂ (fun c cmd => writeCommandFor ZoneConfig 0 c.block c.word c.chunk = .ok cmd)
        (lockBlockCalls (List.range 64)) cmds ∧
      ((lockBlockCalls (List.range 64)).map WriteCall.chunk).flatten
        = (List.range 64).take 20 ++ (List.range 64).drop 24 ∧
      ((lockBlockCalls (List.range 64)).map WriteCall.chunk).flatten.length = 60 ∧
      (∀ c ∈ lockBlockCalls (List.range 64), ∀ i, c.start ≤ i → i < c.stop →
        ¬ lockByte ZoneConfig i) :=
  writeBytesZone_config_skips_lock_word acceptAll acceptAll_accepts 10 0 (List.range 64)
    ⟨(), []⟩ (by decide) (by decide)

set_option maxRecDepth 100000 in
/-- C32, as stated, fails: a 64-byte request at byte offset 0 of the Config zone lies in
blocks 0 and 1, before the lock word at bytes 84..87; it is written with two 32-byte
block writes that carry all 64 bytes. -/
theorem writeBytesZone_config_at_0_writes_all :
    writeBytesZone acceptAll 10 ZoneConfig 0 0 (List.range 64) ⟨(), []⟩
      = (.ret (64, none),
          ⟨(), [⟨atcaWrite, 0x80, 0x0000, (List.range 64).take 32 ++ List.replicate 32 0⟩,
                ⟨atcaWrite, 0x80, 0x0008, (List.range 64).drop 32 ++ List.replicate 32 0⟩]⟩) ∧
    writeCommandFor ZoneConfig 0 0 0 ((List.range 64).take 32)
      = .ok ⟨atcaWrite, 0x80, 0x0000, (List.range 64).take 32 ++ List.replicate 32 0⟩ ∧
    writeCommandFor ZoneConfig 0 1 0 ((List.range 64).drop 32)
      = .ok ⟨atcaWrite, 0x80, 0x0008, (List.range 64).drop 32 ++ List.replicate 32 0⟩ ∧
    (List.range 64).take 32 ++ (List.range 64).drop 32 = List.range 64 ∧
    ((List.range 64).take 32 ++ (List.range 64).drop 32).length ≠ 60 := by
  refine ⟨by rfl, by rfl, by rfl, by rfl, by decide⟩

/-! ### Hex dumps -/

theorem foldl_append_pieces (g : Nat → List Nat) (l : List Nat) (init : List Nat) :
    l.foldl (fun buf i => buf ++ g i) init = init ++ l.flatMap g := by
  induction l generalizing init with
  | nil => simp
  | cons a t ih => simp [List.foldl_cons, ih, List.flatMap_cons, List.append_assoc]

theorem prettyHexIndent_pieces (data pre space : List Nat) :
    prettyHexIndent data pre space
      = (List.range data.length).flatMap (hexPiece data pre space) := by
  have h := foldl_append_pieces (hexPiece data pre space) (List.range data.length) []
  rw [List.nil_append] at h
  rw [← h]
  unfold prettyHexIndent
  dsimp only
  congr 1
  funext buf i
  unfold hexPiece
  by_cases h0 : i > 0 <;> by_cases h1 : i % 16 = 0 <;> by_cases h2 : i % 16 = 16 / 2 <;>
    simp [h0, h1, h2, List.append_assoc]

/-- One line: the pieces of the first `n <= 16` iterations are the prefix and the bytes
with their separators. -/
theorem hexLine_pieces (pre space : List Nat) (l : List Nat) (h0 : l ≠ [])
    (h16 : l.length ≤ 16) :
    (List.range l.length).flatMap (hexPiece l pre space) = hexLineText pre space l :=
  match l, h0, h16 with
  | [], h0, _ => absurd rfl h0
  | [x0], _, _ => by
    simp [hexPiece, hexLineText, hexBytesText, sprintf02X, List.range_succ, List.intercalate,
      List.intersperse, List.flatMap]
  | [x0, x1], _, _ => by
    simp [hexPiece, hexLineText, hexBytesText, sprintf02X, List.range_succ, List.intercalate,
      List.intersperse, List.flatMap]
  | [x0, x1, x2], _, _ => by
    simp [hexPiece, hexLineText, hexBytesText, sprintf02X, List.range_succ, List.intercalate,
      List.intersperse, List.flatMap]
  | [x0, x1, x2, x3], _, _ => by
    simp [hexPiece, hexLineText, hexBytesText, sprintf02X, List.range_succ, List.intercalate,
      List.intersperse, List.flatMap]
  | [x0, x1, x2, x3, x4], _, _ => by
    simp [hexPiece, hexLineText, hexBytesText, sprintf02X, List.range_succ, List.intercalate,
      List.intersperse, List.flatMap]
  | [x0, x1, x2, x3, x4, x5], _, _ => by
    simp [hexPiece, hexLineText, hexBytesText, sprintf02X, List.range_succ, List.intercalate,
      List.intersperse, List.flatMap]
  | [x0, x1, x2, x3, x4, x5, x6], _, _ => by
    simp [hexPiece, hexLineText, hexBytesText, sprintf02X, List.range_succ, List.intercalate,
      List.intersperse, List.flatMap]
  | [x0, x1, x2, x3, x4, x5, x6, x7], _, _ => by
    simp [hexPiece, hexLineText, hexBytesText, sprintf02X, List.range_succ, List.intercalate,
      List.intersperse, List.flatMap]
  | [x0, x1, x2, x3, x4, x5, x6, x7, x8], _, _ => by
    simp [hexPiece, hexLineText, hexBytesText, sprintf02X, List.range_succ, List.intercalate,
      List.intersperse, List.flatMap]
  | [x0, x1, x2, x3, x4, x5, x6, x7, x8, x9], _, _ => by
    simp [hexPiece, hexLineText, hexBytesText, sprintf02X, List.range_succ, List.intercalate,
      List.intersperse, List.flatMap]
  | [x0, x1, x2, x3, x4, x5, x6, x7, x8, x9, x10], _, _ => by
    simp [hexPiece, hexLineText, hexBytesText, sprintf02X, List.range_succ, List.intercalate,
      List.intersperse, List.flatMap]
  | [x0, x1, x2, x3, x4, x5, x6, x7, x8, x9, x10, x11], _, _ => by
    simp [hexPiece, hexLineText, hexBytesText, sprintf02X, List.range_succ, List.intercalate,
      List.intersperse, List.flatMap]
  | [x0, x1, x2, x3, x4, x5, x6, x7, x8, x9, x10, x11, x12], _, _ => by
    simp [hexPiece, hexLineText, hexBytesText, sprintf02X, List.range_succ, List.intercalate,
      List.intersperse, List.flatMap]
  | [x0, x1, x2, x3, x4, x5, x6, x7, x8, x9, x10, x11, x12, x13], _, _ => by
    simp [hexPiece, hexLineText, hexBytesText, sprintf02X, List.range_succ, List.intercalate,
      List.intersperse, List.flatMap]
  | [x0, x1, x2, x3, x4, x5, x6, x7, x8, x9, x10, x11, x12, x13, x14], _, _ => by
    simp [hexPiece, hexLineText, hexBytesText, sprintf02X, List.range_succ, List.intercalate,
      List.intersperse, List.flatMap]
  | [x0, x1, x2, x3, x4, x5, x6, x7, x8, x9, x10, x11, x12, x13, x14, x15], _, _ => by
    simp [hexPiece, hexLineText, hexBytesText, sprintf02X, List.range_succ, List.intercalate,
      List.intersperse, List.flatMap]
  | x0 :: x1 :: x2 :: x3 :: x4 :: x5 :: x6 :: x7 :: x8 :: x9 :: x10 :: x11 :: x12 :: x13 :: x14 :: x15 :: x16 :: t, _, h16 => by
    simp only [List.length_cons] at h16
    omega

theorem hexPiece_left (a b pre space : List Nat) (i : Nat) (hi : i < a.length) :
    hexPiece (a ++ b) pre space i = hexPiece a pre space i := by
  unfold hexPiece
  congr 2
  rw [List.drop_append_of_le_length (Nat.le_of_lt hi)]
  have hne : (a.drop i) ≠ [] := by
    intro h
    have := congrArg List.length h
    simp at this
    omega
  match hd : a.drop i, hne with
  | x :: t, _ => rfl

theorem hexPiece_right (a b pre space : List Nat) (j : Nat) (ha : a.length = 16) :
    hexPiece (a ++ b) pre space (16 + j)
      = (if j = 0 then [10] else []) ++ hexPiece b pre space j := by
  unfold hexPiece
  have hd : (a ++ b).drop (16 + j) = b.drop j := by
    rw [← ha, List.drop_append]
  have hm : (16 + j) % 16 = j % 16 := by omega
  rw [hd, hm]
  by_cases hj : j = 0
  · subst hj
    simp
  · have hj0 : j > 0 := Nat.pos_of_ne_zero hj
    simp [hj, hj0]

theorem flatMap_first_newline (g : Nat → List Nat) (m : Nat) (hm : 0 < m) :
    (List.range m).flatMap (fun j => (if j = 0 then [10] else []) ++ g j)
      = [10] ++ (List.range m).flatMap g := by
  obtain ⟨k, rfl⟩ : ∃ k, m = k + 1 := ⟨m - 1, by omega⟩
  rw [List.range_succ_eq_map]
  simp [List.flatMap_cons, List.flatMap_map]

/-- The pieces of a dump whose first line is full: the first line, then, when bytes are
left, a newline and the pieces of the dump of the rest. -/
theorem hexPieces_chunk (a b pre space : List Nat) (ha : a.length = 16) :
    (List.range (a ++ b).length).flatMap (hexPiece (a ++ b) pre space)
      = (List.range a.length).flatMap (hexPiece a pre space) ++
        (if b = [] then []
          else [10] ++ (List.range b.length).flatMap (hexPiece b pre space)) := by
  rw [List.length_append, List.range_add, List.flatMap_append, List.flatMap_map]
  congr 1
  · apply List.flatMap_congr
    intro i hi
    exact hexPiece_left a b pre space i (List.mem_range.mp hi)
  · by_cases hb : b = []
    · subst hb
      simp
    · rw [if_neg hb]
      have hlen : 0 < b.length := List.length_pos.mpr hb
      rw [← flatMap_first_newline (hexPiece b pre space) b.length hlen]
      apply List.flatMap_congr
      intro j _
      rw [ha]
      exact hexPiece_right a b pre space j ha

theorem hexLines_short (l : List Nat) (h0 : l ≠ []) (h16 : l.length ≤ 16) :
    hexLines l = [l] := by
  have hlen : 0 < l.length := List.length_pos.mpr h0
  have hk : (l.length + 15) / 16 = 1 := by omega
  unfold hexLines
  rw [hk]
  simp [List.range_succ, List.take_of_length_le h16]

theorem hexLines_chunk (a b : List Nat) (ha : a.length = 16) :
    hexLines (a ++ b) = a :: hexLines b := by
  have hk : ((a ++ b).length + 15) / 16 = (b.length + 15) / 16 + 1 := by
    rw [List.length_append, ha]; omega
  unfold hexLines
  rw [hk, List.range_succ_eq_map, List.map_cons, List.map_map]
  congr 1
  · simp [ha]
  · apply List.map_congr_left
    intro k _
    have hd : (a ++ b).drop (16 * (k + 1)) = b.drop (16 * k) := by
      have e : 16 * (k + 1) = a.length + 16 * k := by omega
      rw [e, List.drop_append]
    simp only [Function.comp, hd]

theorem hexLines_ne_nil (b : List Nat) (hb : b ≠ []) : hexLines b ≠ [] := by
  have hlen : 0 < b.length := List.length_pos.mpr hb
  obtain ⟨k, hk⟩ : ∃ k, (b.length + 15) / 16 = k + 1 := ⟨(b.length + 15) / 16 - 1, by omega⟩
  unfold hexLines
  rw [hk, List.range_succ_eq_map]
  simp

theorem intercalate_cons_ne (sep x : List Nat) (xs : List (List Nat)) (h : xs ≠ []) :
    List.intercalate sep (x :: xs) = x ++ sep ++ List.intercalate sep xs := by
  match xs, h with
  | y :: ys, _ => simp [List.intercalate, List.intersperse]

theorem hexDumpText_chunk (a b pre space : List Nat) (ha : a.length = 16) :
    hexDumpText (a ++ b) pre space
      = hexLineText pre space a ++
        (if b = [] then [] else [10] ++ hexDumpText b pre space) := by
  unfold hexDumpText
  rw [hexLines_chunk a b ha, List.map_cons]
  by_cases hb : b = []
  · subst hb
    simp [hexLines, List.intercalate]
  · rw [if_neg hb, intercalate_cons_ne _ _ _ (by simpa using hexLines_ne_nil b hb),
      List.append_assoc]

theorem hexPieces_eq_text (pre space : List Nat) (n : Nat) :
    ∀ data : List Nat, data.length = n →
      (List.range data.length).flatMap (hexPiece data pre space)
        = hexDumpText data pre space := by
  induction n using Nat.strong_induction_on with
  | _ n ih =>
    intro data hn
    by_cases h0 : data = []
    · subst h0
      rfl
    · by_cases h16 : data.length ≤ 16
      · rw [hexLine_pieces pre space data h0 h16]
        unfold hexDumpText
        rw [hexLines_short data h0 h16]
        simp [List.intercalate]
      · have hsplit : data = data.take 16 ++ data.drop 16 := (List.take_append_drop 16 data).symm
        have ha : (data.take 16).length = 16 := by simp; omega
        have hb : (data.drop 16).length < n := by simp; omega
        have hbne : data.drop 16 ≠ [] := by
          intro h
          have := congrArg List.length h
          simp at this
          omega
        rw [hsplit, hexPieces_chunk _ _ pre space ha, hexDumpText_chunk _ _ pre space ha,
          if_neg hbne, if_neg hbne, ih _ hb (data.drop 16) rfl,
          hexLine_pieces pre space (data.take 16) (by intro h; rw [h] at ha; cases ha)
            (Nat.le_of_eq ha)]

theorem hexLines_flatten (n : Nat) :
    ∀ data : List Nat, data.length = n → (hexLines data).flatten = data := by
  induction n using Nat.strong_induction_on with
  | _ n ih =>
    intro data hn
    by_cases h0 : data = []
    · subst h0
      rfl
    · by_cases h16 : data.length ≤ 16
      · rw [hexLines_short data h0 h16]
        simp
      · have hsplit : data = data.take 16 ++ data.drop 16 := (List.take_append_drop 16 data).symm
        have ha : (data.take 16).length = 16 := by simp; omega
        have hb : (data.drop 16).length < n := by simp; omega
        conv_lhs => rw [hsplit]
        rw [hexLines_chunk _ _ ha, List.flatten_cons, ih _ hb (data.drop 16) rfl,
          List.take_append_drop]

theorem hexLines_bounds (data : List Nat) :
    ∀ l ∈ hexLines data, 0 < l.length ∧ l.length ≤ 16 := by
  intro l hl
  unfold hexLines at hl
  rw [List.mem_map] at hl
  obtain ⟨k, hk, rfl⟩ := hl
  rw [List.mem_range] at hk
  simp only [List.length_take, List.length_drop]
  omega

set_option maxRecDepth 100000 in
/-- C35: for every byte sequence, prefix and space string, `prettyHexIndent` returns the
lines of the dump joined by single newlines, nothing after the last line: there are
`ceil(n/16)` lines (none, so the empty string, for `n = 0`), they are the consecutive
runs of 16 bytes of the data, the last one possibly shorter, and each line is the prefix
followed by its bytes as two upper-case hex digits each, one space between consecutive
bytes and `space` after the space between the 8th and the 9th byte.  The cases of
`TestPrettyHexIndent` evaluate to the expected texts. -/
theorem prettyHexIndent_is_hex_dump (data pre space : List Nat) :
    prettyHexIndent [] pre space = [] ∧
    prettyHexIndent data pre space
      = List.intercalate [10] ((hexLines data).map (hexLineText pre space)) ∧
    (hexLines data).length = (data.length + 15) / 16 ∧
    (hexLines data).flatten = data ∧
    (∀ l ∈ hexLines data, 0 < l.length ∧ l.length ≤ 16) ∧
    (List.range 16).map udigits = str "0123456789ABCDEF" ∧
    prettyHexIndent [0x00] (str "  ") (str "") = str "  00" ∧
    prettyHexIndent [0x00, 0x01, 0x02] (str "    ") (str "") = str "    00 01 02" ∧
    prettyHexIndent (List.replicate 32 0x00) (str "    ") (str " ")
      = str "    00 00 00 00 00 00 00 00  00 00 00 00 00 00 00 00" ++ [10] ++
        str "    00 00 00 00 00 00 00 00  00 00 00 00 00 00 00 00" := by
  refine ⟨rfl, ?_, ?_, hexLines_flatten _ data rfl, hexLines_bounds data, by decide, by rfl,
    by rfl, by rfl⟩
  · rw [prettyHexIndent_pieces, hexPieces_eq_text pre space _ data rfl]
    rfl
  · simp [hexLines]

end Atecc
